import Mathlib

/-!
Verification development for the BSON→JSON transcoder
(`src/bson-to-json.cc`).  The transcoder engine (the `Transcoder` class)
is shallowly embedded: bytes are `Nat`s below 256, the input is a
`List Nat`, machine integers are `Nat`/`Int` with explicit wraparound,
loops are fuel-indexed structural recursions, and the stateful
read/write cursors become explicit state passing over `TState`.

The two external collaborators that the spec declares out of scope
(the double-to-shortest-string converter and `strftime`/`gmtime`) are
parameters (`dtoa`, `dateFmt`) of the embedding.
-/

namespace B2J

/-! ### Bytes and little-endian reads -/

/-- Read the byte at index `i`; out-of-range reads yield 0 (the C++ code
performs an out-of-bounds memory read there, which the state flags via
`oob`). -/
def byteAt (inp : List Nat) (i : Nat) : Nat := inp.getD i 0

/-- The block of `n` bytes starting at index `i`. -/
def bytesAt (inp : List Nat) (i : Nat) : Nat → List Nat
  | 0 => []
  | n + 1 => byteAt inp i :: bytesAt inp (i + 1) n

/-- Little-endian value of the `k` bytes at index `i` (`std::memcpy` into an
integer on a little-endian host). -/
def leBytes (inp : List Nat) (i : Nat) : Nat → Nat
  | 0 => 0
  | k + 1 => byteAt inp i + 256 * leBytes inp (i + 1) k

/-- Reinterpret a `w`-bit unsigned value as the two's-complement signed
integer of width `w` (the C++ `int32_t`/`int64_t` the bytes are copied
into). -/
def asIntW (w : Nat) (n : Nat) : Int :=
  if n < 2 ^ (w - 1) then (n : Int) else (n : Int) - 2 ^ w

/-- `size_t` subtraction `a - b` (wraps modulo `2^64`), as in the C++
expression `inLen - inIdx`. -/
def sub64 (a b : Nat) : Nat := (a + 2 ^ 64 - b) % 2 ^ 64

/-- IEEE-754 `std::isfinite` on the raw bits of a double: the exponent
field is not all-ones. -/
def isFiniteBits (bits : Nat) : Bool := (bits >>> 52) &&& 0x7ff != 0x7ff

/-! ### BSON element type constants -/

def BSON_DATA_NUMBER : Nat := 1
def BSON_DATA_STRING : Nat := 2
def BSON_DATA_OBJECT : Nat := 3
def BSON_DATA_ARRAY : Nat := 4
def BSON_DATA_BINARY : Nat := 5
def BSON_DATA_UNDEFINED : Nat := 6
def BSON_DATA_OID : Nat := 7
def BSON_DATA_BOOLEAN : Nat := 8
def BSON_DATA_DATE : Nat := 9
def BSON_DATA_NULL : Nat := 10
def BSON_DATA_REGEXP : Nat := 11
def BSON_DATA_DBPOINTER : Nat := 12
def BSON_DATA_CODE : Nat := 13
def BSON_DATA_SYMBOL : Nat := 14
def BSON_DATA_CODE_W_SCOPE : Nat := 15
def BSON_DATA_INT : Nat := 16
def BSON_DATA_TIMESTAMP : Nat := 17
def BSON_DATA_LONG : Nat := 18
def BSON_DATA_DECIMAL128 : Nat := 19
def BSON_DATA_MIN_KEY : Nat := 0xff
def BSON_DATA_MAX_KEY : Nat := 0x7f

/-! ### Two-digit table and `fast_itoa` -/

/-- The 200-byte `digits` table `"000102…9899"`: entry `2k` is the tens
digit of `k`, entry `2k+1` the ones digit. -/
def digitsTable : List Nat :=
  (List.range 100).flatMap (fun k => [48 + k / 10, 48 + k % 10])

/-- `val = 0 - val` on a signed `w`-bit integer.  For `val = -2^(w-1)` this
overflows (UB in C++); like every mainstream compiler we model it as
two's-complement wraparound, which yields `-2^(w-1)` again. -/
def wrapNeg (w : Nat) (val : Int) : Int :=
  ((0 - val) + 2 ^ (w - 1)).emod (2 ^ w) - 2 ^ (w - 1)

/-- The digit-emitting part of `fast_itoa`: the `while (val >= 100)` loop
followed by the final one-or-two digit write.  The C++ fills the buffer
backwards; this returns the bytes in buffer order (most significant
first).  `fuel` bounds loop iterations; it corresponds to the
`INT_BUF_DIGS` buffer capacity and is never exhausted for values that
fit the integer width. -/
def itoaCore : Nat → Int → List Nat
  | 0, _ => []
  | fuel + 1, val =>
    if 100 ≤ val then
      itoaCore fuel (val.tdiv 100) ++
        [digitsTable.getD ((val.tmod 100).toNat * 2) 0,
         digitsTable.getD ((val.tmod 100).toNat * 2 + 1) 0]
    else if val < 10 then
      [((48 + val).emod 256).toNat]
    else
      [digitsTable.getD (val.toNat * 2) 0, digitsTable.getD (val.toNat * 2 + 1) 0]

/-- `INT_BUF_DIGS` specialisations: 11 for `int32_t`, 20 for `int64_t`. -/
def INT_BUF_DIGS (w : Nat) : Nat := if w = 32 then 11 else 20

/-- `fast_itoa` on a signed `w`-bit value: emit `-` for negatives and the
digits of `0 - val` (see `wrapNeg` for the `INT_MIN` overflow). -/
def fastItoa (w : Nat) (val : Int) : List Nat :=
  if val < 0 then 45 :: itoaCore (INT_BUF_DIGS w) (wrapNeg w val)
  else itoaCore (INT_BUF_DIGS w) val

/-! ### Escape primitives -/

/-- `getEscape`: the char used to escape `c` if it has a two-byte escape,
else 0. -/
def getEscape (c : Nat) : Nat :=
  if c = 0x08 then 98        -- b
  else if c = 0x09 then 116  -- t
  else if c = 0x0a then 110  -- n
  else if c = 0x0c then 102  -- f
  else if c = 0x0d then 114  -- r
  else if c = 0x22 then c
  else if c = 0x5c then c
  else 0

def HEX_DIGITS : List Nat := [48, 49, 50, 51, 52, 53, 54, 55, 56, 57, 97, 98, 99, 100, 101, 102]

def hexNib (nib : Nat) : Nat := HEX_DIGITS.getD nib 0

/-- `nDigits`: number of bytes of a null-terminated decimal rendering of
`v` (digits of `v` plus one). -/
def nDigits (v : Nat) : Nat :=
  if v < 10 then 2
  else if v < 100 then 3
  else if v < 1000 then 4
  else if v < 10000 then 5
  else if v < 100000 then 6
  else if v < 1000000 then 7
  else if v < 10000000 then 8
  else if v < 100000000 then 9
  else if v < 1000000000 then 10
  else 11

/-- The six bytes written by `writeControlChar`:
`\ u 0 0 (c & 0xf0 ? '1' : '0') hexNib(c & 0xf)`. -/
def writeControlChar (c : Nat) : List Nat :=
  [92, 117, 48, 48, if c &&& 0xf0 ≠ 0 then 49 else 48, hexNib (c &&& 0xf)]

/-- The bytes the escape writer emits for one input byte `c`, following the
branch structure shared by all `writeEscapedChars` overloads: verbatim,
two-byte escape via `getEscape`, or `writeControlChar`. -/
def escapeByte (c : Nat) : List Nat :=
  if 0x20 ≤ c ∧ c ≠ 0x22 ∧ c ≠ 0x5c then [c]
  else if getEscape c ≠ 0 then [92, getEscape c]
  else writeControlChar c

def escapeBytes (s : List Nat) : List Nat := s.flatMap escapeByte

/-! ### Transcoder state -/

inductive Mode where
  | REALLOC : Mode
  | PAUSE : Mode
  deriving DecidableEq, Repr

/-- The observable state of a `Transcoder`.  `out` collects every byte
ever written (in PAUSE mode the consumer drains the buffer, so `outIdx`
can reset while `out` keeps accumulating the full stream).  `oob` is
instrumentation: it turns true when a scalar read touches an index past
the end of `inp` (an out-of-bounds memory read in the C++).
`sawUndefined` is instrumentation recording that a `0x06 UNDEFINED`
element was dispatched.  `allocs` is an oracle for `realloc` outcomes:
each `resize` consumes one entry, an exhausted oracle means success. -/
structure TState where
  inp : List Nat
  inIdx : Nat
  out : List Nat
  outIdx : Nat
  outLen : Nat
  err : Option String
  oob : Bool
  sawUndefined : Bool
  allocs : List Bool
  deriving DecidableEq, Repr

def initState (inp : List Nat) (allocs : List Bool) : TState :=
  { inp := inp, inIdx := 0, out := [], outIdx := 0, outLen := 0,
    err := none, oob := false, sawUndefined := false, allocs := allocs }

/-- `in[inIdx++]`. -/
def readByte (s : TState) : Nat × TState :=
  (byteAt s.inp s.inIdx,
   { s with inIdx := s.inIdx + 1,
            oob := s.oob || decide (s.inp.length ≤ s.inIdx) })

/-- `readLE<T>` for a `k`-byte `T`: unchecked `memcpy` from `in + inIdx`,
then advance. -/
def readLEn (k : Nat) (s : TState) : Nat × TState :=
  (leBytes s.inp s.inIdx k,
   { s with inIdx := s.inIdx + k,
            oob := s.oob || decide (s.inp.length < s.inIdx + k) })

/-- Append one byte at `out[outIdx++]`. -/
def push (s : TState) (b : Nat) : TState :=
  { s with out := s.out ++ [b], outIdx := s.outIdx + 1 }

/-- Append a run of bytes (a `memcpy`/vector store of `bs.length` bytes). -/
def pushAll (s : TState) (bs : List Nat) : TState :=
  { s with out := s.out ++ bs, outIdx := s.outIdx + bs.length }

/-- `resize(to)`: `realloc` to `to` bytes.  Success updates `outLen`;
failure sets `err` and returns `true`.  The outcome is drawn from the
`allocs` oracle (empty oracle = success). -/
def resize (sz : Nat) (s : TState) : Bool × TState :=
  match s.allocs with
  | [] => (false, { s with outLen := sz })
  | ok :: rest =>
    if ok then (false, { s with outLen := sz, allocs := rest })
    else (true, { s with err := some "Allocation failure", allocs := rest })

/-- `ensureSpace(n)`: fast path if `outIdx + n < outLen`; otherwise in
REALLOC mode a single `resize(outLen * 3 / 2)`, in PAUSE mode notify the
consumer and wait until it has drained the buffer (`outIdx == 0`). -/
def ensureSpace (mode : Mode) (n : Nat) (s : TState) : Bool × TState :=
  if s.outIdx + n < s.outLen then (false, s)
  else
    match mode with
    | Mode.REALLOC => resize ((s.outLen * 3) >>> 1) s
    | Mode.PAUSE => (false, { s with outIdx := 0 })

/-- `isDone`: `inIdx == inLen`. -/
def isDone (s : TState) : Bool := s.inIdx == s.inp.length

/-! ### Escape writers -/

/-- Loop body of the bounded BASELINE `writeEscapedChars(n, …)`.  `fuel`
bounds iterations (each consumes one input byte, so `n + 1` is always
enough). -/
def escNLoopB (mode : Mode) : Nat → Nat → TState → Option (Bool × TState)
  | 0, _, _ => none
  | fuel + 1, endIdx, s =>
    if s.inIdx < endIdx then
      match readByte s with
      | (c, s) =>
        if 0x20 ≤ c ∧ c ≠ 0x22 ∧ c ≠ 0x5c then
          escNLoopB mode fuel endIdx (push s c)
        else if getEscape c ≠ 0 then
          match ensureSpace mode (endIdx - s.inIdx + 1) s with
          | (true, s) => some (true, s)
          | (false, s) => escNLoopB mode fuel endIdx (push (push s 92) (getEscape c))
        else
          match ensureSpace mode (endIdx - s.inIdx + 5) s with
          | (true, s) => some (true, s)
          | (false, s) => escNLoopB mode fuel endIdx (pushAll s (writeControlChar c))
    else some (false, s)

/-- Bounded BASELINE `writeEscapedChars(n, Enabler<BASELINE>)`: entry
`ensureSpace(n)`, then the per-byte loop up to `end = inIdx + n`. -/
def writeEscapedCharsNB (mode : Mode) (fuel n : Nat) (s : TState) : Option (Bool × TState) :=
  match ensureSpace mode n s with
  | (true, s1) => some (true, s1)
  | (false, s1) => escNLoopB mode fuel (s.inIdx + n) s1

/-- Null-terminated BASELINE `writeEscapedChars(Enabler<BASELINE>)`:
`while ((c = in[inIdx++])) { … } inIdx--;`. -/
def escCstrB (mode : Mode) : Nat → TState → Option (Bool × TState)
  | 0, _ => none
  | fuel + 1, s =>
    match readByte s with
    | (c, s) =>
      if c = 0 then some (false, { s with inIdx := s.inIdx - 1 })
      else if 0x20 ≤ c ∧ c ≠ 0x22 ∧ c ≠ 0x5c then
        match ensureSpace mode 1 s with
        | (true, s) => some (true, s)
        | (false, s) => escCstrB mode fuel (push s c)
      else if getEscape c ≠ 0 then
        match ensureSpace mode 2 s with
        | (true, s) => some (true, s)
        | (false, s) => escCstrB mode fuel (push (push s 92) (getEscape c))
      else
        match ensureSpace mode 6 s with
        | (true, s) => some (true, s)
        | (false, s) => escCstrB mode fuel (pushAll s (writeControlChar c))

/-- A byte viewed as the signed `int8` SIMD lane value. -/
def sbyte (c : Nat) : Int :=
  if c % 256 < 128 then (c % 256 : Int) else (c % 256 : Int) - 256

/-- Per-lane predicate of the null-terminated AVX2 writer:
`_mm256_cmpgt_epi8(0x20, c) | (c == 0x22) | (c == 0x5c)`.  The compare
is SIGNED (the `0x80`-xor trick of the bounded version is absent here),
so lanes `≥ 0x80` also test positive. -/
def needsEscAvx2Cstr (c : Nat) : Bool :=
  decide (sbyte c < 0x20) || c == 0x22 || c == 0x5c

/-- `_tzcnt_u32(movemask(…))` over a `width`-lane block starting at `i`:
index of the first lane satisfying the predicate, or `width`. -/
def blockFirstEsc (inp : List Nat) (i width : Nat) : Nat :=
  ((List.range width).findIdx? (fun j => needsEscAvx2Cstr (byteAt inp (i + j)))).getD width

/-- Null-terminated AVX2 `writeEscapedChars(Enabler<ISA::AVX2>)`.  The
32-byte store may overrun, but `outIdx` only advances by `esRIdx`, so
only the first `esRIdx` stored bytes are authoritative (modelled by
pushing exactly those). -/
def escCstrAvx2 (mode : Mode) : Nat → TState → Option (Bool × TState)
  | 0, _ => none
  | fuel + 1, s =>
    if s.inIdx < s.inp.length then
      let esRIdx := blockFirstEsc s.inp s.inIdx 32
      match ensureSpace mode esRIdx s with
      | (true, s) => some (true, s)
      | (false, s) =>
        let s1 := pushAll s (bytesAt s.inp s.inIdx esRIdx)
        let s2 := { s1 with inIdx := s1.inIdx + esRIdx }
        if esRIdx < 32 then
          if byteAt s2.inp s2.inIdx = 0 then some (false, s2)
          else
            match readByte s2 with
            | (c, s3) =>
              if getEscape c ≠ 0 then
                match ensureSpace mode 2 s3 with
                | (true, s4) => some (true, s4)
                | (false, s4) => escCstrAvx2 mode fuel (push (push s4 92) (getEscape c))
              else
                match ensureSpace mode 6 s3 with
                | (true, s4) => some (true, s4)
                | (false, s4) => escCstrAvx2 mode fuel (pushAll s4 (writeControlChar c))
        else escCstrAvx2 mode fuel s2
    else some (false, s)

/-! ### ObjectId encoder -/

/-- Hex expansion of a run of bytes: each byte `b` becomes
`hexNib(b >> 4), hexNib(b & 0xf)`. -/
def oidHex : List Nat → List Nat
  | [] => []
  | b :: r => hexNib (b >>> 4) :: hexNib (b &&& 0xf) :: oidHex r

/-- BASELINE `transcodeObjectId`: quote, 12 bytes as 24 hex chars
(reading `in[inIdx++]` twelve times), quote. -/
def transcodeObjectIdB (s : TState) : TState :=
  let s1 := push s 34
  let s2 := pushAll s1 (oidHex (bytesAt s1.inp s1.inIdx 12))
  let s3 := { s2 with inIdx := s2.inIdx + 12,
                      oob := s2.oob || decide (s2.inp.length < s2.inIdx + 12) }
  push s3 34

/-! ### Document walker

`transcodeObject` is the BASELINE instantiation of the templated
`transcodeObject<isa>`.  The C++ `while (true)` element loop is split
off as `transcodeElems`, the comma emission and the field-name handling
of one loop iteration as `commaStep`/`nameStep`, and the body of the
`switch (elementType)` as `transcodeValue` with one function per
non-recursive case; all are parts of the same source function.  `fuel`
decreases on every mutual call and `none` means it ran out (never the
case for the fuel values used by `transcode`). -/

/-- `if (arrIdx) { ENSURE_SPACE_OR_RETURN(1); out[outIdx++] = ','; }` -/
def commaStep (mode : Mode) (arrIdx : Nat) (s : TState) : Bool × TState :=
  if arrIdx ≠ 0 then
    match ensureSpace mode 1 s with
    | (true, s) => (true, s)
    | (false, s) => (false, push s 44)
  else (false, s)

/-- Write the element name: for arrays skip the decimal index name
(`inIdx += nDigits(arrIdx)`), for documents emit `"`, the escaped
C-string name, `":`, and skip the NUL. -/
def nameStep (mode : Mode) (isArray : Bool) (arrIdx : Nat) (s : TState) :
    Option (Bool × TState) :=
  if isArray then some (false, { s with inIdx := s.inIdx + nDigits arrIdx })
  else
    match ensureSpace mode 1 s with
    | (true, s) => some (true, s)
    | (false, s) =>
      match escCstrB mode (s.inp.length + 1) (push s 34) with
      | none => none
      | some (true, s) => some (true, s)
      | some (false, s) =>
        match ensureSpace mode 2 { s with inIdx := s.inIdx + 1 } with
        | (true, s) => some (true, s)
        | (false, s) => some (false, push (push s 34) 58)

/-- `case BSON_DATA_STRING`. -/
def valString (mode : Mode) (s : TState) : Option (Bool × TState) :=
  match readLEn 4 s with
  | (szN, s) =>
    let size : Int := asIntW 32 szN
    if size ≤ 0 ∨ sub64 s.inp.length s.inIdx < size.toNat then
      some (true, { s with err := some "Bad string length" })
    else
      match ensureSpace mode 1 s with
      | (true, s) => some (true, s)
      | (false, s) =>
        match writeEscapedCharsNB mode (size.toNat - 1 + 1) (size.toNat - 1) (push s 34) with
        | none => none
        | some (true, s) => some (true, s)
        | some (false, s) =>
          match ensureSpace mode 1 { s with inIdx := s.inIdx + 1 } with
          | (true, s) => some (true, s)
          | (false, s) => some (false, push s 34)

/-- `case BSON_DATA_OID`. -/
def valOid (mode : Mode) (s : TState) : Option (Bool × TState) :=
  match ensureSpace mode 26 s with
  | (true, s) => some (true, s)
  | (false, s) => some (false, transcodeObjectIdB s)

/-- `case BSON_DATA_INT`. -/
def valInt (mode : Mode) (s : TState) : Option (Bool × TState) :=
  match readLEn 4 s with
  | (n, s) =>
    let bs := fastItoa 32 (asIntW 32 n)
    match ensureSpace mode bs.length s with
    | (true, s) => some (true, s)
    | (false, s) => some (false, pushAll s bs)

/-- `case BSON_DATA_NUMBER`. -/
def valNumber (mode : Mode) (dtoa : Nat → List Nat) (s : TState) : Option (Bool × TState) :=
  match readLEn 8 s with
  | (bits, s) =>
    if isFiniteBits bits then
      match ensureSpace mode 128 s with
      | (true, s) => some (true, s)
      | (false, s) => some (false, pushAll s (dtoa bits))
    else
      match ensureSpace mode 4 s with
      | (true, s) => some (true, s)
      | (false, s) => some (false, pushAll s [110, 117, 108, 108])

/-- The three zero-padded millisecond digit bytes of the date case:
`out[outIdx++] = n < k ? '0' : *temp_p++` three times over the
`fast_itoa` buffer of `millis`. -/
def dateMillisDigits (millis : Int) : List Nat :=
  let ms := fastItoa 32 millis
  let n := ms.length
  [if n < 3 then 48 else ms.getD 0 0,
   if n < 2 then 48 else ms.getD (if n < 3 then 0 else 1) 0,
   if n < 1 then 48 else ms.getD (if n < 2 then 0 else if n < 3 then 1 else 2) 0]

/-- `case BSON_DATA_DATE`. -/
def valDate (mode : Mode) (dateFmt : Int → List Nat) (s : TState) : Option (Bool × TState) :=
  match ensureSpace mode 26 s with
  | (true, s) => some (true, s)
  | (false, s) =>
    match readLEn 8 s with
    | (bits, s) =>
      let value : Int := asIntW 64 bits
      let seconds : Int := value.tdiv 1000
      let millis : Int := value.tmod 1000
      let s := pushAll (push s 34) (dateFmt seconds)
      let s := pushAll (push s 46) (dateMillisDigits millis)
      some (false, push (push s 90) 34)

/-- `case BSON_DATA_BOOLEAN`. -/
def valBoolean (mode : Mode) (s : TState) : Option (Bool × TState) :=
  match readByte s with
  | (v, s) =>
    if v = 1 then
      match ensureSpace mode 4 s with
      | (true, s) => some (true, s)
      | (false, s) => some (false, pushAll s [116, 114, 117, 101])
    else
      match ensureSpace mode 5 s with
      | (true, s) => some (true, s)
      | (false, s) => some (false, pushAll s [102, 97, 108, 115, 101])

/-- `case BSON_DATA_NULL`. -/
def valNull (mode : Mode) (s : TState) : Option (Bool × TState) :=
  match ensureSpace mode 4 s with
  | (true, s) => some (true, s)
  | (false, s) => some (false, pushAll s [110, 117, 108, 108])

/-- `case BSON_DATA_LONG`. -/
def valLong (mode : Mode) (s : TState) : Option (Bool × TState) :=
  match readLEn 8 s with
  | (n, s) =>
    let bs := fastItoa 64 (asIntW 64 n)
    match ensureSpace mode bs.length s with
    | (true, s) => some (true, s)
    | (false, s) => some (false, pushAll s bs)

mutual

def transcodeObject (mode : Mode) (dtoa : Nat → List Nat) (dateFmt : Int → List Nat) :
    Nat → Bool → TState → Option (Bool × TState)
  | 0, _, _ => none
  | fuel + 1, isArray, s =>
    match readLEn 4 s with
    | (sizeN, s) =>
      if asIntW 32 sizeN < 5 then
        some (true, { s with err := some "BSON size must be >=5" })
      else if s.inp.length < (asIntW 32 sizeN).toNat then
        some (true, { s with err := some "BSON size exceeds input length." })
      else
        match ensureSpace mode 1 s with
        | (true, s) => some (true, s)
        | (false, s) =>
          transcodeElems mode dtoa dateFmt fuel isArray 0 (push s (if isArray then 91 else 123))

def transcodeElems (mode : Mode) (dtoa : Nat → List Nat) (dateFmt : Int → List Nat) :
    Nat → Bool → Nat → TState → Option (Bool × TState)
  | 0, _, _, _ => none
  | fuel + 1, isArray, arrIdx, s =>
    match readByte s with
    | (t, s) =>
      if t = 0 then
        match ensureSpace mode 1 s with
        | (true, s) => some (true, s)
        | (false, s) => some (false, push s (if isArray then 93 else 125))
      else
        match commaStep mode arrIdx s with
        | (true, s) => some (true, s)
        | (false, s) =>
          match nameStep mode isArray arrIdx s with
          | none => none
          | some (true, s) => some (true, s)
          | some (false, s) =>
            match transcodeValue mode dtoa dateFmt fuel t s with
            | none => none
            | some (true, s) => some (true, s)
            | some (false, s) => transcodeElems mode dtoa dateFmt fuel isArray (arrIdx + 1) s

def transcodeValue (mode : Mode) (dtoa : Nat → List Nat) (dateFmt : Int → List Nat) :
    Nat → Nat → TState → Option (Bool × TState)
  | 0, _, _ => none
  | fuel + 1, t, s =>
    if t = BSON_DATA_STRING then valString mode s
    else if t = BSON_DATA_OID then valOid mode s
    else if t = BSON_DATA_INT then valInt mode s
    else if t = BSON_DATA_NUMBER then valNumber mode dtoa s
    else if t = BSON_DATA_DATE then valDate mode dateFmt s
    else if t = BSON_DATA_BOOLEAN then valBoolean mode s
    else if t = BSON_DATA_OBJECT then
      transcodeObject mode dtoa dateFmt fuel false s
    else if t = BSON_DATA_ARRAY then
      match transcodeObject mode dtoa dateFmt fuel true s with
      | none => none
      | some (true, s) => some (true, s)
      | some (false, s) =>
        if byteAt s.inp (s.inIdx - 1) ≠ 0 then
          some (true, { s with err := some "Invalid array terminator byte" })
        else some (false, s)
    else if t = BSON_DATA_NULL then valNull mode s
    else if t = BSON_DATA_LONG then valLong mode s
    else if t = BSON_DATA_UNDEFINED then
      some (false, { s with sawUndefined := true })
    else if t = BSON_DATA_DECIMAL128 ∨ t = BSON_DATA_BINARY ∨ t = BSON_DATA_REGEXP ∨
        t = BSON_DATA_SYMBOL ∨ t = BSON_DATA_TIMESTAMP ∨ t = BSON_DATA_MIN_KEY ∨
        t = BSON_DATA_MAX_KEY ∨ t = BSON_DATA_CODE ∨ t = BSON_DATA_CODE_W_SCOPE ∨
        t = BSON_DATA_DBPOINTER then
      some (true, { s with err := some "BSON type incompatible with JSON" })
    else
      some (true, { s with err := some "Unknown BSON type" })

end

/-- `Transcoder::transcode`: buffer set-up (initial size `2.5 × inLen`
when no chunk size or fixed buffer is given; the result of the initial
`resize` is ignored by the C++), the PAUSE start-up barrier, then the
top-level document walk. -/
def transcode (mode : Mode) (dtoa : Nat → List Nat) (dateFmt : Int → List Nat)
    (fuel : Nat) (inp : List Nat) (isArray : Bool) (chunkSize : Nat)
    (fixedOut : Bool) (allocs : List Bool) : Option (Bool × TState) :=
  let s := initState inp allocs
  let cs := if chunkSize = 0 ∧ fixedOut = false then (inp.length * 10) >>> 2 else chunkSize
  let s := if fixedOut = false then (resize cs s).2 else { s with outLen := cs }
  let s := if mode = Mode.PAUSE then { s with outIdx := 0 } else s
  transcodeObject mode dtoa dateFmt fuel isArray s

/-! ### JSON values and a standard JSON parser

Used to state that the transcoder's output is well-formed JSON.  String
contents are stored decoded (escape sequences resolved to their code
points), number tokens verbatim. -/

mutual
inductive JValue where
  | jnull : JValue
  | jbool : Bool → JValue
  | jnum : List Nat → JValue
  | jstr : List Nat → JValue
  | jarr : JItems → JValue
  | jobj : JFields → JValue
inductive JItems where
  | inil : JItems
  | icons : JValue → JItems → JItems
inductive JFields where
  | fnil : JFields
  | fcons : List Nat → JValue → JFields → JFields
end

deriving instance DecidableEq for JValue, JItems, JFields

def isWsB (c : Nat) : Bool := c == 32 || c == 9 || c == 10 || c == 13

def skipWs (l : List Nat) : List Nat := l.dropWhile isWsB

def isDigitB (c : Nat) : Bool := 48 ≤ c && c ≤ 57

def digitsSpan (l : List Nat) : List Nat × List Nat :=
  (l.takeWhile isDigitB, l.dropWhile isDigitB)

def hexVal (c : Nat) : Option Nat :=
  if 48 ≤ c ∧ c ≤ 57 then some (c - 48)
  else if 97 ≤ c ∧ c ≤ 102 then some (c - 87)
  else if 65 ≤ c ∧ c ≤ 70 then some (c - 55)
  else none

def escDecode (e : Nat) : Option Nat :=
  if e = 98 then some 8
  else if e = 116 then some 9
  else if e = 110 then some 10
  else if e = 102 then some 12
  else if e = 114 then some 13
  else if e = 34 then some 34
  else if e = 92 then some 92
  else if e = 47 then some 47
  else none

/-- Parse a JSON string body (after the opening quote) up to and over the
closing quote, decoding escapes. -/
def parseStr : Nat → List Nat → Option (List Nat × List Nat)
  | 0, _ => none
  | fuel + 1, l =>
    match l with
    | [] => none
    | c :: r =>
      if c = 34 then some ([], r)
      else if c = 92 then
        match r with
        | 117 :: h1 :: h2 :: h3 :: h4 :: rr =>
          match hexVal h1, hexVal h2, hexVal h3, hexVal h4 with
          | some a, some b, some c2, some d =>
            (match parseStr fuel rr with
             | some (cs, rest) => some ((a * 4096 + b * 256 + c2 * 16 + d) :: cs, rest)
             | none => none)
          | _, _, _, _ => none
        | e :: rr =>
          match escDecode e with
          | some x =>
            (match parseStr fuel rr with
             | some (cs, rest) => some (x :: cs, rest)
             | none => none)
          | none => none
        | [] => none
      else if c < 32 then none
      else
        match parseStr fuel r with
        | some (cs, rest) => some (c :: cs, rest)
        | none => none

/-- RFC 8259 `int` production: `0`, or a nonzero digit followed by
digits. -/
def parseIntPart (l : List Nat) : Option (List Nat × List Nat) :=
  match l with
  | 48 :: r => some ([48], r)
  | c :: _ =>
    if isDigitB c then some (digitsSpan l) else none
  | [] => none

/-- Optional `frac` production (`.` digits). -/
def parseFracPart (l : List Nat) : Option (List Nat × List Nat) :=
  match l with
  | 46 :: r =>
    (match digitsSpan r with
     | ([], _) => none
     | (ds, r2) => some (46 :: ds, r2))
  | _ => some ([], l)

/-- Optional `exp` production (`e`/`E`, optional sign, digits). -/
def parseExpPart (l : List Nat) : Option (List Nat × List Nat) :=
  match l with
  | c :: r =>
    if c = 101 ∨ c = 69 then
      match r with
      | 43 :: rr =>
        (match digitsSpan rr with
         | ([], _) => none
         | (ds, r2) => some (c :: 43 :: ds, r2))
      | 45 :: rr =>
        (match digitsSpan rr with
         | ([], _) => none
         | (ds, r2) => some (c :: 45 :: ds, r2))
      | _ =>
        (match digitsSpan r with
         | ([], _) => none
         | (ds, r2) => some (c :: ds, r2))
    else some ([], l)
  | [] => some ([], l)

def parseNumTail (ip r1 : List Nat) : Option (List Nat × List Nat) :=
  match parseFracPart r1 with
  | none => none
  | some (fp, r2) =>
    match parseExpPart r2 with
    | none => none
    | some (ep, r3) => some (ip ++ fp ++ ep, r3)

/-- Parse a JSON number token, returning it verbatim. -/
def parseNumber (l : List Nat) : Option (List Nat × List Nat) :=
  match l with
  | 45 :: r =>
    (match parseIntPart r with
     | none => none
     | some (ip, r1) =>
       match parseNumTail ip r1 with
       | some (tok, r2) => some (45 :: tok, r2)
       | none => none)
  | _ =>
    match parseIntPart l with
    | none => none
    | some (ip, r1) => parseNumTail ip r1

mutual

def parseValue : Nat → List Nat → Option (JValue × List Nat)
  | 0, _ => none
  | fuel + 1, l =>
    match skipWs l with
    | [] => none
    | c :: r =>
      if c = 34 then
        match parseStr fuel r with
        | some (s, rest) => some (.jstr s, rest)
        | none => none
      else if c = 123 then
        match skipWs r with
        | 125 :: r2 => some (.jobj .fnil, r2)
        | r2 =>
          match parseMembers fuel r2 with
          | some (fs, rest) => some (.jobj fs, rest)
          | none => none
      else if c = 91 then
        match skipWs r with
        | 93 :: r2 => some (.jarr .inil, r2)
        | r2 =>
          match parseItems fuel r2 with
          | some (xs, rest) => some (.jarr xs, rest)
          | none => none
      else if c = 116 then
        match r with
        | 114 :: 117 :: 101 :: r2 => some (.jbool true, r2)
        | _ => none
      else if c = 102 then
        match r with
        | 97 :: 108 :: 115 :: 101 :: r2 => some (.jbool false, r2)
        | _ => none
      else if c = 110 then
        match r with
        | 117 :: 108 :: 108 :: r2 => some (.jnull, r2)
        | _ => none
      else if c = 45 ∨ isDigitB c then
        match parseNumber (c :: r) with
        | some (tok, rest) => some (.jnum tok, rest)
        | none => none
      else none

def parseItems : Nat → List Nat → Option (JItems × List Nat)
  | 0, _ => none
  | fuel + 1, l =>
    match parseValue fuel l with
    | none => none
    | some (v, r) =>
      match skipWs r with
      | 44 :: r2 =>
        (match parseItems fuel r2 with
         | some (tl, rest) => some (.icons v tl, rest)
         | none => none)
      | 93 :: r2 => some (.icons v .inil, r2)
      | _ => none

def parseMembers : Nat → List Nat → Option (JFields × List Nat)
  | 0, _ => none
  | fuel + 1, l =>
    match l with
    | 34 :: r =>
      (match parseStr fuel r with
       | none => none
       | some (nm, r1) =>
         match skipWs r1 with
         | 58 :: r2 =>
           (match parseValue fuel r2 with
            | none => none
            | some (v, r3) =>
              match skipWs r3 with
              | 44 :: r4 =>
                (match parseMembers fuel (skipWs r4) with
                 | some (tl, rest) => some (.fcons nm v tl, rest)
                 | none => none)
              | 125 :: r4 => some (.fcons nm v .fnil, r4)
              | _ => none)
         | _ => none)
    | _ => none

end

/-- Parse a complete JSON text: one value, then only whitespace. -/
def jsonParse (fuel : Nat) (l : List Nat) : Option JValue :=
  match parseValue fuel l with
  | some (v, rest) => if skipWs rest = [] then some v else none
  | none => none

/-! ### Rendering, shapes, well-formedness -/

mutual

/-- The canonical byte rendering of a `JValue` as the transcoder emits
it: no whitespace, strings escaped with `escapeBytes`, number tokens
verbatim. -/
def renderV : JValue → List Nat
  | .jnull => [110, 117, 108, 108]
  | .jbool true => [116, 114, 117, 101]
  | .jbool false => [102, 97, 108, 115, 101]
  | .jnum s => s
  | .jstr s => 34 :: (escapeBytes s ++ [34])
  | .jarr xs => 91 :: renderItems 0 xs
  | .jobj fs => 123 :: renderFields 0 fs

/-- Array elements from position `k` on (comma before every element
except the first), then the closing bracket. -/
def renderItems : Nat → JItems → List Nat
  | _, .inil => [93]
  | k, .icons v tl =>
    (if k ≠ 0 then [44] else []) ++ (renderV v ++ renderItems (k + 1) tl)

/-- Object members from position `k` on, then the closing brace. -/
def renderFields : Nat → JFields → List Nat
  | _, .fnil => [125]
  | k, .fcons nm v tl =>
    (if k ≠ 0 then [44] else []) ++
      (34 :: (escapeBytes nm ++ (34 :: 58 :: (renderV v ++ renderFields (k + 1) tl))))

end

mutual

/-- The shape of a JSON value: leaf contents of numbers and strings are
erased, object member names and structure are kept. -/
def shapeOf : JValue → JValue
  | .jnull => .jnull
  | .jbool b => .jbool b
  | .jnum _ => .jnum []
  | .jstr _ => .jstr []
  | .jarr xs => .jarr (shapeItems xs)
  | .jobj fs => .jobj (shapeFields fs)

def shapeItems : JItems → JItems
  | .inil => .inil
  | .icons v tl => .icons (shapeOf v) (shapeItems tl)

def shapeFields : JFields → JFields
  | .fnil => .fnil
  | .fcons nm v tl => .fcons nm (shapeOf v) (shapeFields tl)

end

def toItems : List (List Nat × JValue) → JItems
  | [] => .inil
  | (_, v) :: r => .icons v (toItems r)

def toFields : List (List Nat × JValue) → JFields
  | [] => .fnil
  | (nm, v) :: r => .fcons nm v (toFields r)

def IsDigits (ds : List Nat) : Prop := ds ≠ [] ∧ ∀ c ∈ ds, isDigitB c = true

/-- A well-formed JSON number token per the RFC 8259 grammar
(`-? int frac? exp?`). -/
def NumToken (tok : List Nat) : Prop :=
  ∃ sgn ip fp ep,
    tok = sgn ++ (ip ++ (fp ++ ep)) ∧
    (sgn = [] ∨ sgn = [45]) ∧
    (ip = [48] ∨ (IsDigits ip ∧ ip.headD 0 ≠ 48)) ∧
    (fp = [] ∨ ∃ ds, IsDigits ds ∧ fp = 46 :: ds) ∧
    (ep = [] ∨ ∃ e sg ds, (e = 101 ∨ e = 69) ∧ (sg = [] ∨ sg = [43] ∨ sg = [45]) ∧
      IsDigits ds ∧ ep = e :: (sg ++ ds))

mutual

/-- Every number leaf holds a well-formed number token. -/
def WFV : JValue → Prop
  | .jnum s => NumToken s
  | .jarr xs => WFI xs
  | .jobj fs => WFF fs
  | _ => True

def WFI : JItems → Prop
  | .inil => True
  | .icons v tl => WFV v ∧ WFI tl

def WFF : JFields → Prop
  | .fnil => True
  | .fcons _ v tl => WFV v ∧ WFF tl

end

/-- Bytes that an escape writer passes through verbatim (printable and
not `"` or `\`). -/
def SafeChars (s : List Nat) : Prop := ∀ c ∈ s, 0x20 ≤ c ∧ c ≠ 0x22 ∧ c ≠ 0x5c

/-- The C-string at index `i`: bytes up to (not including) the first NUL
or the end of the input. -/
def cstrAt (inp : List Nat) (i : Nat) : List Nat :=
  if _h : i < inp.length then
    if byteAt inp i = 0 then [] else byteAt inp i :: cstrAt inp (i + 1)
  else []
termination_by inp.length - i

/-! ### Reference shape decoder

Modelled from the spec: the `walk` pseudocode of §4.5 and its type
dispatch table, together with the type-loss rules (§4.4: non-finite
doubles become `null`; §4.3/§3: strings, ObjectIds and dates become JSON
strings; ints, longs and finite doubles become numbers).  It computes
the expected JSON *shape* of the BSON document starting at index `i`
(leaf contents erased, names kept) and the index one past the document.
A `0x06 UNDEFINED` element has no JSON shape (§9 flags its elision as
producing malformed JSON), so it yields `none`, as do the unsupported
and unknown types. -/

mutual

def refDoc : Nat → List Nat → Nat → Bool → Option (JValue × Nat)
  | 0, _, _, _ => none
  | fuel + 1, inp, i, isArray =>
    match refElems fuel inp (i + 4) isArray 0 with
    | some (ps, e) =>
      some ((if isArray then JValue.jarr (toItems ps) else JValue.jobj (toFields ps)), e)
    | none => none

def refElems : Nat → List Nat → Nat → Bool → Nat → Option (List (List Nat × JValue) × Nat)
  | 0, _, _, _, _ => none
  | fuel + 1, inp, i, isArray, idx =>
    let t := byteAt inp i
    if t = 0 then some ([], i + 1)
    else
      let nm := if isArray then [] else cstrAt inp (i + 1)
      let j := if isArray then i + 1 + nDigits idx else i + 1 + (nm.length + 1)
      match refValue fuel inp j t with
      | none => none
      | some (v, k) =>
        match refElems fuel inp k isArray (idx + 1) with
        | some (ps, e) => some ((nm, v) :: ps, e)
        | none => none

def refValue : Nat → List Nat → Nat → Nat → Option (JValue × Nat)
  | 0, _, _, _ => none
  | fuel + 1, inp, j, t =>
    if t = BSON_DATA_STRING then
      some (.jstr [], j + 4 + (asIntW 32 (leBytes inp j 4)).toNat)
    else if t = BSON_DATA_OID then some (.jstr [], j + 12)
    else if t = BSON_DATA_INT then some (.jnum [], j + 4)
    else if t = BSON_DATA_NUMBER then
      some ((if isFiniteBits (leBytes inp j 8) then JValue.jnum [] else JValue.jnull), j + 8)
    else if t = BSON_DATA_DATE then some (.jstr [], j + 8)
    else if t = BSON_DATA_BOOLEAN then some (.jbool (byteAt inp j == 1), j + 1)
    else if t = BSON_DATA_OBJECT then refDoc fuel inp j false
    else if t = BSON_DATA_ARRAY then refDoc fuel inp j true
    else if t = BSON_DATA_NULL then some (.jnull, j)
    else if t = BSON_DATA_LONG then some (.jnum [], j + 8)
    else none

end

/-! ### Remaining helper definitions -/

/-- A list of genuine byte values (each below 256). -/
def ByteArr (l : List Nat) : Prop := ∀ b ∈ l, b < 256

/-- Reference decimal rendering of a natural number (shortest form, no
leading zeros). -/
def decRep (n : Nat) : List Nat :=
  if n < 10 then [48 + n] else decRep (n / 10) ++ [48 + n % 10]
termination_by n
decreasing_by exact Nat.div_lt_self (by omega) (by omega)

/-- A stand-in for the external double-to-shortest-string converter used
to instantiate witnesses: it renders every double as `0`. -/
def dtoaZero : Nat → List Nat := fun _ => [48]

/-- A stand-in for `strftime`/`gmtime` used to instantiate witnesses: the
empty rendering. -/
def dateFmtEmpty : Int → List Nat := fun _ => []


/-- `t` extends `s`: input unchanged, cursor advanced by `d`, the bytes
`add` appended to the output; error, undefined-flag and allocation
oracle untouched (`outIdx`, `outLen` and `oob` are unconstrained). -/
def Ext (s t : TState) (d : Nat) (add : List Nat) : Prop :=
  t.inp = s.inp ∧ t.inIdx = s.inIdx + d ∧ t.out = s.out ++ add ∧
  t.err = s.err ∧ t.sawUndefined = s.sawUndefined ∧ t.allocs = s.allocs

/-- Write-cursor invariant of the output buffer: the cursor never exceeds
the number of bytes produced so far, and in REALLOC mode (no mid-run
drain) it equals it, so `out[0..outIdx)` is the complete byte stream. -/
def OutInv (mode : Mode) (s : TState) : Prop :=
  s.outIdx ≤ s.out.length ∧ (mode = Mode.REALLOC → s.outIdx = s.out.length)


/-- Modelled from the spec: the escape table of §4.3 as the claim states
it — a byte is emitted verbatim iff `c ≥ 0x20 ∧ c ≠ 0x22 ∧ c ≠ 0x5c`,
the named control bytes and `"` `\\` get two-byte escapes, and every
other byte `< 0x20` the six-byte `\u00XX` with lowercase hex. -/
def specEscape (c : Nat) : List Nat :=
  if c = 0x08 then [92, 98]
  else if c = 0x09 then [92, 116]
  else if c = 0x0a then [92, 110]
  else if c = 0x0c then [92, 102]
  else if c = 0x0d then [92, 114]
  else if c = 0x22 then [92, 34]
  else if c = 0x5c then [92, 92]
  else if c < 0x20 then [92, 117, 48, 48, hexNib (c / 16), hexNib (c % 16)]
  else [c]

/-- Bytes that may continue a JSON number token. -/
def numContB (c : Nat) : Bool := isDigitB c || c == 46 || c == 101 || c == 69

/-- A rendered value followed by `tail` parses back exactly when `tail`
cannot extend a number token. -/
def Stops (tail : List Nat) : Prop :=
  match tail with
  | [] => True
  | c :: _ => numContB c = false

/-! ### Value sizes and byte well-formedness -/

mutual

/-- Structural size of a JSON value, used to bound the parser fuel. -/
def sizeV : JValue → Nat
  | .jnull => 1
  | .jbool _ => 1
  | .jnum _ => 1
  | .jstr s => s.length + 1
  | .jarr xs => sizeI xs + 1
  | .jobj fs => sizeF fs + 1

def sizeI : JItems → Nat
  | .inil => 1
  | .icons v tl => sizeV v + sizeI tl + 1

def sizeF : JFields → Nat
  | .fnil => 1
  | .fcons nm v tl => nm.length + sizeV v + sizeF tl + 2

end

mutual

/-- Every string leaf (and member name) of the value is made of genuine
bytes. -/
def BV : JValue → Prop
  | .jstr s => ByteArr s
  | .jarr xs => BVI xs
  | .jobj fs => BVF fs
  | _ => True

def BVI : JItems → Prop
  | .inil => True
  | .icons v tl => BV v ∧ BVI tl

def BVF : JFields → Prop
  | .fnil => True
  | .fcons nm v tl => ByteArr nm ∧ BV v ∧ BVF tl

end

/-! ### Lemmas -/
theorem Ext.refl (s : TState) : Ext s s 0 [] := by
  simp [Ext]

theorem Ext.trans {s t u : TState} {d1 d2 : Nat} {a1 a2 : List Nat}
    (h1 : Ext s t d1 a1) (h2 : Ext t u d2 a2) : Ext s u (d1 + d2) (a1 ++ a2) := by
  obtain ⟨i1, x1, o1, e1, u1, l1⟩ := h1
  obtain ⟨i2, x2, o2, e2, u2, l2⟩ := h2
  refine ⟨i2.trans i1, by omega, ?_, e2.trans e1, u2.trans u1, l2.trans l1⟩
  rw [o2, o1, List.append_assoc]

theorem Ext.cast {s t : TState} {d d2 : Nat} {a1 a2 : List Nat}
    (h : Ext s t d a1) (hd : d = d2) (ha : a1 = a2) : Ext s t d2 a2 := by
  rw [← hd, ← ha]; exact h

theorem Ext_push (s : TState) (b : Nat) : Ext s (push s b) 0 [b] := by
  simp [Ext, push]

theorem Ext_pushAll (s : TState) (bs : List Nat) : Ext s (pushAll s bs) 0 bs := by
  simp [Ext, pushAll]

theorem Ext_readByte (s : TState) : Ext s (readByte s).2 1 [] := by
  simp [Ext, readByte]

theorem readByte_fst (s : TState) : (readByte s).1 = byteAt s.inp s.inIdx := rfl

theorem Ext_readLEn (k : Nat) (s : TState) : Ext s (readLEn k s).2 k [] := by
  simp [Ext, readLEn]

theorem readLEn_fst (k : Nat) (s : TState) : (readLEn k s).1 = leBytes s.inp s.inIdx k := rfl

/-- With an exhausted allocation oracle, `ensureSpace` always succeeds and
changes nothing observable. -/
theorem ensureSpace_ok (mode : Mode) (k : Nat) (s : TState) (h : s.allocs = []) :
    ∃ t, ensureSpace mode k s = (false, t) ∧ Ext s t 0 [] := by
  unfold ensureSpace resize
  split
  · exact ⟨s, rfl, Ext.refl s⟩
  · cases mode with
    | REALLOC =>
      rw [h]
      exact ⟨_, rfl, by simp [Ext, h]⟩
    | PAUSE =>
      exact ⟨_, rfl, by simp [Ext]⟩

theorem byteAt_past_end {inp : List Nat} {i : Nat} (h : inp.length ≤ i) :
    byteAt inp i = 0 := by
  simp [byteAt, List.getD_eq_getElem?_getD, List.getElem?_eq_none h]

theorem cstrAt_nil {inp : List Nat} {i : Nat} (h : byteAt inp i = 0) :
    cstrAt inp i = [] := by
  rw [cstrAt]
  split <;> simp [h]

theorem cstrAt_cons {inp : List Nat} {i : Nat} (h : byteAt inp i ≠ 0) :
    cstrAt inp i = byteAt inp i :: cstrAt inp (i + 1) := by
  have hlt : i < inp.length := by
    by_contra hge
    exact h (byteAt_past_end (by omega))
  rw [cstrAt, dif_pos hlt, if_neg h]

theorem escapeBytes_nil : escapeBytes [] = [] := rfl

theorem escapeBytes_cons (c : Nat) (l : List Nat) :
    escapeBytes (c :: l) = escapeByte c ++ escapeBytes l := by
  simp [escapeBytes]

theorem bytesAt_succ (inp : List Nat) (i n : Nat) :
    bytesAt inp i (n + 1) = byteAt inp i :: bytesAt inp (i + 1) n := rfl

/-- The bounded BASELINE escape loop: success, advancing by `n` and
appending exactly the per-byte escape expansion of the `n` bytes at the
cursor. -/
theorem escNLoopB_spec (mode : Mode) (n : Nat) :
    ∀ (fuel : Nat) (s : TState), n < fuel → s.allocs = [] →
    ∃ t, escNLoopB mode fuel (s.inIdx + n) s = some (false, t) ∧
      Ext s t n (escapeBytes (bytesAt s.inp s.inIdx n)) := by
  induction n with
  | zero =>
    intro fuel s hf _
    match fuel, hf with
    | fuel + 1, _ =>
      refine ⟨s, ?_, by simp [Ext, bytesAt, escapeBytes]⟩
      simp [escNLoopB]
  | succ n ih =>
    intro fuel s hf ha
    match fuel, hf with
    | fuel + 1, hf =>
      have hn : n < fuel := by omega
      simp only [escNLoopB, readByte_fst,
        if_pos (show s.inIdx < s.inIdx + (n + 1) by omega)]
      set c := byteAt s.inp s.inIdx with hc
      by_cases h1 : 0x20 ≤ c ∧ c ≠ 0x22 ∧ c ≠ 0x5c
      · rw [if_pos h1]
        obtain ⟨hi1, hx1, ho1, he1, hu1, hl1⟩ :
            Ext s (push (readByte s).2 c) 1 [c] := by
          simpa using Ext.trans (Ext_readByte s) (Ext_push (readByte s).2 c)
        obtain ⟨t, hrun, hext2⟩ := ih fuel (push (readByte s).2 c) hn (hl1.trans ha)
        rw [hi1, hx1] at hext2
        refine ⟨t, ?_, ?_⟩
        · rw [hx1] at hrun
          rw [show s.inIdx + (n + 1) = s.inIdx + 1 + n from by omega]
          exact hrun
        · have htr := Ext.trans (show Ext s (push (readByte s).2 c) 1 [c] from
            ⟨hi1, hx1, ho1, he1, hu1, hl1⟩) hext2
          refine htr.cast (by omega) ?_
          rw [bytesAt_succ, escapeBytes_cons, ← hc,
            show escapeByte c = [c] from by rw [escapeByte, if_pos h1]]
      · rw [if_neg h1]
        by_cases h2 : getEscape c ≠ 0
        · rw [if_pos h2]
          obtain ⟨t1, hens, hext1⟩ :=
            ensureSpace_ok mode (s.inIdx + (n + 1) - (readByte s).2.inIdx + 1) (readByte s).2
              (((Ext_readByte s).2.2.2.2.2).trans ha)
          rw [hens]
          obtain ⟨hi1, hx1, ho1, he1, hu1, hl1⟩ :
              Ext s (push (push t1 92) (getEscape c)) 1 [92, getEscape c] := by
            have := ((Ext_readByte s).trans hext1).trans
              ((Ext_push t1 92).trans (Ext_push (push t1 92) (getEscape c)))
            simpa using this
          obtain ⟨t, hrun, hext2⟩ := ih fuel (push (push t1 92) (getEscape c)) hn (hl1.trans ha)
          rw [hi1, hx1] at hext2
          refine ⟨t, ?_, ?_⟩
          · rw [hx1] at hrun
            rw [show s.inIdx + (n + 1) = s.inIdx + 1 + n from by omega]
            exact hrun
          · have htr := Ext.trans (show Ext s (push (push t1 92) (getEscape c)) 1
                [92, getEscape c] from ⟨hi1, hx1, ho1, he1, hu1, hl1⟩) hext2
            refine htr.cast (by omega) ?_
            rw [bytesAt_succ, escapeBytes_cons, ← hc,
              show escapeByte c = [92, getEscape c] from by
                rw [escapeByte, if_neg h1, if_pos h2]]
        · rw [if_neg h2]
          obtain ⟨t1, hens, hext1⟩ :=
            ensureSpace_ok mode (s.inIdx + (n + 1) - (readByte s).2.inIdx + 5) (readByte s).2
              (((Ext_readByte s).2.2.2.2.2).trans ha)
          rw [hens]
          obtain ⟨hi1, hx1, ho1, he1, hu1, hl1⟩ :
              Ext s (pushAll t1 (writeControlChar c)) 1 (writeControlChar c) := by
            have := ((Ext_readByte s).trans hext1).trans (Ext_pushAll t1 (writeControlChar c))
            simpa using this
          obtain ⟨t, hrun, hext2⟩ := ih fuel (pushAll t1 (writeControlChar c)) hn (hl1.trans ha)
          rw [hi1, hx1] at hext2
          refine ⟨t, ?_, ?_⟩
          · rw [hx1] at hrun
            rw [show s.inIdx + (n + 1) = s.inIdx + 1 + n from by omega]
            exact hrun
          · have htr := Ext.trans (show Ext s (pushAll t1 (writeControlChar c)) 1
                (writeControlChar c) from ⟨hi1, hx1, ho1, he1, hu1, hl1⟩) hext2
            refine htr.cast (by omega) ?_
            rw [bytesAt_succ, escapeBytes_cons, ← hc,
              show escapeByte c = writeControlChar c from by
                rw [escapeByte, if_neg h1, if_neg h2]]



/-- Entry point of the bounded BASELINE escape writer: with fuel `n + 1`
it succeeds, advances the input cursor by `n` and appends the per-byte
escape expansion of the `n` bytes at the cursor. -/
theorem writeEscapedCharsNB_spec (mode : Mode) (n : Nat) (s : TState) (ha : s.allocs = []) :
    ∃ t, writeEscapedCharsNB mode (n + 1) n s = some (false, t) ∧
      Ext s t n (escapeBytes (bytesAt s.inp s.inIdx n)) := by
  unfold writeEscapedCharsNB
  obtain ⟨t1, hens, hext1⟩ := ensureSpace_ok mode n s ha
  rw [hens]
  obtain ⟨hi1, hx1, ho1, he1, hu1, hl1⟩ := hext1
  obtain ⟨t, hrun, hext2⟩ := escNLoopB_spec mode n (n + 1) t1 (by omega) (hl1.trans ha)
  rw [hi1, hx1, Nat.add_zero] at hext2
  rw [hx1, Nat.add_zero] at hrun
  refine ⟨t, hrun, ?_⟩
  exact ((show Ext s t1 0 [] from ⟨hi1, hx1, ho1, he1, hu1, hl1⟩).trans hext2).cast
    (by omega) (by simp)

/-- The null-terminated BASELINE escape writer: success, cursor left at
the NUL (advanced by the name's length), output extended by the escape
expansion of the name. -/
theorem escCstrB_spec (mode : Mode) :
    ∀ (fuel : Nat) (s : TState), (cstrAt s.inp s.inIdx).length < fuel → s.allocs = [] →
    ∃ t, escCstrB mode fuel s = some (false, t) ∧
      Ext s t (cstrAt s.inp s.inIdx).length (escapeBytes (cstrAt s.inp s.inIdx)) := by
  intro fuel
  induction fuel with
  | zero => intro s h _; omega
  | succ fuel ih =>
    intro s hlen ha
    simp only [escCstrB, readByte_fst]
    by_cases h0 : byteAt s.inp s.inIdx = 0
    · rw [if_pos h0, cstrAt_nil h0]
      refine ⟨_, rfl, ?_, ?_, ?_, ?_, ?_, ?_⟩ <;> simp [readByte, escapeBytes]
    · rw [if_neg h0, cstrAt_cons h0]
      set c := byteAt s.inp s.inIdx with hc
      have hrest : (cstrAt s.inp (s.inIdx + 1)).length < fuel := by
        rw [cstrAt_cons h0] at hlen
        simpa using hlen
      by_cases h1 : 0x20 ≤ c ∧ c ≠ 0x22 ∧ c ≠ 0x5c
      · rw [if_pos h1]
        obtain ⟨t1, hens, hext1⟩ := ensureSpace_ok mode 1 (readByte s).2
          (((Ext_readByte s).2.2.2.2.2).trans ha)
        rw [hens]
        obtain ⟨hi1, hx1, ho1, he1, hu1, hl1⟩ :
            Ext s (push t1 c) 1 [c] := by
          simpa using ((Ext_readByte s).trans hext1).trans (Ext_push t1 c)
        obtain ⟨t, hrun, hext2⟩ := ih (push t1 c) (by rw [hi1, hx1]; exact hrest) (hl1.trans ha)
        rw [hi1, hx1] at hext2
        refine ⟨t, hrun, ?_⟩
        have htr := Ext.trans (show Ext s (push t1 c) 1 [c] from
          ⟨hi1, hx1, ho1, he1, hu1, hl1⟩) hext2
        refine htr.cast (by simp only [List.length_cons]; omega) ?_
        rw [escapeBytes_cons, show escapeByte c = [c] from by rw [escapeByte, if_pos h1]]
      · rw [if_neg h1]
        by_cases h2 : getEscape c ≠ 0
        · rw [if_pos h2]
          obtain ⟨t1, hens, hext1⟩ := ensureSpace_ok mode 2 (readByte s).2
            (((Ext_readByte s).2.2.2.2.2).trans ha)
          rw [hens]
          obtain ⟨hi1, hx1, ho1, he1, hu1, hl1⟩ :
              Ext s (push (push t1 92) (getEscape c)) 1 [92, getEscape c] := by
            simpa using ((Ext_readByte s).trans hext1).trans
              ((Ext_push t1 92).trans (Ext_push (push t1 92) (getEscape c)))
          obtain ⟨t, hrun, hext2⟩ := ih (push (push t1 92) (getEscape c))
            (by rw [hi1, hx1]; exact hrest) (hl1.trans ha)
          rw [hi1, hx1] at hext2
          refine ⟨t, hrun, ?_⟩
          have htr := Ext.trans (show Ext s (push (push t1 92) (getEscape c)) 1
            [92, getEscape c] from ⟨hi1, hx1, ho1, he1, hu1, hl1⟩) hext2
          refine htr.cast (by simp only [List.length_cons]; omega) ?_
          rw [escapeBytes_cons, show escapeByte c = [92, getEscape c] from by
            rw [escapeByte, if_neg h1, if_pos h2]]
        · rw [if_neg h2]
          obtain ⟨t1, hens, hext1⟩ := ensureSpace_ok mode 6 (readByte s).2
            (((Ext_readByte s).2.2.2.2.2).trans ha)
          rw [hens]
          obtain ⟨hi1, hx1, ho1, he1, hu1, hl1⟩ :
              Ext s (pushAll t1 (writeControlChar c)) 1 (writeControlChar c) := by
            simpa using ((Ext_readByte s).trans hext1).trans
              (Ext_pushAll t1 (writeControlChar c))
          obtain ⟨t, hrun, hext2⟩ := ih (pushAll t1 (writeControlChar c))
            (by rw [hi1, hx1]; exact hrest) (hl1.trans ha)
          rw [hi1, hx1] at hext2
          refine ⟨t, hrun, ?_⟩
          have htr := Ext.trans (show Ext s (pushAll t1 (writeControlChar c)) 1
            (writeControlChar c) from ⟨hi1, hx1, ho1, he1, hu1, hl1⟩) hext2
          refine htr.cast (by simp only [List.length_cons]; omega) ?_
          rw [escapeBytes_cons, show escapeByte c = writeControlChar c from by
            rw [escapeByte, if_neg h1, if_neg h2]]

/-- Per-byte mapping of the escape writer equals the table of the claim. -/
theorem escapeByte_eq_specEscape (c : Nat) : escapeByte c = specEscape c := by
  by_cases h : c < 32
  · interval_cases c <;> rfl
  · by_cases h34 : c = 34
    · subst h34; rfl
    · by_cases h92 : c = 92
      · subst h92; rfl
      · rw [escapeByte, if_pos (by omega : 0x20 ≤ c ∧ c ≠ 0x22 ∧ c ≠ 0x5c)]
        rw [specEscape]
        simp only [if_neg (by omega : ¬ c = 0x08), if_neg (by omega : ¬ c = 0x09),
          if_neg (by omega : ¬ c = 0x0a), if_neg (by omega : ¬ c = 0x0c),
          if_neg (by omega : ¬ c = 0x0d), if_neg h34, if_neg h92,
          if_neg (by omega : ¬ c < 0x20)]


theorem cstrAt_length_le (inp : List Nat) : ∀ i, (cstrAt inp i).length ≤ inp.length - i := by
  have H : ∀ k i, inp.length - i ≤ k → (cstrAt inp i).length ≤ inp.length - i := by
    intro k
    induction k with
    | zero =>
      intro i hk
      by_cases h0 : byteAt inp i = 0
      · rw [cstrAt_nil h0]; simp
      · have : i < inp.length := by
          by_contra hge
          exact h0 (byteAt_past_end (by omega))
        omega
    | succ k ih =>
      intro i hk
      by_cases h0 : byteAt inp i = 0
      · rw [cstrAt_nil h0]; simp
      · have hlt : i < inp.length := by
          by_contra hge
          exact h0 (byteAt_past_end (by omega))
        rw [cstrAt_cons h0]
        have := ih (i + 1) (by omega)
        simp only [List.length_cons]
        omega
  intro i
  exact H (inp.length - i) i (le_refl _)

theorem Ext_transcodeObjectIdB (s : TState) :
    Ext s (transcodeObjectIdB s) 12 (34 :: (oidHex (bytesAt s.inp s.inIdx 12) ++ [34])) := by
  simp [Ext, transcodeObjectIdB, push, pushAll]

/-- The comma stage of one element iteration. -/
theorem commaStep_spec (mode : Mode) (arrIdx : Nat) (s : TState) (ha : s.allocs = []) :
    ∃ u, commaStep mode arrIdx s = (false, u) ∧
      Ext s u 0 (if arrIdx ≠ 0 then [44] else []) := by
  unfold commaStep
  by_cases hci : arrIdx ≠ 0
  · rw [if_pos hci, if_pos hci]
    obtain ⟨t1, hens, hext⟩ := ensureSpace_ok mode 1 s ha
    rw [hens]
    exact ⟨push t1 44, rfl, by simpa using hext.trans (Ext_push t1 44)⟩
  · rw [if_neg hci, if_neg hci]
    exact ⟨s, rfl, Ext.refl s⟩

/-- The name stage of one element iteration. -/
theorem nameStep_spec (mode : Mode) (isArray : Bool) (arrIdx : Nat) (s : TState)
    (ha : s.allocs = []) :
    ∃ u, nameStep mode isArray arrIdx s = some (false, u) ∧
      Ext s u (if isArray then nDigits arrIdx else (cstrAt s.inp s.inIdx).length + 1)
        (if isArray then [] else 34 :: (escapeBytes (cstrAt s.inp s.inIdx) ++ [34, 58])) := by
  unfold nameStep
  by_cases hia : isArray
  · rw [if_pos hia, if_pos hia, if_pos hia]
    exact ⟨_, rfl, by simp [Ext]⟩
  · rw [if_neg hia, if_neg hia, if_neg hia]
    obtain ⟨t1, hens, hext1⟩ := ensureSpace_ok mode 1 s ha
    split
    next u hequ => rw [hens] at hequ; cases hequ
    next u hequ =>
    rw [hens] at hequ
    injection hequ with _ hu1x
    subst hu1x
    obtain ⟨hi1, hx1, ho1, he1, hu1, hl1⟩ :
        Ext s (push t1 34) 0 [34] := by
      simpa using hext1.trans (Ext_push t1 34)
    have hfuel : (cstrAt (push t1 34).inp (push t1 34).inIdx).length < t1.inp.length + 1 := by
      have hb3 : (push t1 34).inp.length = t1.inp.length := rfl
      have := cstrAt_length_le (push t1 34).inp (push t1 34).inIdx
      omega
    obtain ⟨t2, hesc, hext2⟩ := escCstrB_spec mode (t1.inp.length + 1) (push t1 34)
      hfuel (hl1.trans ha)
    split
    next hq => rw [hesc] at hq; cases hq
    next u hq => rw [hesc] at hq; cases hq
    next u hq =>
    rw [hesc] at hq
    injection hq with hq1
    injection hq1 with _ hu2x
    subst hu2x
    rw [hi1, hx1, Nat.add_zero] at hext2
    obtain ⟨hi2, hx2, ho2, he2, hu2, hl2⟩ := hext2
    obtain ⟨t3, hens2, hext3⟩ := ensureSpace_ok mode 2 { t2 with inIdx := t2.inIdx + 1 }
      (by simpa [hl2, hl1] using ha)
    split
    next u hq2 => rw [hens2] at hq2; cases hq2
    next u hq2 =>
    rw [hens2] at hq2
    injection hq2 with _ hu3x
    subst hu3x
    refine ⟨push (push t3 34) 58, rfl, ?_⟩
    have hskip : Ext t2 { t2 with inIdx := t2.inIdx + 1 } 1 [] := by simp [Ext]
    have h23 := (hskip.trans hext3).trans
      ((Ext_push t3 34).trans (Ext_push (push t3 34) 58))
    have h02 : Ext s t2 ((cstrAt s.inp s.inIdx).length)
        ([34] ++ escapeBytes (cstrAt s.inp s.inIdx)) := by
      refine ((show Ext s (push t1 34) 0 [34] from ⟨hi1, hx1, ho1, he1, hu1, hl1⟩).trans
        ⟨hi2, hx2, ho2, he2, hu2, hl2⟩).cast (by omega) rfl
    refine (h02.trans h23).cast (by simp) ?_
    simp

/-- `case BSON_DATA_STRING` step. -/
theorem valString_spec (mode : Mode) (s : TState) (ha : s.allocs = []) :
    (∃ t, valString mode s = some (true, t) ∧ t.err = some "Bad string length" ∧
       t.allocs = [] ∧ t.sawUndefined = s.sawUndefined) ∨
    (∃ t, valString mode s = some (false, t) ∧
       0 < asIntW 32 (leBytes s.inp s.inIdx 4) ∧
       Ext s t (4 + (asIntW 32 (leBytes s.inp s.inIdx 4)).toNat)
         (34 :: (escapeBytes
           (bytesAt s.inp (s.inIdx + 4) ((asIntW 32 (leBytes s.inp s.inIdx 4)).toNat - 1))
           ++ [34]))) := by
  unfold valString
  simp only [readLEn_fst]
  set size : Int := asIntW 32 (leBytes s.inp s.inIdx 4) with hsz
  obtain ⟨hi1, hx1, ho1, he1, hu1, hl1⟩ := Ext_readLEn 4 s
  by_cases hbad : size ≤ 0 ∨ sub64 (readLEn 4 s).2.inp.length (readLEn 4 s).2.inIdx < size.toNat
  · left
    rw [if_pos (by rw [hi1] at hbad; exact (by rwa [hi1]))]
    exact ⟨_, rfl, rfl, by simpa [hl1] using ha, by simpa [hu1]⟩
  · right
    rw [if_neg (by rwa [hi1] at hbad ⊢)]
    push_neg at hbad
    obtain ⟨hpos, _⟩ := hbad
    obtain ⟨t1, hens, hext1⟩ := ensureSpace_ok mode 1 (readLEn 4 s).2 (hl1.trans ha)
    split
    next u hequ => rw [hens] at hequ; cases hequ
    next u hequ =>
    rw [hens] at hequ
    injection hequ with _ hu1x
    subst hu1x
    obtain ⟨hi2, hx2, ho2, he2, hu2, hl2⟩ :
        Ext s (push t1 34) 4 [34] := by
      simpa using ((Ext_readLEn 4 s).trans hext1).trans (Ext_push t1 34)
    obtain ⟨t2, hw, hext2⟩ := writeEscapedCharsNB_spec mode (size.toNat - 1) (push t1 34)
      (hl2.trans ha)
    split
    next hq => rw [hw] at hq; cases hq
    next u hq => rw [hw] at hq; cases hq
    next u hq =>
    rw [hw] at hq
    injection hq with hq1
    injection hq1 with _ hu2x
    subst hu2x
    rw [hi2, hx2] at hext2
    obtain ⟨hi3, hx3, ho3, he3, hu3, hl3⟩ := hext2
    obtain ⟨t3, hens2, hext3⟩ := ensureSpace_ok mode 1 { t2 with inIdx := t2.inIdx + 1 }
      (by simpa [hl3, hl2] using ha)
    split
    next u hq2 => rw [hens2] at hq2; cases hq2
    next u hq2 =>
    rw [hens2] at hq2
    injection hq2 with _ hu3x
    subst hu3x
    refine ⟨push t3 34, rfl, by omega, ?_⟩
    have hskip : Ext t2 { t2 with inIdx := t2.inIdx + 1 } 1 [] := by simp [Ext]
    have h23 := (hskip.trans hext3).trans (Ext_push t3 34)
    have h02 : Ext s t2 (4 + (size.toNat - 1))
        ([34] ++ escapeBytes (bytesAt s.inp (s.inIdx + 4) (size.toNat - 1))) := by
      exact ((show Ext s (push t1 34) 4 [34] from ⟨hi2, hx2, ho2, he2, hu2, hl2⟩).trans
        ⟨hi3, hx3, ho3, he3, hu3, hl3⟩)
    refine (h02.trans h23).cast (by omega) ?_
    simp

/-- `case BSON_DATA_OID` step. -/
theorem valOid_spec (mode : Mode) (s : TState) (ha : s.allocs = []) :
    ∃ t, valOid mode s = some (false, t) ∧
      Ext s t 12 (34 :: (oidHex (bytesAt s.inp s.inIdx 12) ++ [34])) := by
  unfold valOid
  obtain ⟨t1, hens, hext1⟩ := ensureSpace_ok mode 26 s ha
  rw [hens]
  obtain ⟨hi1, hx1, ho1, he1, hu1, hl1⟩ := hext1
  refine ⟨_, rfl, ?_⟩
  have h2 := Ext_transcodeObjectIdB t1
  rw [hi1, hx1] at h2
  exact ((show Ext s t1 0 [] from ⟨hi1, hx1, ho1, he1, hu1, hl1⟩).trans h2).cast
    (by omega) (by simp)

/-- `case BSON_DATA_INT` step. -/
theorem valInt_spec (mode : Mode) (s : TState) (ha : s.allocs = []) :
    ∃ t, valInt mode s = some (false, t) ∧
      Ext s t 4 (fastItoa 32 (asIntW 32 (leBytes s.inp s.inIdx 4))) := by
  unfold valInt
  simp only [readLEn_fst]
  obtain ⟨hi1, hx1, ho1, he1, hu1, hl1⟩ := Ext_readLEn 4 s
  obtain ⟨t1, hens, hext1⟩ := ensureSpace_ok mode
    (fastItoa 32 (asIntW 32 (leBytes s.inp s.inIdx 4))).length (readLEn 4 s).2 (hl1.trans ha)
  rw [hens]
  refine ⟨_, rfl, ?_⟩
  have := ((Ext_readLEn 4 s).trans hext1).trans
    (Ext_pushAll t1 (fastItoa 32 (asIntW 32 (leBytes s.inp s.inIdx 4))))
  exact this.cast (by omega) (by simp)

/-- `case BSON_DATA_NUMBER` step. -/
theorem valNumber_spec (mode : Mode) (dtoa : Nat → List Nat) (s : TState) (ha : s.allocs = []) :
    ∃ t, valNumber mode dtoa s = some (false, t) ∧
      Ext s t 8 (if isFiniteBits (leBytes s.inp s.inIdx 8) then dtoa (leBytes s.inp s.inIdx 8)
        else [110, 117, 108, 108]) := by
  unfold valNumber
  simp only [readLEn_fst]
  obtain ⟨hi1, hx1, ho1, he1, hu1, hl1⟩ := Ext_readLEn 8 s
  by_cases hfin : isFiniteBits (leBytes s.inp s.inIdx 8)
  · rw [if_pos hfin, if_pos hfin]
    obtain ⟨t1, hens, hext1⟩ := ensureSpace_ok mode 128 (readLEn 8 s).2 (hl1.trans ha)
    rw [hens]
    refine ⟨_, rfl, ?_⟩
    have := ((Ext_readLEn 8 s).trans hext1).trans (Ext_pushAll t1 (dtoa (leBytes s.inp s.inIdx 8)))
    exact this.cast (by omega) (by simp)
  · rw [if_neg hfin, if_neg hfin]
    obtain ⟨t1, hens, hext1⟩ := ensureSpace_ok mode 4 (readLEn 8 s).2 (hl1.trans ha)
    rw [hens]
    refine ⟨_, rfl, ?_⟩
    have := ((Ext_readLEn 8 s).trans hext1).trans (Ext_pushAll t1 [110, 117, 108, 108])
    exact this.cast (by omega) (by simp)

/-- `case BSON_DATA_DATE` step. -/
theorem valDate_spec (mode : Mode) (dateFmt : Int → List Nat) (s : TState) (ha : s.allocs = []) :
    ∃ t, valDate mode dateFmt s = some (false, t) ∧
      Ext s t 8 (34 :: (dateFmt ((asIntW 64 (leBytes s.inp s.inIdx 8)).tdiv 1000) ++
        (46 :: (dateMillisDigits ((asIntW 64 (leBytes s.inp s.inIdx 8)).tmod 1000) ++
          [90, 34])))) := by
  unfold valDate
  obtain ⟨t1, hens, hext1⟩ := ensureSpace_ok mode 26 s ha
  rw [hens]
  simp only [readLEn_fst]
  obtain ⟨hi1, hx1, ho1, he1, hu1, hl1⟩ := hext1
  rw [hi1, hx1]
  refine ⟨_, rfl, ?_⟩
  have h2 := (Ext_readLEn 8 t1).trans
    ((Ext_push (readLEn 8 t1).2 34).trans
      ((Ext_pushAll _ (dateFmt ((asIntW 64 (leBytes s.inp s.inIdx 8)).tdiv 1000))).trans
        ((Ext_push _ 46).trans
          ((Ext_pushAll _ (dateMillisDigits ((asIntW 64 (leBytes s.inp s.inIdx 8)).tmod 1000))).trans
            ((Ext_push _ 90).trans (Ext_push _ 34))))))
  have := (show Ext s t1 0 [] from ⟨hi1, hx1, ho1, he1, hu1, hl1⟩).trans h2
  exact this.cast (by omega) (by simp)

/-- `case BSON_DATA_BOOLEAN` step. -/
theorem valBoolean_spec (mode : Mode) (s : TState) (ha : s.allocs = []) :
    ∃ t, valBoolean mode s = some (false, t) ∧
      Ext s t 1 (if byteAt s.inp s.inIdx = 1 then [116, 114, 117, 101]
        else [102, 97, 108, 115, 101]) := by
  unfold valBoolean
  simp only [readByte_fst]
  by_cases hv : byteAt s.inp s.inIdx = 1
  · rw [if_pos hv, if_pos hv]
    obtain ⟨t1, hens, hext1⟩ := ensureSpace_ok mode 4 (readByte s).2
      (((Ext_readByte s).2.2.2.2.2).trans ha)
    rw [hens]
    refine ⟨_, rfl, ?_⟩
    have := ((Ext_readByte s).trans hext1).trans (Ext_pushAll t1 [116, 114, 117, 101])
    exact this.cast (by omega) (by simp)
  · rw [if_neg hv, if_neg hv]
    obtain ⟨t1, hens, hext1⟩ := ensureSpace_ok mode 5 (readByte s).2
      (((Ext_readByte s).2.2.2.2.2).trans ha)
    rw [hens]
    refine ⟨_, rfl, ?_⟩
    have := ((Ext_readByte s).trans hext1).trans (Ext_pushAll t1 [102, 97, 108, 115, 101])
    exact this.cast (by omega) (by simp)

/-- `case BSON_DATA_NULL` step. -/
theorem valNull_spec (mode : Mode) (s : TState) (ha : s.allocs = []) :
    ∃ t, valNull mode s = some (false, t) ∧ Ext s t 0 [110, 117, 108, 108] := by
  unfold valNull
  obtain ⟨t1, hens, hext1⟩ := ensureSpace_ok mode 4 s ha
  rw [hens]
  refine ⟨_, rfl, ?_⟩
  have := hext1.trans (Ext_pushAll t1 [110, 117, 108, 108])
  exact this.cast (by omega) (by simp)

/-- `case BSON_DATA_LONG` step. -/
theorem valLong_spec (mode : Mode) (s : TState) (ha : s.allocs = []) :
    ∃ t, valLong mode s = some (false, t) ∧
      Ext s t 8 (fastItoa 64 (asIntW 64 (leBytes s.inp s.inIdx 8))) := by
  unfold valLong
  simp only [readLEn_fst]
  obtain ⟨hi1, hx1, ho1, he1, hu1, hl1⟩ := Ext_readLEn 8 s
  obtain ⟨t1, hens, hext1⟩ := ensureSpace_ok mode
    (fastItoa 64 (asIntW 64 (leBytes s.inp s.inIdx 8))).length (readLEn 8 s).2 (hl1.trans ha)
  rw [hens]
  refine ⟨_, rfl, ?_⟩
  have := ((Ext_readLEn 8 s).trans hext1).trans
    (Ext_pushAll t1 (fastItoa 64 (asIntW 64 (leBytes s.inp s.inIdx 8))))
  exact this.cast (by omega) (by simp)


/-- Fuel-indexed walker: the returned flag and the final `err` agree, the
empty allocation oracle is preserved, and the `sawUndefined`
instrumentation is monotone. -/
theorem walker_err_allocs : ∀ fuel : Nat,
    (∀ (mode : Mode) (dtoa : Nat → List Nat) (dateFmt : Int → List Nat) (isArray : Bool)
        (s : TState) (b : Bool) (t : TState), s.allocs = [] →
      transcodeObject mode dtoa dateFmt fuel isArray s = some (b, t) →
      t.allocs = [] ∧ (b = true → t.err ≠ none) ∧ (b = false → t.err = s.err) ∧
        (s.sawUndefined = true → t.sawUndefined = true)) ∧
    (∀ (mode : Mode) (dtoa : Nat → List Nat) (dateFmt : Int → List Nat) (isArray : Bool)
        (arrIdx : Nat) (s : TState) (b : Bool) (t : TState), s.allocs = [] →
      transcodeElems mode dtoa dateFmt fuel isArray arrIdx s = some (b, t) →
      t.allocs = [] ∧ (b = true → t.err ≠ none) ∧ (b = false → t.err = s.err) ∧
        (s.sawUndefined = true → t.sawUndefined = true)) ∧
    (∀ (mode : Mode) (dtoa : Nat → List Nat) (dateFmt : Int → List Nat) (tb : Nat)
        (s : TState) (b : Bool) (t : TState), s.allocs = [] →
      transcodeValue mode dtoa dateFmt fuel tb s = some (b, t) →
      t.allocs = [] ∧ (b = true → t.err ≠ none) ∧ (b = false → t.err = s.err) ∧
        (s.sawUndefined = true → t.sawUndefined = true)) := by
  intro fuel
  induction fuel with
  | zero =>
    refine ⟨?_, ?_, ?_⟩ <;> intro mode dtoa dateFmt
    · intro isArray s b t _ h
      simp [transcodeObject] at h
    · intro isArray arrIdx s b t _ h
      simp [transcodeElems] at h
    · intro tb s b t _ h
      simp [transcodeValue] at h
  | succ fuel ih =>
    obtain ⟨ihObj, ihElems, ihVal⟩ := ih
    refine ⟨?_, ?_, ?_⟩
    · -- transcodeObject
      intro mode dtoa dateFmt isArray s b t ha h
      rw [transcodeObject] at h
      split at h
      next sizeN s1 heq =>
        have hext1 : Ext s s1 4 [] := by
          have := Ext_readLEn 4 s
          rw [heq] at this
          exact this
        obtain ⟨hi1, hx1, ho1, he1, hu1, hl1⟩ := hext1
        split at h
        · injection h with h1
          injection h1 with hb ht
          subst hb; subst ht
          exact ⟨by simp [hl1, ha], fun _ => by simp, by simp, fun hu => by simp [hu1, hu]⟩
        · split at h
          · injection h with h1
            injection h1 with hb ht
            subst hb; subst ht
            exact ⟨by simp [hl1, ha], fun _ => by simp, by simp, fun hu => by simp [hu1, hu]⟩
          · split at h
            next s2 heq2 =>
              obtain ⟨t2, hens, _⟩ := ensureSpace_ok mode 1 s1 (hl1.trans ha)
              rw [hens] at heq2
              cases heq2
            next s2 heq2 =>
              obtain ⟨t2, hens, hext2⟩ := ensureSpace_ok mode 1 s1 (hl1.trans ha)
              rw [hens] at heq2
              injection heq2 with _ hs2
              subst hs2
              obtain ⟨hi2, hx2, ho2, he2, hu2, hl2⟩ := hext2
              obtain ⟨c1, c2, c3, c4⟩ := ihElems mode dtoa dateFmt isArray 0
                (push t2 (if isArray then 91 else 123)) b t
                (by simp [push, hl2, hl1, ha]) h
              refine ⟨c1, c2, ?_, ?_⟩
              · intro hb
                rw [c3 hb]
                simp [push, he2, he1]
              · intro hu
                exact c4 (by simp [push, hu2, hu1, hu])
    · -- transcodeElems
      intro mode dtoa dateFmt isArray arrIdx s b t ha h
      rw [transcodeElems] at h
      split at h
      next tb s1 heq =>
        have hext1 : Ext s s1 1 [] := by
          have := Ext_readByte s
          rw [heq] at this
          exact this
        obtain ⟨hi1, hx1, ho1, he1, hu1, hl1⟩ := hext1
        split at h
        · -- terminator
          split at h
          next s2 heq2 =>
            obtain ⟨t2, hens, _⟩ := ensureSpace_ok mode 1 s1 (hl1.trans ha)
            rw [hens] at heq2
            cases heq2
          next s2 heq2 =>
            obtain ⟨t2, hens, hext2⟩ := ensureSpace_ok mode 1 s1 (hl1.trans ha)
            rw [hens] at heq2
            injection heq2 with _ hs2
            subst hs2
            obtain ⟨hi2, hx2, ho2, he2, hu2, hl2⟩ := hext2
            injection h with h1
            injection h1 with hb ht
            subst hb; subst ht
            refine ⟨by simp [push, hl2, hl1, ha], by simp, ?_, ?_⟩
            · intro _
              simp [push, he2, he1]
            · intro hu
              simp [push, hu2, hu1, hu]
        · -- an element
          split at h
          next s2 heq2 =>
            obtain ⟨u, hcs, _⟩ := commaStep_spec mode arrIdx s1 (hl1.trans ha)
            rw [hcs] at heq2
            cases heq2
          next s2 heq2 =>
            obtain ⟨u, hcs, hext2⟩ := commaStep_spec mode arrIdx s1 (hl1.trans ha)
            rw [hcs] at heq2
            injection heq2 with _ hs2
            subst hs2
            obtain ⟨hi2, hx2, ho2, he2, hu2, hl2⟩ := hext2
            split at h
            next heq3 =>
              obtain ⟨v, hns, _⟩ := nameStep_spec mode isArray arrIdx u (hl2.trans (hl1.trans ha))
              rw [hns] at heq3
              cases heq3
            next s3 heq3 =>
              obtain ⟨v, hns, _⟩ := nameStep_spec mode isArray arrIdx u (hl2.trans (hl1.trans ha))
              rw [hns] at heq3
              cases heq3
            next s3 heq3 =>
              obtain ⟨v, hns, hext3⟩ := nameStep_spec mode isArray arrIdx u (hl2.trans (hl1.trans ha))
              rw [hns] at heq3
              injection heq3 with h3
              injection h3 with _ hs3
              subst hs3
              obtain ⟨hi3, hx3, ho3, he3, hu3, hl3⟩ := hext3
              split at h
              next heq4 => cases h
              next s4 heq4 =>
                injection h with h1
                injection h1 with hb ht
                subst hb; subst ht
                obtain ⟨c1, c2, c3, c4⟩ := ihVal mode dtoa dateFmt tb v true s4
                  (hl3.trans (hl2.trans (hl1.trans ha))) heq4
                refine ⟨c1, c2, by simp, ?_⟩
                intro hu
                exact c4 (by simp [hu3, hu2, hu1, hu])
              next s4 heq4 =>
                obtain ⟨c1, c2, c3, c4⟩ := ihVal mode dtoa dateFmt tb v false s4
                  (hl3.trans (hl2.trans (hl1.trans ha))) heq4
                obtain ⟨d1, d2, d3, d4⟩ := ihElems mode dtoa dateFmt isArray (arrIdx + 1) s4 b t c1 h
                refine ⟨d1, d2, ?_, ?_⟩
                · intro hb
                  rw [d3 hb, c3 rfl, he3, he2, he1]
                · intro hu
                  exact d4 (c4 (by simp [hu3, hu2, hu1, hu]))
    · -- transcodeValue
      intro mode dtoa dateFmt tb s b t ha h
      rw [transcodeValue] at h
      have std : ∀ u : TState, ∀ d : Nat, ∀ add : List Nat, Ext s u d add →
          u.allocs = [] ∧ (False → u.err ≠ none) ∧ (True → u.err = s.err) ∧
            (s.sawUndefined = true → u.sawUndefined = true) := by
        intro u d add ⟨_, _, _, he, hu, hl⟩
        exact ⟨hl.trans ha, fun hf => hf.elim, fun _ => he, fun h => by rw [hu]; exact h⟩
      by_cases h1 : tb = BSON_DATA_STRING
      · rw [if_pos h1] at h
        rcases valString_spec mode s ha with ⟨u, hv, herr, hal, hsu⟩ | ⟨u, hv, _, hext⟩
        · rw [hv] at h
          injection h with h1x
          injection h1x with hb ht
          subst hb; subst ht
          exact ⟨hal, fun _ => by simp [herr], by simp, fun hu => by rw [hsu]; exact hu⟩
        · rw [hv] at h
          injection h with h1x
          injection h1x with hb ht
          subst hb; subst ht
          obtain ⟨c1, c2, c3, c4⟩ := std u _ _ hext
          exact ⟨c1, by simp, fun _ => c3 trivial, c4⟩
      rw [if_neg h1] at h
      by_cases h2 : tb = BSON_DATA_OID
      · rw [if_pos h2] at h
        obtain ⟨u, hv, hext⟩ := valOid_spec mode s ha
        rw [hv] at h
        injection h with h1x
        injection h1x with hb ht
        subst hb; subst ht
        obtain ⟨c1, c2, c3, c4⟩ := std u _ _ hext
        exact ⟨c1, by simp, fun _ => c3 trivial, c4⟩
      rw [if_neg h2] at h
      by_cases h3 : tb = BSON_DATA_INT
      · rw [if_pos h3] at h
        obtain ⟨u, hv, hext⟩ := valInt_spec mode s ha
        rw [hv] at h
        injection h with h1x
        injection h1x with hb ht
        subst hb; subst ht
        obtain ⟨c1, c2, c3, c4⟩ := std u _ _ hext
        exact ⟨c1, by simp, fun _ => c3 trivial, c4⟩
      rw [if_neg h3] at h
      by_cases h4 : tb = BSON_DATA_NUMBER
      · rw [if_pos h4] at h
        obtain ⟨u, hv, hext⟩ := valNumber_spec mode dtoa s ha
        rw [hv] at h
        injection h with h1x
        injection h1x with hb ht
        subst hb; subst ht
        obtain ⟨c1, c2, c3, c4⟩ := std u _ _ hext
        exact ⟨c1, by simp, fun _ => c3 trivial, c4⟩
      rw [if_neg h4] at h
      by_cases h5 : tb = BSON_DATA_DATE
      · rw [if_pos h5] at h
        obtain ⟨u, hv, hext⟩ := valDate_spec mode dateFmt s ha
        rw [hv] at h
        injection h with h1x
        injection h1x with hb ht
        subst hb; subst ht
        obtain ⟨c1, c2, c3, c4⟩ := std u _ _ hext
        exact ⟨c1, by simp, fun _ => c3 trivial, c4⟩
      rw [if_neg h5] at h
      by_cases h6 : tb = BSON_DATA_BOOLEAN
      · rw [if_pos h6] at h
        obtain ⟨u, hv, hext⟩ := valBoolean_spec mode s ha
        rw [hv] at h
        injection h with h1x
        injection h1x with hb ht
        subst hb; subst ht
        obtain ⟨c1, c2, c3, c4⟩ := std u _ _ hext
        exact ⟨c1, by simp, fun _ => c3 trivial, c4⟩
      rw [if_neg h6] at h
      by_cases h7 : tb = BSON_DATA_OBJECT
      · rw [if_pos h7] at h
        exact ihObj mode dtoa dateFmt false s b t ha h
      rw [if_neg h7] at h
      by_cases h8 : tb = BSON_DATA_ARRAY
      · rw [if_pos h8] at h
        split at h
        next heq => cases h
        next s4 heq =>
          injection h with h1x
          injection h1x with hb ht
          subst hb; subst ht
          obtain ⟨c1, c2, c3, c4⟩ := ihObj mode dtoa dateFmt true s true s4 ha heq
          exact ⟨c1, fun _ => c2 rfl, by simp, c4⟩
        next s4 heq =>
          obtain ⟨c1, c2, c3, c4⟩ := ihObj mode dtoa dateFmt true s false s4 ha heq
          split at h
          · injection h with h1x
            injection h1x with hb ht
            subst hb; subst ht
            exact ⟨by simp [c1], fun _ => by simp, by simp, fun hu => by simp [c4 hu]⟩
          · injection h with h1x
            injection h1x with hb ht
            subst hb; subst ht
            exact ⟨c1, by simp, fun _ => c3 rfl, c4⟩
      rw [if_neg h8] at h
      by_cases h9 : tb = BSON_DATA_NULL
      · rw [if_pos h9] at h
        obtain ⟨u, hv, hext⟩ := valNull_spec mode s ha
        rw [hv] at h
        injection h with h1x
        injection h1x with hb ht
        subst hb; subst ht
        obtain ⟨c1, c2, c3, c4⟩ := std u _ _ hext
        exact ⟨c1, by simp, fun _ => c3 trivial, c4⟩
      rw [if_neg h9] at h
      by_cases h10 : tb = BSON_DATA_LONG
      · rw [if_pos h10] at h
        obtain ⟨u, hv, hext⟩ := valLong_spec mode s ha
        rw [hv] at h
        injection h with h1x
        injection h1x with hb ht
        subst hb; subst ht
        obtain ⟨c1, c2, c3, c4⟩ := std u _ _ hext
        exact ⟨c1, by simp, fun _ => c3 trivial, c4⟩
      rw [if_neg h10] at h
      by_cases h11 : tb = BSON_DATA_UNDEFINED
      · rw [if_pos h11] at h
        injection h with h1x
        injection h1x with hb ht
        subst hb; subst ht
        exact ⟨by simp [ha], by simp, fun _ => by simp, fun _ => by simp⟩
      rw [if_neg h11] at h
      by_cases h12 : tb = BSON_DATA_DECIMAL128 ∨ tb = BSON_DATA_BINARY ∨
          tb = BSON_DATA_REGEXP ∨ tb = BSON_DATA_SYMBOL ∨ tb = BSON_DATA_TIMESTAMP ∨
          tb = BSON_DATA_MIN_KEY ∨ tb = BSON_DATA_MAX_KEY ∨ tb = BSON_DATA_CODE ∨
          tb = BSON_DATA_CODE_W_SCOPE ∨ tb = BSON_DATA_DBPOINTER
      · rw [if_pos h12] at h
        injection h with h1x
        injection h1x with hb ht
        subst hb; subst ht
        exact ⟨by simp [ha], fun _ => by simp, by simp, fun hu => by simp [hu]⟩
      · rw [if_neg h12] at h
        injection h with h1x
        injection h1x with hb ht
        subst hb; subst ht
        exact ⟨by simp [ha], fun _ => by simp, by simp, fun hu => by simp [hu]⟩

theorem OutInv_eq {mode : Mode} {s t : TState} (h : OutInv mode s)
    (hx : t.outIdx = s.outIdx) (ho : t.out = s.out) : OutInv mode t := by
  obtain ⟨h1, h2⟩ := h
  constructor
  · rw [hx, ho]
    exact h1
  · intro hm
    rw [hx, ho]
    exact h2 hm

theorem OutInv_push {mode : Mode} {s : TState} (h : OutInv mode s) (b : Nat) :
    OutInv mode (push s b) := by
  obtain ⟨h1, h2⟩ := h
  constructor
  · simp only [push, List.length_append, List.length_cons, List.length_nil]
    omega
  · intro hm
    simp [push, h2 hm]

theorem OutInv_pushAll {mode : Mode} {s : TState} (h : OutInv mode s) (bs : List Nat) :
    OutInv mode (pushAll s bs) := by
  obtain ⟨h1, h2⟩ := h
  constructor
  · simp only [pushAll, List.length_append]
    omega
  · intro hm
    simp [pushAll, h2 hm]

theorem OutInv_readByte (mode : Mode) (s : TState) (h : OutInv mode s) :
    OutInv mode (readByte s).2 :=
  OutInv_eq h rfl rfl

theorem OutInv_readLEn (mode : Mode) (k : Nat) (s : TState) (h : OutInv mode s) :
    OutInv mode (readLEn k s).2 :=
  OutInv_eq h rfl rfl

theorem OutInv_ensureSpace {mode : Mode} {n : Nat} {s : TState} {b : Bool} {t : TState}
    (heq : ensureSpace mode n s = (b, t)) (h : OutInv mode s) : OutInv mode t := by
  cases mode with
  | REALLOC =>
    rw [ensureSpace] at heq
    split at heq
    · injection heq with _ h2
      subst h2
      exact h
    · rw [resize.eq_def] at heq
      split at heq
      · injection heq with _ h2
        subst h2
        exact OutInv_eq h rfl rfl
      · split at heq
        · injection heq with _ h2
          subst h2
          exact OutInv_eq h rfl rfl
        · injection heq with _ h2
          subst h2
          exact OutInv_eq h rfl rfl
  | PAUSE =>
    rw [ensureSpace] at heq
    split at heq
    · injection heq with _ h2
      subst h2
      exact h
    · injection heq with _ h2
      subst h2
      constructor
      · simp
      · intro hm
        simp at hm

theorem outInv_escNLoopB : ∀ (mode : Mode) (fuel endIdx : Nat) (s : TState) (b : Bool)
    (t : TState), escNLoopB mode fuel endIdx s = some (b, t) → OutInv mode s →
    OutInv mode t := by
  intro mode fuel
  induction fuel with
  | zero =>
    intro endIdx s b t h _
    simp [escNLoopB] at h
  | succ fuel ih =>
    intro endIdx s b t h h0
    rw [escNLoopB] at h
    split at h
    · split at h
      next c s1 heq =>
        have h1 : OutInv mode s1 := by
          have := OutInv_readByte mode s h0
          rw [heq] at this
          exact this
        split at h
        · exact ih endIdx _ b t h (OutInv_push h1 c)
        · split at h
          · split at h
            next s2 heq2 =>
              injection h with h2
              injection h2 with _ h3
              subst h3
              exact OutInv_ensureSpace heq2 h1
            next s2 heq2 =>
              exact ih endIdx _ b t h
                (OutInv_push (OutInv_push (OutInv_ensureSpace heq2 h1) 92) _)
          · split at h
            next s2 heq2 =>
              injection h with h2
              injection h2 with _ h3
              subst h3
              exact OutInv_ensureSpace heq2 h1
            next s2 heq2 =>
              exact ih endIdx _ b t h (OutInv_pushAll (OutInv_ensureSpace heq2 h1) _)
    · injection h with h2
      injection h2 with _ h3
      subst h3
      exact h0

theorem outInv_writeEscapedCharsNB {mode : Mode} {fuel n : Nat} {s : TState} {b : Bool}
    {t : TState} (h : writeEscapedCharsNB mode fuel n s = some (b, t)) (h0 : OutInv mode s) :
    OutInv mode t := by
  rw [writeEscapedCharsNB] at h
  split at h
  next s1 heq =>
    injection h with h2
    injection h2 with _ h3
    subst h3
    exact OutInv_ensureSpace heq h0
  next s1 heq =>
    exact outInv_escNLoopB mode fuel _ s1 b t h (OutInv_ensureSpace heq h0)

theorem outInv_escCstrB : ∀ (mode : Mode) (fuel : Nat) (s : TState) (b : Bool) (t : TState),
    escCstrB mode fuel s = some (b, t) → OutInv mode s → OutInv mode t := by
  intro mode fuel
  induction fuel with
  | zero =>
    intro s b t h _
    simp [escCstrB] at h
  | succ fuel ih =>
    intro s b t h h0
    rw [escCstrB] at h
    split at h
    next c s1 heq =>
      have h1 : OutInv mode s1 := by
        have := OutInv_readByte mode s h0
        rw [heq] at this
        exact this
      split at h
      · injection h with h2
        injection h2 with _ h3
        subst h3
        exact OutInv_eq h1 rfl rfl
      · split at h
        · split at h
          next s2 heq2 =>
            injection h with h2
            injection h2 with _ h3
            subst h3
            exact OutInv_ensureSpace heq2 h1
          next s2 heq2 =>
            exact ih _ b t h (OutInv_push (OutInv_ensureSpace heq2 h1) c)
        · split at h
          · split at h
            next s2 heq2 =>
              injection h with h2
              injection h2 with _ h3
              subst h3
              exact OutInv_ensureSpace heq2 h1
            next s2 heq2 =>
              exact ih _ b t h
                (OutInv_push (OutInv_push (OutInv_ensureSpace heq2 h1) 92) _)
          · split at h
            next s2 heq2 =>
              injection h with h2
              injection h2 with _ h3
              subst h3
              exact OutInv_ensureSpace heq2 h1
            next s2 heq2 =>
              exact ih _ b t h (OutInv_pushAll (OutInv_ensureSpace heq2 h1) _)

theorem outInv_transcodeObjectIdB {mode : Mode} {s : TState} (h : OutInv mode s) :
    OutInv mode (transcodeObjectIdB s) := by
  simp only [transcodeObjectIdB]
  exact OutInv_push (OutInv_eq (OutInv_pushAll (OutInv_push h 34) _) rfl rfl) 34

theorem outInv_commaStep {mode : Mode} {arrIdx : Nat} {s : TState} {b : Bool} {t : TState}
    (h : commaStep mode arrIdx s = (b, t)) (h0 : OutInv mode s) : OutInv mode t := by
  rw [commaStep] at h
  split at h
  · split at h
    next s1 heq =>
      injection h with _ h2
      subst h2
      exact OutInv_ensureSpace heq h0
    next s1 heq =>
      injection h with _ h2
      subst h2
      exact OutInv_push (OutInv_ensureSpace heq h0) 44
  · injection h with _ h2
    subst h2
    exact h0

theorem outInv_nameStep {mode : Mode} {isArray : Bool} {arrIdx : Nat} {s : TState} {b : Bool}
    {t : TState} (h : nameStep mode isArray arrIdx s = some (b, t)) (h0 : OutInv mode s) :
    OutInv mode t := by
  rw [nameStep] at h
  split at h
  · injection h with h2
    injection h2 with _ h3
    subst h3
    exact OutInv_eq h0 rfl rfl
  · split at h
    next s1 heq =>
      injection h with h2
      injection h2 with _ h3
      subst h3
      exact OutInv_ensureSpace heq h0
    next s1 heq =>
      have h1 : OutInv mode s1 := OutInv_ensureSpace heq h0
      split at h
      next heq2 => cases h
      next s2 heq2 =>
        injection h with h2
        injection h2 with _ h3
        subst h3
        exact outInv_escCstrB mode _ (push s1 34) true s2 heq2 (OutInv_push h1 34)
      next s2 heq2 =>
        have h2' : OutInv mode s2 :=
          outInv_escCstrB mode _ (push s1 34) false s2 heq2 (OutInv_push h1 34)
        split at h
        next s3 heq3 =>
          injection h with hx
          injection hx with _ h3
          subst h3
          exact OutInv_ensureSpace heq3 (OutInv_eq h2' rfl rfl)
        next s3 heq3 =>
          injection h with hx
          injection hx with _ h3
          subst h3
          exact OutInv_push (OutInv_push (OutInv_ensureSpace heq3 (OutInv_eq h2' rfl rfl)) 34) 58

theorem outInv_valString {mode : Mode} {s : TState} {b : Bool} {t : TState}
    (h : valString mode s = some (b, t)) (h0 : OutInv mode s) : OutInv mode t := by
  simp only [valString] at h
  have h1 : OutInv mode (readLEn 4 s).2 := OutInv_readLEn mode 4 s h0
  split at h
  · injection h with h2
    injection h2 with _ h3
    subst h3
    exact OutInv_eq h1 rfl rfl
  · split at h
    next s2 heq2 =>
      injection h with h2
      injection h2 with _ h3
      subst h3
      exact OutInv_ensureSpace heq2 h1
    next s2 heq2 =>
      have h2' : OutInv mode s2 := OutInv_ensureSpace heq2 h1
      split at h
      next heq3 => cases h
      next s3 heq3 =>
        injection h with h2
        injection h2 with _ h3
        subst h3
        exact outInv_writeEscapedCharsNB heq3 (OutInv_push h2' 34)
      next s3 heq3 =>
        have h3' : OutInv mode s3 := outInv_writeEscapedCharsNB heq3 (OutInv_push h2' 34)
        split at h
        next s4 heq4 =>
          injection h with h2
          injection h2 with _ h4
          subst h4
          exact OutInv_ensureSpace heq4 (OutInv_eq h3' rfl rfl)
        next s4 heq4 =>
          injection h with h2
          injection h2 with _ h4
          subst h4
          exact OutInv_push (OutInv_ensureSpace heq4 (OutInv_eq h3' rfl rfl)) 34

theorem outInv_valOid {mode : Mode} {s : TState} {b : Bool} {t : TState}
    (h : valOid mode s = some (b, t)) (h0 : OutInv mode s) : OutInv mode t := by
  rw [valOid] at h
  split at h
  next s1 heq =>
    injection h with h2
    injection h2 with _ h3
    subst h3
    exact OutInv_ensureSpace heq h0
  next s1 heq =>
    injection h with h2
    injection h2 with _ h3
    subst h3
    exact outInv_transcodeObjectIdB (OutInv_ensureSpace heq h0)

theorem outInv_valInt {mode : Mode} {s : TState} {b : Bool} {t : TState}
    (h : valInt mode s = some (b, t)) (h0 : OutInv mode s) : OutInv mode t := by
  simp only [valInt] at h
  have h1 : OutInv mode (readLEn 4 s).2 := OutInv_readLEn mode 4 s h0
  split at h
  next s2 heq2 =>
    injection h with h2
    injection h2 with _ h3
    subst h3
    exact OutInv_ensureSpace heq2 h1
  next s2 heq2 =>
    injection h with h2
    injection h2 with _ h3
    subst h3
    exact OutInv_pushAll (OutInv_ensureSpace heq2 h1) _

theorem outInv_valNumber {mode : Mode} {dtoa : Nat → List Nat} {s : TState} {b : Bool}
    {t : TState} (h : valNumber mode dtoa s = some (b, t)) (h0 : OutInv mode s) :
    OutInv mode t := by
  simp only [valNumber] at h
  have h1 : OutInv mode (readLEn 8 s).2 := OutInv_readLEn mode 8 s h0
  split at h
  · split at h
    next s2 heq2 =>
      injection h with h2
      injection h2 with _ h3
      subst h3
      exact OutInv_ensureSpace heq2 h1
    next s2 heq2 =>
      injection h with h2
      injection h2 with _ h3
      subst h3
      exact OutInv_pushAll (OutInv_ensureSpace heq2 h1) _
  · split at h
    next s2 heq2 =>
      injection h with h2
      injection h2 with _ h3
      subst h3
      exact OutInv_ensureSpace heq2 h1
    next s2 heq2 =>
      injection h with h2
      injection h2 with _ h3
      subst h3
      exact OutInv_pushAll (OutInv_ensureSpace heq2 h1) _

theorem outInv_valDate {mode : Mode} {dateFmt : Int → List Nat} {s : TState} {b : Bool}
    {t : TState} (h : valDate mode dateFmt s = some (b, t)) (h0 : OutInv mode s) :
    OutInv mode t := by
  simp only [valDate] at h
  split at h
  next s1 heq =>
    injection h with h2
    injection h2 with _ h3
    subst h3
    exact OutInv_ensureSpace heq h0
  next s1 heq =>
    have h1 : OutInv mode s1 := OutInv_ensureSpace heq h0
    injection h with h2
    injection h2 with _ h3
    subst h3
    exact OutInv_push (OutInv_push (OutInv_pushAll (OutInv_push
      (OutInv_pushAll (OutInv_push (OutInv_readLEn mode 8 s1 h1) 34) _) 46) _) 90) 34

theorem outInv_valBoolean {mode : Mode} {s : TState} {b : Bool} {t : TState}
    (h : valBoolean mode s = some (b, t)) (h0 : OutInv mode s) : OutInv mode t := by
  simp only [valBoolean] at h
  have h1 : OutInv mode (readByte s).2 := OutInv_readByte mode s h0
  split at h
  · split at h
    next s2 heq2 =>
      injection h with h2
      injection h2 with _ h3
      subst h3
      exact OutInv_ensureSpace heq2 h1
    next s2 heq2 =>
      injection h with h2
      injection h2 with _ h3
      subst h3
      exact OutInv_pushAll (OutInv_ensureSpace heq2 h1) _
  · split at h
    next s2 heq2 =>
      injection h with h2
      injection h2 with _ h3
      subst h3
      exact OutInv_ensureSpace heq2 h1
    next s2 heq2 =>
      injection h with h2
      injection h2 with _ h3
      subst h3
      exact OutInv_pushAll (OutInv_ensureSpace heq2 h1) _

theorem outInv_valNull {mode : Mode} {s : TState} {b : Bool} {t : TState}
    (h : valNull mode s = some (b, t)) (h0 : OutInv mode s) : OutInv mode t := by
  rw [valNull] at h
  split at h
  next s1 heq =>
    injection h with h2
    injection h2 with _ h3
    subst h3
    exact OutInv_ensureSpace heq h0
  next s1 heq =>
    injection h with h2
    injection h2 with _ h3
    subst h3
    exact OutInv_pushAll (OutInv_ensureSpace heq h0) _

theorem outInv_valLong {mode : Mode} {s : TState} {b : Bool} {t : TState}
    (h : valLong mode s = some (b, t)) (h0 : OutInv mode s) : OutInv mode t := by
  simp only [valLong] at h
  have h1 : OutInv mode (readLEn 8 s).2 := OutInv_readLEn mode 8 s h0
  split at h
  next s2 heq2 =>
    injection h with h2
    injection h2 with _ h3
    subst h3
    exact OutInv_ensureSpace heq2 h1
  next s2 heq2 =>
    injection h with h2
    injection h2 with _ h3
    subst h3
    exact OutInv_pushAll (OutInv_ensureSpace heq2 h1) _

/-- The walker preserves the write-cursor invariant: in every mode the
cursor stays within the bytes produced, and in REALLOC mode it equals
their count, whatever the run's outcome. -/
theorem walker_outInv : ∀ fuel : Nat,
    (∀ (mode : Mode) (dtoa : Nat → List Nat) (dateFmt : Int → List Nat) (isArray : Bool)
        (s : TState) (b : Bool) (t : TState),
      transcodeObject mode dtoa dateFmt fuel isArray s = some (b, t) →
      OutInv mode s → OutInv mode t) ∧
    (∀ (mode : Mode) (dtoa : Nat → List Nat) (dateFmt : Int → List Nat) (isArray : Bool)
        (arrIdx : Nat) (s : TState) (b : Bool) (t : TState),
      transcodeElems mode dtoa dateFmt fuel isArray arrIdx s = some (b, t) →
      OutInv mode s → OutInv mode t) ∧
    (∀ (mode : Mode) (dtoa : Nat → List Nat) (dateFmt : Int → List Nat) (tb : Nat)
        (s : TState) (b : Bool) (t : TState),
      transcodeValue mode dtoa dateFmt fuel tb s = some (b, t) →
      OutInv mode s → OutInv mode t) := by
  intro fuel
  induction fuel with
  | zero =>
    refine ⟨?_, ?_, ?_⟩ <;> intro mode dtoa dateFmt
    · intro isArray s b t h _
      simp [transcodeObject] at h
    · intro isArray arrIdx s b t h _
      simp [transcodeElems] at h
    · intro tb s b t h _
      simp [transcodeValue] at h
  | succ fuel ih =>
    obtain ⟨ihObj, ihElems, ihVal⟩ := ih
    refine ⟨?_, ?_, ?_⟩
    · -- transcodeObject
      intro mode dtoa dateFmt isArray s b t h h0
      rw [transcodeObject] at h
      split at h
      next sizeN s1 heq =>
        have h1 : OutInv mode s1 := by
          have := OutInv_readLEn mode 4 s h0
          rw [heq] at this
          exact this
        split at h
        · injection h with h2
          injection h2 with _ h3
          subst h3
          exact OutInv_eq h1 rfl rfl
        · split at h
          · injection h with h2
            injection h2 with _ h3
            subst h3
            exact OutInv_eq h1 rfl rfl
          · split at h
            next s2 heq2 =>
              injection h with h2
              injection h2 with _ h3
              subst h3
              exact OutInv_ensureSpace heq2 h1
            next s2 heq2 =>
              exact ihElems mode dtoa dateFmt isArray 0 _ b t h
                (OutInv_push (OutInv_ensureSpace heq2 h1) _)
    · -- transcodeElems
      intro mode dtoa dateFmt isArray arrIdx s b t h h0
      rw [transcodeElems] at h
      split at h
      next tb s1 heq =>
        have h1 : OutInv mode s1 := by
          have := OutInv_readByte mode s h0
          rw [heq] at this
          exact this
        split at h
        · split at h
          next s2 heq2 =>
            injection h with h2
            injection h2 with _ h3
            subst h3
            exact OutInv_ensureSpace heq2 h1
          next s2 heq2 =>
            injection h with h2
            injection h2 with _ h3
            subst h3
            exact OutInv_push (OutInv_ensureSpace heq2 h1) _
        · split at h
          next s2 heq2 =>
            injection h with h2
            injection h2 with _ h3
            subst h3
            exact outInv_commaStep heq2 h1
          next s2 heq2 =>
            have h2' : OutInv mode s2 := outInv_commaStep heq2 h1
            split at h
            next heq3 => cases h
            next s3 heq3 =>
              injection h with h2
              injection h2 with _ h3
              subst h3
              exact outInv_nameStep heq3 h2'
            next s3 heq3 =>
              have h3' : OutInv mode s3 := outInv_nameStep heq3 h2'
              split at h
              next heq4 => cases h
              next s4 heq4 =>
                injection h with h2
                injection h2 with _ h4
                subst h4
                exact ihVal mode dtoa dateFmt tb s3 true s4 heq4 h3'
              next s4 heq4 =>
                exact ihElems mode dtoa dateFmt isArray (arrIdx + 1) s4 b t h
                  (ihVal mode dtoa dateFmt tb s3 false s4 heq4 h3')
    · -- transcodeValue
      intro mode dtoa dateFmt tb s b t h h0
      rw [transcodeValue] at h
      by_cases h1 : tb = BSON_DATA_STRING
      · rw [if_pos h1] at h
        exact outInv_valString h h0
      rw [if_neg h1] at h
      by_cases h2 : tb = BSON_DATA_OID
      · rw [if_pos h2] at h
        exact outInv_valOid h h0
      rw [if_neg h2] at h
      by_cases h3 : tb = BSON_DATA_INT
      · rw [if_pos h3] at h
        exact outInv_valInt h h0
      rw [if_neg h3] at h
      by_cases h4 : tb = BSON_DATA_NUMBER
      · rw [if_pos h4] at h
        exact outInv_valNumber h h0
      rw [if_neg h4] at h
      by_cases h5 : tb = BSON_DATA_DATE
      · rw [if_pos h5] at h
        exact outInv_valDate h h0
      rw [if_neg h5] at h
      by_cases h6 : tb = BSON_DATA_BOOLEAN
      · rw [if_pos h6] at h
        exact outInv_valBoolean h h0
      rw [if_neg h6] at h
      by_cases h7 : tb = BSON_DATA_OBJECT
      · rw [if_pos h7] at h
        exact ihObj mode dtoa dateFmt false s b t h h0
      rw [if_neg h7] at h
      by_cases h8 : tb = BSON_DATA_ARRAY
      · rw [if_pos h8] at h
        split at h
        next heq => cases h
        next s4 heq =>
          injection h with h2
          injection h2 with _ h4
          subst h4
          exact ihObj mode dtoa dateFmt true s true s4 heq h0
        next s4 heq =>
          have h4' : OutInv mode s4 := ihObj mode dtoa dateFmt true s false s4 heq h0
          split at h
          · injection h with h2
            injection h2 with _ h5
            subst h5
            exact OutInv_eq h4' rfl rfl
          · injection h with h2
            injection h2 with _ h5
            subst h5
            exact h4'
      rw [if_neg h8] at h
      by_cases h9 : tb = BSON_DATA_NULL
      · rw [if_pos h9] at h
        exact outInv_valNull h h0
      rw [if_neg h9] at h
      by_cases h10 : tb = BSON_DATA_LONG
      · rw [if_pos h10] at h
        exact outInv_valLong h h0
      rw [if_neg h10] at h
      by_cases h11 : tb = BSON_DATA_UNDEFINED
      · rw [if_pos h11] at h
        injection h with h2
        injection h2 with _ h3
        subst h3
        exact OutInv_eq h0 rfl rfl
      rw [if_neg h11] at h
      by_cases h12 : tb = BSON_DATA_DECIMAL128 ∨ tb = BSON_DATA_BINARY ∨
          tb = BSON_DATA_REGEXP ∨ tb = BSON_DATA_SYMBOL ∨ tb = BSON_DATA_TIMESTAMP ∨
          tb = BSON_DATA_MIN_KEY ∨ tb = BSON_DATA_MAX_KEY ∨ tb = BSON_DATA_CODE ∨
          tb = BSON_DATA_CODE_W_SCOPE ∨ tb = BSON_DATA_DBPOINTER
      · rw [if_pos h12] at h
        injection h with h2
        injection h2 with _ h3
        subst h3
        exact OutInv_eq h0 rfl rfl
      · rw [if_neg h12] at h
        injection h with h2
        injection h2 with _ h3
        subst h3
        exact OutInv_eq h0 rfl rfl

/-- Entry `2k` of the digits table is the tens digit of `k`, entry
`2k + 1` its ones digit. -/
theorem digitsTable_getD : ∀ k, k < 100 → digitsTable.getD (k * 2) 0 = 48 + k / 10 ∧
    digitsTable.getD (k * 2 + 1) 0 = 48 + k % 10 := by decide!

theorem headD_append {l1 l2 : List Nat} (h : l1 ≠ []) :
    (l1 ++ l2).headD 0 = l1.headD 0 := by
  cases l1 with
  | nil => exact absurd rfl h
  | cons a t => rfl

theorem IsDigits_append {a b : List Nat} (ha : IsDigits a) (hb : ∀ c ∈ b, isDigitB c = true) :
    IsDigits (a ++ b) := by
  obtain ⟨hne, hd⟩ := ha
  refine ⟨by simp [hne], ?_⟩
  intro c hc
  rcases List.mem_append.1 hc with h | h
  · exact hd c h
  · exact hb c h

/-- The digit loop of `fast_itoa` on a nonnegative value that fits the
fuel: all digits, no leading zero unless the value is zero. -/
theorem itoaCore_spec : ∀ (fuel : Nat) (val : Int), 0 < fuel → 0 ≤ val → val < 100 ^ fuel →
    IsDigits (itoaCore fuel val) ∧ (0 < val → (itoaCore fuel val).headD 0 ≠ 48) ∧
      (val = 0 → itoaCore fuel val = [48]) := by
  intro fuel
  induction fuel with
  | zero => intro val h _ _; omega
  | succ fuel ih =>
    intro val _ h0 hlt
    rw [itoaCore]
    by_cases h100 : 100 ≤ val
    · rw [if_pos h100]
      have hf : 0 < fuel := by
        by_contra hz
        have hz0 : fuel = 0 := by omega
        subst hz0
        simp [pow_succ, pow_zero] at hlt
        omega
      have hq0 : 0 ≤ val.tdiv 100 := Int.tdiv_nonneg h0 (by norm_num)
      have hqe : val.tdiv 100 = val / 100 := Int.tdiv_eq_ediv h0 (by norm_num)
      have hq1 : 1 ≤ val.tdiv 100 := by
        rw [hqe, Int.le_ediv_iff_mul_le (by norm_num)]
        omega
      have hqlt : val.tdiv 100 < 100 ^ fuel := by
        rw [hqe, Int.ediv_lt_iff_lt_mul (by norm_num)]
        calc val < 100 ^ (fuel + 1) := hlt
        _ = 100 ^ fuel * 100 := by ring
      obtain ⟨ihd, ihh, _⟩ := ih (val.tdiv 100) hf hq0 hqlt
      have hm0 : 0 ≤ val.tmod 100 := Int.tmod_nonneg 100 h0
      have hmlt : val.tmod 100 < 100 := Int.tmod_lt_of_pos val (by norm_num)
      have hk : (val.tmod 100).toNat < 100 := by omega
      obtain ⟨hg1, hg2⟩ := digitsTable_getD (val.tmod 100).toNat hk
      refine ⟨?_, fun _ => ?_, fun hv0 => by omega⟩
      · refine IsDigits_append ihd ?_
        intro c hc
        rw [hg1, hg2] at hc
        simp only [List.mem_cons, List.not_mem_nil, or_false] at hc
        rcases hc with rfl | rfl <;> simp [isDigitB] <;> omega
      · rw [headD_append ihd.1]
        exact ihh (by omega)
    · rw [if_neg h100]
      by_cases h10 : val < 10
      · rw [if_pos h10]
        have he : (48 + val).emod 256 = 48 + val := Int.emod_eq_of_lt (by omega) (by omega)
        have ht : ((48 + val).emod 256).toNat = 48 + val.toNat := by
          rw [he]; omega
        rw [ht]
        refine ⟨⟨by simp, ?_⟩, fun hv => ?_, fun hv0 => by simp [hv0]⟩
        · intro c hc
          simp only [List.mem_cons, List.not_mem_nil, or_false] at hc
          subst hc
          simp [isDigitB]
          omega
        · simp only [List.headD_cons]
          omega
      · rw [if_neg h10]
        have hk : val.toNat < 100 := by omega
        obtain ⟨hg1, hg2⟩ := digitsTable_getD val.toNat hk
        rw [hg1, hg2]
        have h10' : 10 ≤ val.toNat := by omega
        refine ⟨⟨by simp, ?_⟩, fun _ => ?_, fun hv0 => by omega⟩
        · intro c hc
          simp only [List.mem_cons, List.not_mem_nil, or_false] at hc
          rcases hc with rfl | rfl <;> simp [isDigitB] <;> omega
        · simp only [List.headD_cons]
          omega

/-- `fast_itoa` always emits a well-formed JSON number token (for
`INT_MIN` it is the token `-0`). -/
theorem fastItoa_numToken (w : Nat) (hw : w = 32 ∨ w = 64) (val : Int)
    (h1 : -(2 ^ (w - 1)) ≤ val) (h2 : val < 2 ^ (w - 1)) : NumToken (fastItoa w val) := by
  have hfuelpow : (2 : Int) ^ (w - 1) ≤ 100 ^ INT_BUF_DIGS w := by
    rcases hw with rfl | rfl <;> · rw [INT_BUF_DIGS]; norm_num
  have hfuelpos : 0 < INT_BUF_DIGS w := by
    rcases hw with rfl | rfl <;> · rw [INT_BUF_DIGS]; norm_num
  rw [fastItoa]
  by_cases hneg : val < 0
  · rw [if_pos hneg]
    by_cases hmin : val = -(2 ^ (w - 1))
    · subst hmin
      rcases hw with rfl | rfl
      · show NumToken (45 :: itoaCore 11 (wrapNeg 32 (-(2 ^ 31))))
        have hcalc : itoaCore 11 (wrapNeg 32 (-(2 ^ 31))) = [48] := by decide!
        rw [hcalc]
        exact ⟨[45], [48], [], [], rfl, Or.inr rfl, Or.inl rfl, Or.inl rfl, Or.inl rfl⟩
      · show NumToken (45 :: itoaCore 20 (wrapNeg 64 (-(2 ^ 63))))
        have hcalc : itoaCore 20 (wrapNeg 64 (-(2 ^ 63))) = [48] := by decide!
        rw [hcalc]
        exact ⟨[45], [48], [], [], rfl, Or.inr rfl, Or.inl rfl, Or.inl rfl, Or.inl rfl⟩
    · have hww : (2 : Int) ^ w = 2 ^ (w - 1) + 2 ^ (w - 1) := by
        have hw1 : w - 1 + 1 = w := by rcases hw with rfl | rfl <;> rfl
        calc (2 : Int) ^ w = 2 ^ (w - 1 + 1) := by rw [hw1]
        _ = 2 ^ (w - 1) * 2 := pow_succ 2 (w - 1)
        _ = 2 ^ (w - 1) + 2 ^ (w - 1) := by ring
      have hwn : wrapNeg w val = -val := by
        rw [wrapNeg]
        have : ((0 - val) + 2 ^ (w - 1)).emod (2 ^ w) = (0 - val) + 2 ^ (w - 1) :=
          Int.emod_eq_of_lt (by omega) (by omega)
        rw [this]
        omega
      rw [hwn]
      obtain ⟨hd, hh, _⟩ := itoaCore_spec (INT_BUF_DIGS w) (-val) hfuelpos (by omega) (by omega)
      exact ⟨[45], itoaCore (INT_BUF_DIGS w) (-val), [], [], by simp, Or.inr rfl,
        Or.inr ⟨hd, hh (by omega)⟩, Or.inl rfl, Or.inl rfl⟩
  · rw [if_neg hneg]
    by_cases hz : val = 0
    · subst hz
      obtain ⟨-, -, h48⟩ := itoaCore_spec (INT_BUF_DIGS w) 0 hfuelpos le_rfl (by positivity)
      rw [h48 rfl]
      exact ⟨[], [48], [], [], by simp, Or.inl rfl, Or.inl rfl, Or.inl rfl, Or.inl rfl⟩
    · obtain ⟨hd, hh, -⟩ := itoaCore_spec (INT_BUF_DIGS w) val hfuelpos (by omega) (by omega)
      exact ⟨[], itoaCore (INT_BUF_DIGS w) val, [], [], by simp, Or.inl rfl,
        Or.inr ⟨hd, hh (by omega)⟩, Or.inl rfl, Or.inl rfl⟩

theorem byteAt_lt {inp : List Nat} (hB : ByteArr inp) (i : Nat) : byteAt inp i < 256 := by
  rw [byteAt]
  by_cases h : i < inp.length
  · rw [List.getD_eq_getElem?_getD, List.getElem?_eq_getElem h]
    exact hB _ (List.getElem_mem h)
  · rw [List.getD_eq_getElem?_getD, List.getElem?_eq_none (by omega)]
    norm_num

theorem bytesAt_byteArr {inp : List Nat} (hB : ByteArr inp) (i : Nat) :
    ∀ n, ByteArr (bytesAt inp i n) := by
  intro n
  induction n generalizing i with
  | zero => intro b hb; simp [bytesAt] at hb
  | succ n ih =>
    intro b hb
    rw [bytesAt] at hb
    rcases List.mem_cons.1 hb with rfl | h
    · exact byteAt_lt hB i
    · exact ih (i + 1) b h

theorem cstrAt_subset (inp : List Nat) :
    ∀ n i, inp.length - i ≤ n → ∀ c ∈ cstrAt inp i, ∃ j, c = byteAt inp j := by
  intro n
  induction n with
  | zero =>
    intro i hi c hc
    have h0 : byteAt inp i = 0 ∨ ¬ i < inp.length := by
      by_cases h : i < inp.length
      · by_cases hz : byteAt inp i = 0
        · exact Or.inl hz
        · omega
      · exact Or.inr h
    rcases h0 with hz | hge
    · rw [cstrAt_nil hz] at hc
      simp at hc
    · rw [cstrAt] at hc
      rw [dif_neg hge] at hc
      simp at hc
  | succ n ih =>
    intro i hi c hc
    by_cases h0 : byteAt inp i = 0
    · rw [cstrAt_nil h0] at hc
      simp at hc
    · rw [cstrAt_cons h0] at hc
      have hlt : i < inp.length := by
        by_contra hge
        exact h0 (byteAt_past_end (by omega))
      rcases List.mem_cons.1 hc with rfl | h
      · exact ⟨i, rfl⟩
      · exact ih (i + 1) (by omega) c h

theorem cstrAt_byteArr {inp : List Nat} (hB : ByteArr inp) (i : Nat) :
    ByteArr (cstrAt inp i) := by
  intro b hb
  obtain ⟨j, rfl⟩ := cstrAt_subset inp (inp.length - i) i le_rfl b hb
  exact byteAt_lt hB j

theorem leBytes_lt {inp : List Nat} (hB : ByteArr inp) (i : Nat) :
    ∀ k, leBytes inp i k < 2 ^ (8 * k) := by
  intro k
  induction k generalizing i with
  | zero => simp [leBytes]
  | succ k ih =>
    rw [leBytes]
    have h1 := byteAt_lt hB i
    have h2 := ih (i + 1)
    have : 2 ^ (8 * (k + 1)) = 256 * 2 ^ (8 * k) := by
      rw [show 8 * (k + 1) = 8 + 8 * k from by ring, pow_add]
      norm_num
    omega

/-- Signed reinterpretation of an in-range unsigned value lies in the
signed range. -/
theorem asIntW_bounds {w : Nat} (hw : 0 < w) {n : Nat} (hn : n < 2 ^ w) :
    -(2 ^ (w - 1) : Int) ≤ asIntW w n ∧ asIntW w n < 2 ^ (w - 1) := by
  have hww : (2 : Int) ^ w = 2 ^ (w - 1) + 2 ^ (w - 1) := by
    have hw1 : w - 1 + 1 = w := by omega
    calc (2 : Int) ^ w = 2 ^ (w - 1 + 1) := by rw [hw1]
    _ = 2 ^ (w - 1) * 2 := pow_succ 2 (w - 1)
    _ = 2 ^ (w - 1) + 2 ^ (w - 1) := by ring
  have hnn : (n : Int) < 2 ^ w := by exact_mod_cast hn
  have hp : (0 : Int) < 2 ^ (w - 1) := by positivity
  rw [asIntW]
  split
  · have h0 : (0 : Int) ≤ (n : Int) := Int.ofNat_nonneg n
    have h1 : (n : Int) < 2 ^ (w - 1) := by exact_mod_cast ‹n < 2 ^ (w - 1)›
    omega
  · have : ¬ (n : Int) < 2 ^ (w - 1) := by
      intro hc
      exact ‹¬ n < 2 ^ (w - 1)› (by exact_mod_cast hc)
    omega

/-- Safe characters pass through the escape writer unchanged. -/
theorem escapeBytes_safe_id {s : List Nat} (h : SafeChars s) : escapeBytes s = s := by
  induction s with
  | nil => rfl
  | cons c r ih =>
    rw [escapeBytes_cons, escapeByte, if_pos (h c (List.mem_cons_self c r)),
      ih (fun x hx => h x (List.mem_cons_of_mem c hx))]
    rfl

theorem hexNib_safe : ∀ k, k < 16 → 0x20 ≤ hexNib k ∧ hexNib k ≠ 0x22 ∧ hexNib k ≠ 0x5c ∧
    hexNib k < 256 := by decide!

theorem oidHex_safe : ∀ l : List Nat, (∀ b ∈ l, b < 256) →
    SafeChars (oidHex l) ∧ ByteArr (oidHex l) := by
  intro l
  induction l with
  | nil => intro _; exact ⟨fun c hc => by simp [oidHex] at hc, fun c hc => by simp [oidHex] at hc⟩
  | cons b r ih =>
    intro hB
    have hb : b < 256 := hB b (List.mem_cons_self b r)
    obtain ⟨ihS, ihB⟩ := ih (fun x hx => hB x (List.mem_cons_of_mem b hx))
    have hn1 : b >>> 4 < 16 := by
      rw [Nat.shiftRight_eq_div_pow]
      omega
    have hn2 : b &&& 0xf < 16 := by
      have := Nat.and_le_right (n := b) (m := 0xf)
      omega
    constructor
    · intro c hc
      rw [oidHex] at hc
      rcases List.mem_cons.1 hc with rfl | hc
      · exact ⟨(hexNib_safe _ hn1).1, (hexNib_safe _ hn1).2.1, (hexNib_safe _ hn1).2.2.1⟩
      rcases List.mem_cons.1 hc with rfl | hc
      · exact ⟨(hexNib_safe _ hn2).1, (hexNib_safe _ hn2).2.1, (hexNib_safe _ hn2).2.2.1⟩
      · exact ihS c hc
    · intro c hc
      rw [oidHex] at hc
      rcases List.mem_cons.1 hc with rfl | hc
      · exact (hexNib_safe _ hn1).2.2.2
      rcases List.mem_cons.1 hc with rfl | hc
      · exact (hexNib_safe _ hn2).2.2.2
      · exact ihB c hc

theorem digit_safe {c : Nat} (h : isDigitB c = true) :
    0x20 ≤ c ∧ c ≠ 0x22 ∧ c ≠ 0x5c ∧ c < 256 := by
  rw [isDigitB] at h
  simp only [Bool.and_eq_true, decide_eq_true_eq] at h
  refine ⟨by omega, by omega, by omega, by omega⟩

/-- Every byte of a `fast_itoa 32` rendering of a small value is `-` or a
digit. -/
theorem fastItoa32_small_chars {m : Int} (h1 : -1000 < m) (h2 : m < 1000) :
    ∀ c ∈ fastItoa 32 m, c = 45 ∨ isDigitB c = true := by
  intro c hc
  rw [fastItoa] at hc
  by_cases hneg : m < 0
  · rw [if_pos hneg] at hc
    have hwn : wrapNeg 32 m = -m := by
      rw [wrapNeg]
      have : ((0 - m) + 2 ^ (32 - 1)).emod (2 ^ 32) = (0 - m) + 2 ^ (32 - 1) :=
        Int.emod_eq_of_lt (by norm_num; omega) (by norm_num; omega)
      rw [this]
      omega
    rw [hwn] at hc
    rcases List.mem_cons.1 hc with rfl | hc
    · exact Or.inl rfl
    · obtain ⟨⟨-, hd⟩, -, -⟩ := itoaCore_spec 11 (-m) (by norm_num) (by omega)
        (by norm_num; omega)
      exact Or.inr (hd c (by simpa [INT_BUF_DIGS] using hc))
  · rw [if_neg hneg] at hc
    obtain ⟨⟨-, hd⟩, -, -⟩ := itoaCore_spec 11 m (by norm_num) (by omega) (by norm_num; omega)
    exact Or.inr (hd c (by simpa [INT_BUF_DIGS] using hc))

theorem itoaCore_ne_nil (fuel : Nat) (hf : 0 < fuel) (val : Int) :
    itoaCore fuel val ≠ [] := by
  match fuel, hf with
  | fuel + 1, _ =>
    rw [itoaCore]
    split
    · simp
    · split <;> simp

/-- The three millisecond digit bytes of the date rendering are safe
string characters (digits or `-`). -/
theorem dateMillisDigits_safe {m : Int} (h1 : -1000 < m) (h2 : m < 1000) :
    SafeChars (dateMillisDigits m) ∧ ByteArr (dateMillisDigits m) := by
  have hchars := fastItoa32_small_chars h1 h2
  have hnn : fastItoa 32 m ≠ [] := by
    rw [fastItoa]
    split
    · simp
    · exact itoaCore_ne_nil _ (by rw [INT_BUF_DIGS]; norm_num) _
  have hmem : ∀ c ∈ dateMillisDigits m, c = 48 ∨ c ∈ fastItoa 32 m := by
    intro c hc
    rw [dateMillisDigits] at hc
    simp only [List.mem_cons, List.not_mem_nil, or_false] at hc
    have hgd : ∀ i, i < (fastItoa 32 m).length → (fastItoa 32 m).getD i 0 ∈ fastItoa 32 m := by
      intro i hi
      rw [List.getD_eq_getElem?_getD, List.getElem?_eq_getElem hi]
      exact List.getElem_mem hi
    have hlen : 0 < (fastItoa 32 m).length := List.length_pos.2 hnn
    rcases hc with rfl | rfl | rfl
    · split
      · exact Or.inl rfl
      · exact Or.inr (hgd 0 (by omega))
    · split
      · exact Or.inl rfl
      · split
        · exact Or.inr (hgd 0 (by omega))
        · exact Or.inr (hgd 1 (by omega))
    · split
      · exact Or.inl rfl
      · split
        · exact Or.inr (hgd 0 (by omega))
        · split
          · exact Or.inr (hgd 1 (by omega))
          · exact Or.inr (hgd 2 (by omega))
  constructor
  · intro c hc
    rcases hmem c hc with rfl | hin
    · exact ⟨by norm_num, by norm_num, by norm_num⟩
    · rcases hchars c hin with rfl | hd
      · exact ⟨by norm_num, by norm_num, by norm_num⟩
      · exact ⟨(digit_safe hd).1, (digit_safe hd).2.1, (digit_safe hd).2.2.1⟩
  · intro c hc
    rcases hmem c hc with rfl | hin
    · norm_num
    · rcases hchars c hin with rfl | hd
      · norm_num
      · exact (digit_safe hd).2.2.2

/-- Truncating remainder bounds for an arbitrary dividend. -/
theorem tmod_bounds (v : Int) : -1000 < v.tmod 1000 ∧ v.tmod 1000 < 1000 := by
  by_cases hv : 0 ≤ v
  · have h1 := Int.tmod_nonneg 1000 hv
    have h2 := Int.tmod_lt_of_pos v (show (0:Int) < 1000 by norm_num)
    omega
  · have hneg : v.tmod 1000 = -((-v).tmod 1000) := by
      rw [Int.tmod_def, Int.tmod_def, Int.neg_tdiv]
      ring
    have h1 := Int.tmod_nonneg 1000 (show (0:Int) ≤ -v by omega)
    have h2 := Int.tmod_lt_of_pos (-v) (show (0:Int) < 1000 by norm_num)
    omega

theorem skipWs_cons {c : Nat} (h : isWsB c = false) (l : List Nat) :
    skipWs (c :: l) = c :: l := by
  simp [skipWs, List.dropWhile_cons, h]

theorem hexVal_hexNib : ∀ k, k < 16 → hexVal (hexNib k) = some k := by decide!

theorem escape_char_cases : ∀ c, c < 256 → getEscape c ≠ 0 →
    c = 8 ∨ c = 9 ∨ c = 10 ∨ c = 12 ∨ c = 13 ∨ c = 34 ∨ c = 92 := by decide!

theorem control_not_escape : ∀ c, c < 256 → ¬ (0x20 ≤ c ∧ c ≠ 0x22 ∧ c ≠ 0x5c) →
    getEscape c = 0 → c < 32 := by decide!

theorem control_decode : ∀ c, c < 32 →
    0 * 4096 + 0 * 256 + (if c &&& 0xf0 ≠ 0 then 1 else 0) * 16 + (c &&& 0xf) = c := by decide!

/-- A string body escaped by the escape writer parses back verbatim:
`parseStr` undoes `escapeBytes` and stops at the closing quote. -/
theorem parseStr_round : ∀ (s : List Nat), ByteArr s → ∀ (tail : List Nat) (fuel : Nat),
    s.length < fuel → parseStr fuel (escapeBytes s ++ (34 :: tail)) = some (s, tail) := by
  intro s
  induction s with
  | nil =>
    intro _ tail fuel hf
    match fuel, hf with
    | fuel + 1, _ =>
      rw [escapeBytes_nil, List.nil_append]
      simp [parseStr]
  | cons c r ih =>
    intro hB tail fuel hf
    have hc : c < 256 := hB c (List.mem_cons_self c r)
    have hBr : ByteArr r := fun x hx => hB x (List.mem_cons_of_mem c hx)
    match fuel, hf with
    | fuel + 1, hf =>
      have hfr : r.length < fuel := by
        simp only [List.length_cons] at hf
        omega
      have hih := ih hBr tail fuel hfr
      rw [escapeBytes_cons, escapeByte]
      by_cases h1 : 0x20 ≤ c ∧ c ≠ 0x22 ∧ c ≠ 0x5c
      · rw [if_pos h1]
        have hform : ([c] ++ escapeBytes r) ++ (34 :: tail) =
            c :: (escapeBytes r ++ (34 :: tail)) := by simp
        rw [hform]
        simp only [parseStr]
        rw [if_neg (by omega : ¬ c = 34), if_neg (by omega : ¬ c = 92),
          if_neg (by omega : ¬ c < 32), hih]
      · rw [if_neg h1]
        by_cases h2 : getEscape c ≠ 0
        · rw [if_pos h2]
          rcases escape_char_cases c hc h2 with rfl | rfl | rfl | rfl | rfl | rfl | rfl <;>
          · simp [getEscape, parseStr, escDecode, hih]
        · rw [if_neg h2]
          push_neg at h1
          have hc32 : c < 32 := control_not_escape c hc (by push_neg; exact h1) (by omega)
          have hform : (writeControlChar c ++ escapeBytes r) ++ (34 :: tail) =
              92 :: (117 :: (48 :: (48 :: ((if c &&& 0xf0 ≠ 0 then 49 else 48) ::
                (hexNib (c &&& 0xf) :: (escapeBytes r ++ (34 :: tail))))))) := by
            simp [writeControlChar]
          rw [hform]
          simp only [parseStr]
          have hnib : c &&& 0xf < 16 := by
            have := Nat.and_le_right (n := c) (m := 0xf)
            omega
          have hv4 : hexVal (hexNib (c &&& 0xf)) = some (c &&& 0xf) := hexVal_hexNib _ hnib
          have hvX : hexVal (if c &&& 0xf0 ≠ 0 then 49 else 48) =
              some (if c &&& 0xf0 ≠ 0 then 1 else 0) := by
            split <;> rfl
          rw [show hexVal 48 = some 0 from rfl, hvX, hv4, hih]
          simp only [show ((92 : Nat) = 34) = False from by norm_num, if_false, if_true]
          rw [control_decode c hc32]

theorem takeWhile_digits {ds rest : List Nat} (hds : ∀ c ∈ ds, isDigitB c = true)
    (hrest : isDigitB (rest.headD 200) = false) :
    (ds ++ rest).takeWhile isDigitB = ds := by
  induction ds with
  | nil =>
    cases rest with
    | nil => rfl
    | cons c r =>
      simp only [List.headD_cons] at hrest
      simp [List.takeWhile_cons, hrest]
  | cons d ds ih =>
    have hd : isDigitB d = true := hds d (List.mem_cons_self d ds)
    simp only [List.cons_append, List.takeWhile_cons, hd, if_true]
    rw [ih (fun x hx => hds x (List.mem_cons_of_mem d hx))]

theorem dropWhile_digits {ds rest : List Nat} (hds : ∀ c ∈ ds, isDigitB c = true)
    (hrest : isDigitB (rest.headD 200) = false) :
    (ds ++ rest).dropWhile isDigitB = rest := by
  induction ds with
  | nil =>
    cases rest with
    | nil => rfl
    | cons c r =>
      simp only [List.headD_cons] at hrest
      simp [List.dropWhile_cons, hrest]
  | cons d ds ih =>
    have hd : isDigitB d = true := hds d (List.mem_cons_self d ds)
    simp only [List.cons_append, List.dropWhile_cons, hd, if_true]
    exact ih (fun x hx => hds x (List.mem_cons_of_mem d hx))

theorem digitsSpan_append {ds rest : List Nat} (hds : ∀ c ∈ ds, isDigitB c = true)
    (hrest : isDigitB (rest.headD 200) = false) :
    digitsSpan (ds ++ rest) = (ds, rest) := by
  rw [digitsSpan, takeWhile_digits hds hrest, dropWhile_digits hds hrest]

theorem parseIntPart_round {ip rest : List Nat}
    (hip : ip = [48] ∨ (IsDigits ip ∧ ip.headD 0 ≠ 48))
    (hrest : isDigitB (rest.headD 200) = false) :
    parseIntPart (ip ++ rest) = some (ip, rest) := by
  rcases hip with rfl | ⟨⟨hne, hds⟩, hhd⟩
  · simp only [List.cons_append, List.nil_append]
    simp [parseIntPart]
  · cases ip with
    | nil => exact absurd rfl hne
    | cons d ds =>
      have hd : isDigitB d = true := hds d (List.mem_cons_self d ds)
      have hd48 : d ≠ 48 := by simpa using hhd
      have hspan := digitsSpan_append hds hrest
      simp only [List.cons_append]
      rw [parseIntPart.eq_def]
      split
      next r heq =>
        injection heq with h1 _
        exact absurd h1 hd48
      next c l heq =>
        injection heq with h1 h2
        subst h1
        rw [if_pos hd, ← List.cons_append, hspan]
      next heq => cases heq

theorem parseFracPart_round {fp rest : List Nat}
    (hfp : fp = [] ∨ ∃ ds, IsDigits ds ∧ fp = 46 :: ds)
    (hr46 : fp = [] → rest.headD 200 ≠ 46)
    (hrest : isDigitB (rest.headD 200) = false) :
    parseFracPart (fp ++ rest) = some (fp, rest) := by
  rcases hfp with rfl | ⟨ds, ⟨hne, hds⟩, rfl⟩
  · rw [List.nil_append]
    cases rest with
    | nil => rfl
    | cons c r =>
      have hc46 : c ≠ 46 := by simpa using hr46 rfl
      rw [parseFracPart.eq_def]
      split
      next r2 heq =>
        injection heq with h1 _
        exact absurd h1 hc46
      next heq => rfl
  · cases ds with
    | nil => exact absurd rfl hne
    | cons d ds2 =>
      have hspan : digitsSpan (d :: (ds2 ++ rest)) = (d :: ds2, rest) := by
        rw [← List.cons_append]
        exact digitsSpan_append hds hrest
      simp only [List.cons_append]
      simp [parseFracPart, hspan]

theorem parseExpPart_round {ep rest : List Nat}
    (hep : ep = [] ∨ ∃ e sg ds, (e = 101 ∨ e = 69) ∧ (sg = [] ∨ sg = [43] ∨ sg = [45]) ∧
      IsDigits ds ∧ ep = e :: (sg ++ ds))
    (hrE : ep = [] → rest.headD 200 ≠ 101 ∧ rest.headD 200 ≠ 69)
    (hrest : isDigitB (rest.headD 200) = false) :
    parseExpPart (ep ++ rest) = some (ep, rest) := by
  rcases hep with rfl | ⟨e, sg, ds, he, hsg, ⟨hne, hds⟩, rfl⟩
  · rw [List.nil_append]
    cases rest with
    | nil => rfl
    | cons c r =>
      obtain ⟨h101, h69⟩ := hrE rfl
      simp only [List.headD_cons] at h101 h69
      rw [parseExpPart.eq_def]
      split
      next c2 r2 heq =>
        injection heq with h1 h2
        subst h1
        subst h2
        rw [if_neg (by omega)]
      next heq => rfl
  · cases ds with
    | nil => exact absurd rfl hne
    | cons d ds2 =>
      have hd : isDigitB d = true := hds d (List.mem_cons_self d ds2)
      have hb : 48 ≤ d ∧ d ≤ 57 := by
        rw [isDigitB] at hd
        simp only [Bool.and_eq_true, decide_eq_true_eq] at hd
        exact hd
      have hspan : digitsSpan (d :: (ds2 ++ rest)) = (d :: ds2, rest) := by
        rw [← List.cons_append]
        exact digitsSpan_append hds hrest
      simp only [List.cons_append]
      simp only [parseExpPart]
      rw [if_pos he]
      rcases hsg with rfl | rfl | rfl
      · simp only [List.nil_append]
        obtain ⟨hb1, hb2⟩ := hb
        interval_cases d <;> simp [hspan]
      · simp only [List.cons_append, List.nil_append]
        simp [hspan]
      · simp only [List.cons_append, List.nil_append]
        simp [hspan]

/-- Auxiliary facts about what may follow each number component. -/
theorem parseNumTail_round {ip fp ep tail : List Nat}
    (hfp : fp = [] ∨ ∃ ds, IsDigits ds ∧ fp = 46 :: ds)
    (hep : ep = [] ∨ ∃ e sg ds, (e = 101 ∨ e = 69) ∧ (sg = [] ∨ sg = [43] ∨ sg = [45]) ∧
      IsDigits ds ∧ ep = e :: (sg ++ ds))
    (hs : Stops tail) :
    parseNumTail ip (fp ++ (ep ++ tail)) = some (ip ++ (fp ++ ep), tail) := by
  have htail101 : tail.headD 200 ≠ 101 ∧ tail.headD 200 ≠ 69 ∧ tail.headD 200 ≠ 46 ∧
      isDigitB (tail.headD 200) = false := by
    cases tail with
    | nil => refine ⟨by norm_num, by norm_num, by norm_num, rfl⟩
    | cons c r =>
      rw [Stops] at hs
      rw [numContB] at hs
      simp only [List.headD_cons]
      simp only [Bool.or_eq_false_iff, beq_eq_false_iff_ne] at hs
      exact ⟨hs.1.2, hs.2, hs.1.1.2, hs.1.1.1⟩
  have hephead : (ep ++ tail).headD 200 ≠ 46 ∧ isDigitB ((ep ++ tail).headD 200) = false := by
    rcases hep with rfl | ⟨e, sg, ds, he, _, _, rfl⟩
    · rw [List.nil_append]
      exact ⟨htail101.2.2.1, htail101.2.2.2⟩
    · simp only [List.cons_append, List.headD_cons]
      rcases he with rfl | rfl <;> exact ⟨by norm_num, rfl⟩
  rw [parseNumTail]
  simp only [parseFracPart_round hfp (fun _ => hephead.1) hephead.2,
    parseExpPart_round hep (fun _ => ⟨htail101.1, htail101.2.1⟩) htail101.2.2.2]
  simp

/-- A well-formed number token followed by a token-stopping tail parses
back verbatim. -/
theorem parseNumber_round {tok tail : List Nat} (ht : NumToken tok) (hs : Stops tail) :
    parseNumber (tok ++ tail) = some (tok, tail) := by
  obtain ⟨sgn, ip, fp, ep, rfl, hsgn, hip, hfp, hep⟩ := ht
  have hfphead : isDigitB ((fp ++ (ep ++ tail)).headD 200) = false := by
    rcases hfp with rfl | ⟨ds, _, rfl⟩
    · rw [List.nil_append]
      rcases hep with rfl | ⟨e, sg, ds, he, _, _, rfl⟩
      · rw [List.nil_append]
        cases tail with
        | nil => rfl
        | cons c r =>
          rw [Stops, numContB] at hs
          simp only [Bool.or_eq_false_iff, beq_eq_false_iff_ne] at hs
          simpa using hs.1.1.1
      · simp only [List.cons_append, List.headD_cons]
        rcases he with rfl | rfl <;> rfl
    · simp only [List.cons_append, List.headD_cons]
      rfl
  have hint := parseIntPart_round hip hfphead
  have htl := @parseNumTail_round ip fp ep tail hfp hep hs
  rcases hsgn with rfl | rfl
  · simp only [List.nil_append, List.append_assoc]
    have hiphead : ∃ c r, ip ++ (fp ++ (ep ++ tail)) = c :: r ∧ c ≠ 45 := by
      rcases hip with rfl | ⟨⟨hne, hds⟩, _⟩
      · exact ⟨48, fp ++ (ep ++ tail), rfl, by norm_num⟩
      · cases ip with
        | nil => exact absurd rfl hne
        | cons d ds =>
          have hd := hds d (List.mem_cons_self d ds)
          rw [isDigitB] at hd
          simp only [Bool.and_eq_true, decide_eq_true_eq] at hd
          exact ⟨d, ds ++ (fp ++ (ep ++ tail)), by simp, by omega⟩
    obtain ⟨c, r, hform, hc45⟩ := hiphead
    rw [parseNumber.eq_def, hform]
    split
    next r2 heq =>
      injection heq with h1 _
      exact absurd h1 hc45
    next heq =>
      rw [← hform]
      simp only [hint, htl]
  · simp only [List.append_assoc, List.cons_append, List.nil_append]
    simp only [parseNumber]
    simp only [hint, htl]

/-- The first byte of a number token, with everything it is not. -/
theorem NumToken_head {tok : List Nat} (h : NumToken tok) :
    ∃ c r, tok = c :: r ∧ (c = 45 ∨ isDigitB c = true) := by
  obtain ⟨sgn, ip, fp, ep, rfl, hsgn, hip, _, _⟩ := h
  rcases hsgn with rfl | rfl
  · rw [List.nil_append]
    rcases hip with rfl | ⟨⟨hne, hds⟩, _⟩
    · exact ⟨48, fp ++ ep, rfl, Or.inr rfl⟩
    · cases ip with
      | nil => exact absurd rfl hne
      | cons d ds =>
        exact ⟨d, ds ++ (fp ++ ep), by simp, Or.inr (hds d (List.mem_cons_self d ds))⟩
  · exact ⟨45, ip ++ (fp ++ ep), by simp, Or.inl rfl⟩

theorem NumToken_ne_nil {tok : List Nat} (h : NumToken tok) : tok ≠ [] := by
  obtain ⟨c, r, rfl, _⟩ := NumToken_head h
  simp

theorem sizeV_pos (v : JValue) : 0 < sizeV v := by
  cases v <;> simp [sizeV]

theorem sizeI_pos (xs : JItems) : 0 < sizeI xs := by
  cases xs <;> simp [sizeI]

theorem sizeF_pos (fs : JFields) : 0 < sizeF fs := by
  cases fs <;> simp [sizeF]

theorem renderItems_pos : ∀ (xs : JItems) (k : Nat), k ≠ 0 →
    renderItems k xs = renderItems 1 xs
  | .inil, _, _ => rfl
  | .icons v tl, k, hk => by
    simp only [renderItems, if_pos hk, if_pos (by norm_num : (1 : Nat) ≠ 0)]
    rw [renderItems_pos tl (k + 1) (by omega), renderItems_pos tl 2 (by norm_num)]

theorem renderFields_pos : ∀ (fs : JFields) (k : Nat), k ≠ 0 →
    renderFields k fs = renderFields 1 fs
  | .fnil, _, _ => rfl
  | .fcons nm v tl, k, hk => by
    simp only [renderFields, if_pos hk, if_pos (by norm_num : (1 : Nat) ≠ 0)]
    rw [renderFields_pos tl (k + 1) (by omega), renderFields_pos tl 2 (by norm_num)]

theorem skipWs34 (l : List Nat) : skipWs (34 :: l) = 34 :: l :=
  skipWs_cons (c := 34) rfl l

theorem skipWs44 (l : List Nat) : skipWs (44 :: l) = 44 :: l :=
  skipWs_cons (c := 44) rfl l

theorem skipWs58 (l : List Nat) : skipWs (58 :: l) = 58 :: l :=
  skipWs_cons (c := 58) rfl l

theorem skipWs91 (l : List Nat) : skipWs (91 :: l) = 91 :: l :=
  skipWs_cons (c := 91) rfl l

theorem skipWs93 (l : List Nat) : skipWs (93 :: l) = 93 :: l :=
  skipWs_cons (c := 93) rfl l

theorem skipWs123 (l : List Nat) : skipWs (123 :: l) = 123 :: l :=
  skipWs_cons (c := 123) rfl l

theorem skipWs125 (l : List Nat) : skipWs (125 :: l) = 125 :: l :=
  skipWs_cons (c := 125) rfl l

theorem stops_renderItems (tl : JItems) (tail : List Nat) :
    Stops (renderItems 1 tl ++ tail) := by
  cases tl <;> simp [renderItems, Stops, numContB, isDigitB]

theorem stops_renderFields (tl : JFields) (tail : List Nat) :
    Stops (renderFields 1 tl ++ tail) := by
  cases tl <;> simp [renderFields, Stops, numContB, isDigitB]

theorem num_head_props {c : Nat} (h : c = 45 ∨ isDigitB c = true) :
    isWsB c = false ∧ c ≠ 34 ∧ c ≠ 123 ∧ c ≠ 91 ∧ c ≠ 116 ∧ c ≠ 102 ∧ c ≠ 110 ∧
      c ≠ 93 ∧ c ≠ 125 ∧ c ≠ 44 := by
  have hb : c = 45 ∨ (48 ≤ c ∧ c ≤ 57) := by
    rcases h with rfl | hd
    · exact Or.inl rfl
    · rw [isDigitB] at hd
      simp only [Bool.and_eq_true, decide_eq_true_eq] at hd
      exact Or.inr hd
  refine ⟨?_, ?_, ?_, ?_, ?_, ?_, ?_, ?_, ?_, ?_⟩
  · rw [isWsB]
    simp only [Bool.or_eq_false_iff, beq_eq_false_iff_ne]
    refine ⟨⟨⟨?_, ?_⟩, ?_⟩, ?_⟩ <;> omega
  all_goals omega

/-- The first rendered byte of a well-formed value: never whitespace and
never a closing bracket. -/
theorem renderV_head {v : JValue} (hw : WFV v) :
    ∃ c r, renderV v = c :: r ∧ isWsB c = false ∧ c ≠ 93 ∧ c ≠ 125 := by
  cases v with
  | jnull => exact ⟨110, _, rfl, rfl, by norm_num, by norm_num⟩
  | jbool b =>
    cases b with
    | false => exact ⟨102, _, rfl, rfl, by norm_num, by norm_num⟩
    | true => exact ⟨116, _, rfl, rfl, by norm_num, by norm_num⟩
  | jnum tok =>
    simp only [WFV] at hw
    obtain ⟨c, r, htok, hc⟩ := NumToken_head hw
    obtain ⟨hws, _, _, _, _, _, _, h93, h125, _⟩ := num_head_props hc
    exact ⟨c, r, by rw [renderV, htok], hws, h93, h125⟩
  | jstr s => exact ⟨34, _, rfl, rfl, by norm_num, by norm_num⟩
  | jarr xs => exact ⟨91, _, rfl, rfl, by norm_num, by norm_num⟩
  | jobj fs => exact ⟨123, _, rfl, rfl, by norm_num, by norm_num⟩

/-- Rendering and parsing are mutually inverse: the canonical rendering
of a well-formed value parses back to exactly that value, with the tail
untouched. -/
theorem parse_render : ∀ fuel : Nat,
    (∀ (v : JValue) (tail : List Nat), WFV v → BV v → Stops tail → sizeV v < fuel →
      parseValue fuel (renderV v ++ tail) = some (v, tail)) ∧
    (∀ (v : JValue) (tl : JItems) (tail : List Nat), WFV v → WFI tl → BV v → BVI tl →
      sizeV v + sizeI tl < fuel →
      parseItems fuel (renderV v ++ (renderItems 1 tl ++ tail)) = some (.icons v tl, tail)) ∧
    (∀ (nm : List Nat) (v : JValue) (tl : JFields) (tail : List Nat), ByteArr nm → WFV v →
      WFF tl → BV v → BVF tl → nm.length + sizeV v + sizeF tl < fuel →
      parseMembers fuel (34 :: (escapeBytes nm ++ (34 :: (58 :: (renderV v ++
        (renderFields 1 tl ++ tail)))))) = some (.fcons nm v tl, tail)) := by
  intro fuel
  induction fuel with
  | zero =>
    refine ⟨?_, ?_, ?_⟩
    · intro v tail _ _ _ hsz
      have := sizeV_pos v
      omega
    · intro v tl tail _ _ _ _ hsz
      have := sizeV_pos v
      have := sizeI_pos tl
      omega
    · intro nm v tl tail _ _ _ _ _ hsz
      have := sizeV_pos v
      have := sizeF_pos tl
      omega
  | succ fuel ih =>
    obtain ⟨ihP, ihQ, ihR⟩ := ih
    refine ⟨?_, ?_, ?_⟩
    · -- parseValue
      intro v tail hw hb hstop hsz
      cases v with
      | jnull => simp [parseValue, renderV, skipWs, isWsB]
      | jbool b =>
        cases b with
        | false => simp [parseValue, renderV, skipWs, isWsB]
        | true => simp [parseValue, renderV, skipWs, isWsB]
      | jstr s =>
        have hfs : s.length < fuel := by
          simp only [sizeV] at hsz
          omega
        have hbs : ByteArr s := hb
        have hP := parseStr_round s hbs tail fuel hfs
        simp only [renderV, List.cons_append, List.append_assoc, List.nil_append]
        simp [parseValue, skipWs, isWsB, hP]
      | jnum tok =>
        simp only [WFV] at hw
        obtain ⟨c, r, htok, hc⟩ := NumToken_head hw
        obtain ⟨hws, h34, h123, h91, h116, h102, h110, -, -, -⟩ := num_head_props hc
        have hPn := parseNumber_round hw hstop
        rw [renderV, htok, List.cons_append]
        simp only [parseValue]
        simp only [skipWs_cons hws]
        rw [if_neg h34, if_neg h123, if_neg h91, if_neg h116,
          if_neg h102, if_neg h110, if_pos (show c = 45 ∨ isDigitB c = true from hc),
          ← List.cons_append, ← htok]
        simp only [hPn]
      | jarr xs =>
        simp only [renderV, List.cons_append]
        simp only [parseValue]
        simp only [skipWs91]
        cases xs with
        | inil =>
          rw [show renderItems 0 JItems.inil ++ tail = 93 :: tail from rfl]
          simp only [skipWs93]
          norm_num
        | icons v tl =>
          simp only [WFV, WFI] at hw
          simp only [BV, BVI] at hb
          have hform : renderItems 0 (JItems.icons v tl) ++ tail =
              renderV v ++ (renderItems 1 tl ++ tail) := by
            simp [renderItems]
          rw [hform]
          obtain ⟨c, r, hhead, hcws, hc93, _⟩ := renderV_head hw.1
          have hQ := ihQ v tl tail hw.1 hw.2 hb.1 hb.2 (by simp only [sizeV, sizeI] at hsz; omega)
          rw [hhead, List.cons_append]
          simp only [skipWs_cons hcws]
          simp only [show ((91 : Nat) = 34) = False from by norm_num,
            show ((91 : Nat) = 123) = False from by norm_num, if_false, if_true]
          split
          next r2 heq =>
            injection heq with h1 _
            exact absurd h1 hc93
          next r2 heq =>
            rw [← List.cons_append, ← hhead]
            simp only [hQ]
      | jobj fs =>
        simp only [renderV, List.cons_append]
        simp only [parseValue]
        simp only [skipWs123]
        cases fs with
        | fnil =>
          rw [show renderFields 0 JFields.fnil ++ tail = 125 :: tail from rfl]
          simp only [skipWs125]
          norm_num
        | fcons nm v tl =>
          simp only [WFV, WFF] at hw
          simp only [BV, BVF] at hb
          have hform : renderFields 0 (JFields.fcons nm v tl) ++ tail =
              34 :: (escapeBytes nm ++ (34 :: (58 :: (renderV v ++
                (renderFields 1 tl ++ tail))))) := by
            simp [renderFields]
          rw [hform]
          have hR := ihR nm v tl tail hb.1 hw.1 hw.2 hb.2.1 hb.2.2
            (by simp only [sizeV, sizeF] at hsz; omega)
          simp only [skipWs34]
          simp only [show ((123 : Nat) = 34) = False from by norm_num, if_false, if_true]
          simp only [hR]
    · -- parseItems
      intro v tl tail hwv hwi hbv hbi hsz
      simp only [parseItems]
      have hstop : Stops (renderItems 1 tl ++ tail) := stops_renderItems tl tail
      have hP := ihP v (renderItems 1 tl ++ tail) hwv hbv hstop
        (by have := sizeI_pos tl; omega)
      simp only [hP]
      cases tl with
      | inil =>
        rw [show renderItems 1 JItems.inil ++ tail = 93 :: tail from rfl]
        simp only [skipWs93]
      | icons v2 tl2 =>
        simp only [WFI] at hwi
        simp only [BVI] at hbi
        have hform : renderItems 1 (JItems.icons v2 tl2) ++ tail =
            44 :: (renderV v2 ++ (renderItems 1 tl2 ++ tail)) := by
          simp [renderItems, renderItems_pos tl2 2 (by norm_num)]
        rw [hform]
        simp only [skipWs44]
        have hQ := ihQ v2 tl2 tail hwi.1 hwi.2 hbi.1 hbi.2
          (by simp only [sizeI] at hsz; omega)
        simp only [hQ]
    · -- parseMembers
      intro nm v tl tail hnm hwv hwf hbv hbf hsz
      simp only [parseMembers]
      have hnmf : nm.length < fuel := by
        have := sizeV_pos v
        have := sizeF_pos tl
        omega
      have hPs := parseStr_round nm hnm (58 :: (renderV v ++ (renderFields 1 tl ++ tail)))
        fuel hnmf
      simp only [hPs]
      simp only [skipWs58]
      have hstop : Stops (renderFields 1 tl ++ tail) := stops_renderFields tl tail
      have hP := ihP v (renderFields 1 tl ++ tail) hwv hbv hstop
        (by have := sizeF_pos tl; omega)
      simp only [hP]
      cases tl with
      | fnil =>
        rw [show renderFields 1 JFields.fnil ++ tail = 125 :: tail from rfl]
        simp only [skipWs125]
      | fcons nm2 v2 tl2 =>
        simp only [WFF] at hwf
        simp only [BVF] at hbf
        have hform : renderFields 1 (JFields.fcons nm2 v2 tl2) ++ tail =
            44 :: (34 :: (escapeBytes nm2 ++ (34 :: (58 :: (renderV v2 ++
              (renderFields 1 tl2 ++ tail)))))) := by
          simp [renderFields, renderFields_pos tl2 2 (by norm_num)]
        rw [hform]
        simp only [skipWs44, skipWs34]
        have hR := ihR nm2 v2 tl2 tail hbf.1 hwf.1 hwf.2 hbf.2.1 hbf.2.2
          (by simp only [sizeF] at hsz; omega)
        simp only [hR]

theorem SafeChars_append {a b : List Nat} (ha : SafeChars a) (hb : SafeChars b) :
    SafeChars (a ++ b) := by
  intro c hc
  rcases List.mem_append.1 hc with h | h
  · exact ha c h
  · exact hb c h

theorem SafeChars_cons {c : Nat} {l : List Nat} (hc : 0x20 ≤ c ∧ c ≠ 0x22 ∧ c ≠ 0x5c)
    (hl : SafeChars l) : SafeChars (c :: l) := by
  intro x hx
  rcases List.mem_cons.1 hx with rfl | h
  · exact hc
  · exact hl x h

theorem SafeChars_nil : SafeChars [] := by
  intro x hx
  simp at hx

theorem ByteArr_append {a b : List Nat} (ha : ByteArr a) (hb : ByteArr b) :
    ByteArr (a ++ b) := by
  intro c hc
  rcases List.mem_append.1 hc with h | h
  · exact ha c h
  · exact hb c h

theorem ByteArr_cons {c : Nat} {l : List Nat} (hc : c < 256) (hl : ByteArr l) :
    ByteArr (c :: l) := by
  intro x hx
  rcases List.mem_cons.1 hx with rfl | h
  · exact hc
  · exact hl x h

theorem ByteArr_nil : ByteArr [] := by
  intro x hx
  simp at hx

theorem toItems_map_shape (ps : List (List Nat × JValue)) :
    toItems (List.map (fun p => (p.1, shapeOf p.2)) ps) = shapeItems (toItems ps) := by
  induction ps with
  | nil => rfl
  | cons p r ih =>
    simp only [List.map_cons, toItems, shapeItems, ih]

theorem toFields_map_shape (ps : List (List Nat × JValue)) :
    toFields (List.map (fun p => (p.1, shapeOf p.2)) ps) = shapeFields (toFields ps) := by
  induction ps with
  | nil => rfl
  | cons p r ih =>
    simp only [List.map_cons, toFields, shapeFields, ih]

theorem toItems_wf {ps : List (List Nat × JValue)}
    (h : ∀ p ∈ ps, WFV p.2 ∧ BV p.2 ∧ ByteArr p.1) :
    WFI (toItems ps) ∧ BVI (toItems ps) := by
  induction ps with
  | nil => exact ⟨trivial, trivial⟩
  | cons p r ih =>
    obtain ⟨h1, h2, _⟩ := h p (List.mem_cons_self p r)
    obtain ⟨ih1, ih2⟩ := ih (fun q hq => h q (List.mem_cons_of_mem p hq))
    exact ⟨⟨h1, ih1⟩, ⟨h2, ih2⟩⟩

theorem toFields_wf {ps : List (List Nat × JValue)}
    (h : ∀ p ∈ ps, WFV p.2 ∧ BV p.2 ∧ ByteArr p.1) :
    WFF (toFields ps) ∧ BVF (toFields ps) := by
  induction ps with
  | nil => exact ⟨trivial, trivial⟩
  | cons p r ih =>
    obtain ⟨h1, h2, h3⟩ := h p (List.mem_cons_self p r)
    obtain ⟨ih1, ih2⟩ := ih (fun q hq => h q (List.mem_cons_of_mem p hq))
    exact ⟨⟨h1, ih1⟩, ⟨h3, h2, ih2⟩⟩

theorem refValue_string (fuel : Nat) (inp : List Nat) (j : Nat) :
    refValue (fuel + 1) inp j BSON_DATA_STRING =
      some (.jstr [], j + 4 + (asIntW 32 (leBytes inp j 4)).toNat) := by
  simp [refValue, BSON_DATA_STRING, BSON_DATA_OID, BSON_DATA_INT, BSON_DATA_NUMBER,
    BSON_DATA_DATE, BSON_DATA_BOOLEAN, BSON_DATA_OBJECT, BSON_DATA_ARRAY, BSON_DATA_NULL,
    BSON_DATA_LONG]

theorem refValue_oid (fuel : Nat) (inp : List Nat) (j : Nat) :
    refValue (fuel + 1) inp j BSON_DATA_OID = some (.jstr [], j + 12) := by
  simp [refValue, BSON_DATA_STRING, BSON_DATA_OID, BSON_DATA_INT, BSON_DATA_NUMBER,
    BSON_DATA_DATE, BSON_DATA_BOOLEAN, BSON_DATA_OBJECT, BSON_DATA_ARRAY, BSON_DATA_NULL,
    BSON_DATA_LONG]

theorem refValue_int (fuel : Nat) (inp : List Nat) (j : Nat) :
    refValue (fuel + 1) inp j BSON_DATA_INT = some (.jnum [], j + 4) := by
  simp [refValue, BSON_DATA_STRING, BSON_DATA_OID, BSON_DATA_INT, BSON_DATA_NUMBER,
    BSON_DATA_DATE, BSON_DATA_BOOLEAN, BSON_DATA_OBJECT, BSON_DATA_ARRAY, BSON_DATA_NULL,
    BSON_DATA_LONG]

theorem refValue_number (fuel : Nat) (inp : List Nat) (j : Nat) :
    refValue (fuel + 1) inp j BSON_DATA_NUMBER =
      some ((if isFiniteBits (leBytes inp j 8) then JValue.jnum [] else JValue.jnull),
        j + 8) := by
  simp [refValue, BSON_DATA_STRING, BSON_DATA_OID, BSON_DATA_INT, BSON_DATA_NUMBER,
    BSON_DATA_DATE, BSON_DATA_BOOLEAN, BSON_DATA_OBJECT, BSON_DATA_ARRAY, BSON_DATA_NULL,
    BSON_DATA_LONG]

theorem refValue_date (fuel : Nat) (inp : List Nat) (j : Nat) :
    refValue (fuel + 1) inp j BSON_DATA_DATE = some (.jstr [], j + 8) := by
  simp [refValue, BSON_DATA_STRING, BSON_DATA_OID, BSON_DATA_INT, BSON_DATA_NUMBER,
    BSON_DATA_DATE, BSON_DATA_BOOLEAN, BSON_DATA_OBJECT, BSON_DATA_ARRAY, BSON_DATA_NULL,
    BSON_DATA_LONG]

theorem refValue_boolean (fuel : Nat) (inp : List Nat) (j : Nat) :
    refValue (fuel + 1) inp j BSON_DATA_BOOLEAN =
      some (.jbool (byteAt inp j == 1), j + 1) := by
  simp [refValue, BSON_DATA_STRING, BSON_DATA_OID, BSON_DATA_INT, BSON_DATA_NUMBER,
    BSON_DATA_DATE, BSON_DATA_BOOLEAN, BSON_DATA_OBJECT, BSON_DATA_ARRAY, BSON_DATA_NULL,
    BSON_DATA_LONG]

theorem refValue_object (fuel : Nat) (inp : List Nat) (j : Nat) :
    refValue (fuel + 1) inp j BSON_DATA_OBJECT = refDoc fuel inp j false := by
  simp [refValue, BSON_DATA_STRING, BSON_DATA_OID, BSON_DATA_INT, BSON_DATA_NUMBER,
    BSON_DATA_DATE, BSON_DATA_BOOLEAN, BSON_DATA_OBJECT, BSON_DATA_ARRAY, BSON_DATA_NULL,
    BSON_DATA_LONG]

theorem refValue_array (fuel : Nat) (inp : List Nat) (j : Nat) :
    refValue (fuel + 1) inp j BSON_DATA_ARRAY = refDoc fuel inp j true := by
  simp [refValue, BSON_DATA_STRING, BSON_DATA_OID, BSON_DATA_INT, BSON_DATA_NUMBER,
    BSON_DATA_DATE, BSON_DATA_BOOLEAN, BSON_DATA_OBJECT, BSON_DATA_ARRAY, BSON_DATA_NULL,
    BSON_DATA_LONG]

theorem refValue_null (fuel : Nat) (inp : List Nat) (j : Nat) :
    refValue (fuel + 1) inp j BSON_DATA_NULL = some (.jnull, j) := by
  simp [refValue, BSON_DATA_STRING, BSON_DATA_OID, BSON_DATA_INT, BSON_DATA_NUMBER,
    BSON_DATA_DATE, BSON_DATA_BOOLEAN, BSON_DATA_OBJECT, BSON_DATA_ARRAY, BSON_DATA_NULL,
    BSON_DATA_LONG]

theorem refValue_long (fuel : Nat) (inp : List Nat) (j : Nat) :
    refValue (fuel + 1) inp j BSON_DATA_LONG = some (.jnum [], j + 8) := by
  simp [refValue, BSON_DATA_STRING, BSON_DATA_OID, BSON_DATA_INT, BSON_DATA_NUMBER,
    BSON_DATA_DATE, BSON_DATA_BOOLEAN, BSON_DATA_OBJECT, BSON_DATA_ARRAY, BSON_DATA_NULL,
    BSON_DATA_LONG]


/-- Simulation of the walker against the reference shape decoder: a
successful run that saw no `undefined` element produces exactly the
rendering of a well-formed JSON value whose shape (and end index) the
reference decoder computes. -/
theorem walker_sim : ∀ fuel : Nat,
    (∀ (mode : Mode) (dtoa : Nat → List Nat) (dateFmt : Int → List Nat) (isArray : Bool)
        (s : TState) (t : TState),
      s.allocs = [] → ByteArr s.inp → (∀ b, NumToken (dtoa b)) →
      (∀ q, SafeChars (dateFmt q)) → (∀ q, ByteArr (dateFmt q)) →
      transcodeObject mode dtoa dateFmt fuel isArray s = some (false, t) →
      t.sawUndefined = false →
      ∃ v d, refDoc fuel s.inp s.inIdx isArray = some (shapeOf v, s.inIdx + d) ∧
        Ext s t d (renderV v) ∧ WFV v ∧ BV v) ∧
    (∀ (mode : Mode) (dtoa : Nat → List Nat) (dateFmt : Int → List Nat) (isArray : Bool)
        (arrIdx : Nat) (s : TState) (t : TState),
      s.allocs = [] → ByteArr s.inp → (∀ b, NumToken (dtoa b)) →
      (∀ q, SafeChars (dateFmt q)) → (∀ q, ByteArr (dateFmt q)) →
      transcodeElems mode dtoa dateFmt fuel isArray arrIdx s = some (false, t) →
      t.sawUndefined = false →
      ∃ ps d, refElems fuel s.inp s.inIdx isArray arrIdx =
          some (List.map (fun p => (p.1, shapeOf p.2)) ps, s.inIdx + d) ∧
        Ext s t d (if isArray then renderItems arrIdx (toItems ps)
          else renderFields arrIdx (toFields ps)) ∧
        (∀ p ∈ ps, WFV p.2 ∧ BV p.2 ∧ ByteArr p.1)) ∧
    (∀ (mode : Mode) (dtoa : Nat → List Nat) (dateFmt : Int → List Nat) (tb : Nat)
        (s : TState) (t : TState),
      s.allocs = [] → ByteArr s.inp → (∀ b, NumToken (dtoa b)) →
      (∀ q, SafeChars (dateFmt q)) → (∀ q, ByteArr (dateFmt q)) →
      transcodeValue mode dtoa dateFmt fuel tb s = some (false, t) →
      t.sawUndefined = false →
      ∃ v d, refValue fuel s.inp s.inIdx tb = some (shapeOf v, s.inIdx + d) ∧
        Ext s t d (renderV v) ∧ WFV v ∧ BV v) := by
  intro fuel
  induction fuel with
  | zero =>
    refine ⟨?_, ?_, ?_⟩
    · intro mode dtoa dateFmt isArray s t _ _ _ _ _ h _
      simp [transcodeObject] at h
    · intro mode dtoa dateFmt isArray arrIdx s t _ _ _ _ _ h _
      simp [transcodeElems] at h
    · intro mode dtoa dateFmt tb s t _ _ _ _ _ h _
      simp [transcodeValue] at h
  | succ fuel ih =>
    obtain ⟨ihObj, ihElems, ihVal⟩ := ih
    refine ⟨?_, ?_, ?_⟩
    · -- transcodeObject
      intro mode dtoa dateFmt isArray s t ha hB hdt hdf hdfB h hu
      rw [transcodeObject] at h
      split at h
      next sizeN s1 heq =>
        have hext1 : Ext s s1 4 [] := by
          have := Ext_readLEn 4 s
          rw [heq] at this
          exact this
        obtain ⟨hi1, hx1, ho1, he1, hu1, hl1⟩ := hext1
        split at h
        · injection h with h1
          injection h1 with hb ht
          exact Bool.noConfusion hb
        · split at h
          · injection h with h1
            injection h1 with hb ht
            exact Bool.noConfusion hb
          · split at h
            next s2 heq2 =>
              obtain ⟨t2, hens, _⟩ := ensureSpace_ok mode 1 s1 (hl1.trans ha)
              rw [hens] at heq2
              cases heq2
            next s2 heq2 =>
              obtain ⟨t2, hens, hext2⟩ := ensureSpace_ok mode 1 s1 (hl1.trans ha)
              rw [hens] at heq2
              injection heq2 with _ hs2
              subst hs2
              obtain ⟨hi2, hx2, ho2, he2, hu2, hl2⟩ := hext2
              have hextb : Ext s (push t2 (if isArray then 91 else 123)) 4
                  [if isArray then 91 else 123] := by
                have := ((show Ext s s1 4 [] from ⟨hi1, hx1, ho1, he1, hu1, hl1⟩).trans
                  ⟨hi2, hx2, ho2, he2, hu2, hl2⟩).trans
                    (Ext_push t2 (if isArray then 91 else 123))
                simpa using this
              obtain ⟨hib, hxb, hob, heb, hub, hlb⟩ := hextb
              obtain ⟨ps, de, href, hextE, hwf⟩ := ihElems mode dtoa dateFmt isArray 0
                (push t2 (if isArray then 91 else 123)) t (by rw [hlb]; exact ha)
                (by rw [hib]; exact hB) hdt hdf hdfB h hu
              rw [hib, hxb] at href
              refine ⟨if isArray then JValue.jarr (toItems ps) else JValue.jobj (toFields ps),
                4 + de, ?_, ?_, ?_, ?_⟩
              · simp only [refDoc]
                rw [href]
                cases isArray
                · simp [shapeOf, toFields_map_shape]
                  omega
                · simp [shapeOf, toItems_map_shape]
                  omega
              · have := (show Ext s (push t2 (if isArray then 91 else 123)) 4
                    [if isArray then 91 else 123] from ⟨hib, hxb, hob, heb, hub, hlb⟩).trans
                  hextE
                refine this.cast rfl ?_
                cases isArray
                · simp [renderV]
                · simp [renderV]
              · cases isArray
                · exact (toFields_wf hwf).1
                · exact (toItems_wf hwf).1
              · cases isArray
                · exact (toFields_wf hwf).2
                · exact (toItems_wf hwf).2

    · -- transcodeElems
      intro mode dtoa dateFmt isArray arrIdx s t ha hB hdt hdf hdfB h hu
      obtain ⟨-, hwaE, hwaV⟩ := walker_err_allocs fuel
      rw [transcodeElems] at h
      split at h
      next tb s1 heq =>
        have htbb : byteAt s.inp s.inIdx = tb := by
          rw [← readByte_fst s, heq]
        have hext1 : Ext s s1 1 [] := by
          have := Ext_readByte s
          rw [heq] at this
          exact this
        obtain ⟨hi1, hx1, ho1, he1, hu1, hl1⟩ := hext1
        by_cases htb : tb = 0
        · rw [if_pos htb] at h
          split at h
          next s2 heq2 =>
            obtain ⟨t2, hens, _⟩ := ensureSpace_ok mode 1 s1 (hl1.trans ha)
            rw [hens] at heq2
            cases heq2
          next s2 heq2 =>
            obtain ⟨t2, hens, hext2⟩ := ensureSpace_ok mode 1 s1 (hl1.trans ha)
            rw [hens] at heq2
            injection heq2 with _ hs2
            subst hs2
            obtain ⟨hi2, hx2, ho2, he2, hu2, hl2⟩ := hext2
            injection h with h1
            injection h1 with hb ht
            subst ht
            refine ⟨[], 1, ?_, ?_, ?_⟩
            · simp only [refElems]
              rw [htbb, if_pos htb]
              rfl
            · have hch : Ext s (push t2 (if isArray then 93 else 125)) 1
                  [if isArray then 93 else 125] := by
                have := ((show Ext s s1 1 [] from ⟨hi1, hx1, ho1, he1, hu1, hl1⟩).trans
                  ⟨hi2, hx2, ho2, he2, hu2, hl2⟩).trans
                    (Ext_push t2 (if isArray then 93 else 125))
                simpa using this
              refine hch.cast rfl ?_
              cases isArray <;> rfl
            · intro p hp
              simp at hp
        · rw [if_neg htb] at h
          split at h
          next s2 heq2 =>
            obtain ⟨u, hcs, _⟩ := commaStep_spec mode arrIdx s1 (hl1.trans ha)
            rw [hcs] at heq2
            cases heq2
          next s2 heq2 =>
            obtain ⟨u, hcs, hext2⟩ := commaStep_spec mode arrIdx s1 (hl1.trans ha)
            rw [hcs] at heq2
            injection heq2 with _ hs2
            subst hs2
            obtain ⟨hi2, hx2, ho2, he2, hu2, hl2⟩ := hext2
            have hiu : u.inp = s.inp := hi2.trans hi1
            have hxu : u.inIdx = s.inIdx + 1 := by omega
            split at h
            next heq3 =>
              obtain ⟨w, hns, _⟩ := nameStep_spec mode isArray arrIdx u
                (hl2.trans (hl1.trans ha))
              rw [hns] at heq3
              cases heq3
            next s3 heq3 =>
              obtain ⟨w, hns, _⟩ := nameStep_spec mode isArray arrIdx u
                (hl2.trans (hl1.trans ha))
              rw [hns] at heq3
              cases heq3
            next s3 heq3 =>
              obtain ⟨w, hns, hext3⟩ := nameStep_spec mode isArray arrIdx u
                (hl2.trans (hl1.trans ha))
              rw [hns] at heq3
              injection heq3 with h3
              injection h3 with _ hs3
              subst hs3
              have hiw : w.inp = s.inp := hext3.1.trans hiu
              have hxw : w.inIdx = s.inIdx + 1 +
                  (if isArray then nDigits arrIdx
                   else (cstrAt s.inp (s.inIdx + 1)).length + 1) := by
                rw [hext3.2.1, hiu, hxu]
              have hwalc : w.allocs = []  := by
                rw [hext3.2.2.2.2.2]
                exact hl2.trans (hl1.trans ha)
              split at h
              next heq4 => cases h
              next s4 heq4 =>
                injection h with h1
                injection h1 with hb ht
                exact Bool.noConfusion hb
              next s4 heq4 =>
                have hs4a : s4.allocs = [] :=
                  (hwaV mode dtoa dateFmt tb w false s4 hwalc heq4).1
                have hs4u : s4.sawUndefined = false := by
                  cases hs4eq : s4.sawUndefined
                  · rfl
                  · have hmono := (hwaE mode dtoa dateFmt isArray (arrIdx + 1) s4 false t
                      hs4a h).2.2.2 hs4eq
                    rw [hmono] at hu
                    cases hu
                obtain ⟨v, dv, hrefV, hextV, hwv, hbv⟩ := ihVal mode dtoa dateFmt tb w s4
                  hwalc (by rw [hiw]; exact hB) hdt hdf hdfB heq4 hs4u
                obtain ⟨hiV, hxV, hoV, heV, huV, hlV⟩ := hextV
                have his4 : s4.inp = s.inp := hiV.trans hiw
                obtain ⟨ps2, de, hrefE, hextE, hwfE⟩ := ihElems mode dtoa dateFmt isArray
                  (arrIdx + 1) s4 t hs4a (by rw [his4]; exact hB) hdt hdf hdfB h hu
                rw [hiw, hxw] at hrefV
                rw [his4, hxV, hxw] at hrefE
                have hextV2 : Ext w s4 dv (renderV v) := ⟨hiV, hxV, hoV, heV, huV, hlV⟩
                cases isArray with
              | false =>
                simp only [Bool.false_eq_true, if_false] at hrefV hrefE hext3 hextE ⊢
                refine ⟨(cstrAt s.inp (s.inIdx + 1), v) :: ps2,
                  1 + ((cstrAt s.inp (s.inIdx + 1)).length + 1) + dv + de, ?_, ?_, ?_⟩
                · simp only [refElems]
                  rw [htbb, if_neg htb]
                  simp only [Bool.false_eq_true, if_false]
                  simp only [hrefV, hrefE]
                  simp only [List.map_cons, Option.some.injEq, Prod.mk.injEq]
                  exact ⟨trivial, by omega⟩
                · have hee := ((((show Ext s s1 1 [] from ⟨hi1, hx1, ho1, he1, hu1, hl1⟩).trans
                    (show Ext s1 u 0 (if arrIdx ≠ 0 then [44] else []) from
                      ⟨hi2, hx2, ho2, he2, hu2, hl2⟩)).trans hext3).trans hextV2).trans hextE
                  refine hee.cast ?_ ?_
                  · rw [hiu, hxu]
                  · rw [hiu, hxu]
                    simp [renderFields, toFields]
                · intro p hp
                  rcases List.mem_cons.1 hp with rfl | hp2
                  · refine ⟨hwv, hbv, ?_⟩
                    exact cstrAt_byteArr hB (s.inIdx + 1)
                  · exact hwfE p hp2
              | true =>
                simp only [eq_self_iff_true, if_true] at hrefV hrefE hext3 hextE ⊢
                refine ⟨(([] : List Nat), v) :: ps2,
                  1 + (nDigits arrIdx) + dv + de, ?_, ?_, ?_⟩
                · simp only [refElems]
                  rw [htbb, if_neg htb]
                  simp only [eq_self_iff_true, if_true]
                  simp only [hrefV, hrefE]
                  simp only [List.map_cons, Option.some.injEq, Prod.mk.injEq]
                  exact ⟨trivial, by omega⟩
                · have hee := ((((show Ext s s1 1 [] from ⟨hi1, hx1, ho1, he1, hu1, hl1⟩).trans
                    (show Ext s1 u 0 (if arrIdx ≠ 0 then [44] else []) from
                      ⟨hi2, hx2, ho2, he2, hu2, hl2⟩)).trans hext3).trans hextV2).trans hextE
                  refine hee.cast ?_ ?_
                  · omega
                  · simp [renderItems, toItems]
                · intro p hp
                  rcases List.mem_cons.1 hp with rfl | hp2
                  · refine ⟨hwv, hbv, ?_⟩
                    exact ByteArr_nil
                  · exact hwfE p hp2

    · -- transcodeValue
      intro mode dtoa dateFmt tb s t ha hB hdt hdf hdfB h hu
      rw [transcodeValue] at h
      by_cases h1 : tb = BSON_DATA_STRING
      · rw [if_pos h1] at h
        subst h1
        rcases valString_spec mode s ha with ⟨u, hv, herr, hal, hsu⟩ | ⟨u, hv, hpos, hext⟩
        · rw [hv] at h
          injection h with h1x
          injection h1x with hb ht
          exact Bool.noConfusion hb
        · rw [hv] at h
          injection h with h1x
          injection h1x with hb ht
          subst ht
          refine ⟨JValue.jstr (bytesAt s.inp (s.inIdx + 4)
            ((asIntW 32 (leBytes s.inp s.inIdx 4)).toNat - 1)),
            4 + (asIntW 32 (leBytes s.inp s.inIdx 4)).toNat, ?_, ?_, ?_, ?_⟩
          · rw [refValue_string]
            simp only [shapeOf, Option.some.injEq, Prod.mk.injEq]
            exact ⟨trivial, by omega⟩
          · exact hext.cast rfl (by simp [renderV])
          · simp [WFV]
          · simp only [BV]
            exact bytesAt_byteArr hB _ _
      rw [if_neg h1] at h
      by_cases h2 : tb = BSON_DATA_OID
      · rw [if_pos h2] at h
        subst h2
        obtain ⟨u, hv, hext⟩ := valOid_spec mode s ha
        rw [hv] at h
        injection h with h1x
        injection h1x with hb ht
        subst ht
        have hsafe := oidHex_safe (bytesAt s.inp s.inIdx 12) (bytesAt_byteArr hB s.inIdx 12)
        refine ⟨JValue.jstr (oidHex (bytesAt s.inp s.inIdx 12)), 12, ?_, ?_, ?_, ?_⟩
        · rw [refValue_oid]
          simp [shapeOf]
        · refine hext.cast rfl ?_
          simp [renderV, escapeBytes_safe_id hsafe.1]
        · simp [WFV]
        · simp only [BV]
          exact hsafe.2
      rw [if_neg h2] at h
      by_cases h3 : tb = BSON_DATA_INT
      · rw [if_pos h3] at h
        subst h3
        obtain ⟨u, hv, hext⟩ := valInt_spec mode s ha
        rw [hv] at h
        injection h with h1x
        injection h1x with hb ht
        subst ht
        have hlt : leBytes s.inp s.inIdx 4 < 2 ^ 32 := by
          have := leBytes_lt hB s.inIdx 4
          norm_num at this
          exact this
        obtain ⟨hb1, hb2⟩ := asIntW_bounds (by norm_num) hlt
        have hnt : NumToken (fastItoa 32 (asIntW 32 (leBytes s.inp s.inIdx 4))) :=
          fastItoa_numToken 32 (Or.inl rfl) _ hb1 hb2
        refine ⟨JValue.jnum (fastItoa 32 (asIntW 32 (leBytes s.inp s.inIdx 4))), 4,
          ?_, ?_, ?_, ?_⟩
        · rw [refValue_int]
          simp [shapeOf]
        · exact hext.cast rfl (by simp [renderV])
        · simpa [WFV] using hnt
        · simp [BV]
      rw [if_neg h3] at h
      by_cases h4 : tb = BSON_DATA_NUMBER
      · rw [if_pos h4] at h
        subst h4
        obtain ⟨u, hv, hext⟩ := valNumber_spec mode dtoa s ha
        rw [hv] at h
        injection h with h1x
        injection h1x with hb ht
        subst ht
        by_cases hfin : isFiniteBits (leBytes s.inp s.inIdx 8)
        · refine ⟨JValue.jnum (dtoa (leBytes s.inp s.inIdx 8)), 8, ?_, ?_, ?_, ?_⟩
          · rw [refValue_number]
            simp [shapeOf, hfin]
          · refine hext.cast rfl ?_
            simp [renderV, hfin]
          · simpa [WFV] using hdt _
          · simp [BV]
        · refine ⟨JValue.jnull, 8, ?_, ?_, ?_, ?_⟩
          · rw [refValue_number]
            simp [shapeOf, hfin]
          · refine hext.cast rfl ?_
            simp [renderV, hfin]
          · simp [WFV]
          · simp [BV]
      rw [if_neg h4] at h
      by_cases h5 : tb = BSON_DATA_DATE
      · rw [if_pos h5] at h
        subst h5
        obtain ⟨u, hv, hext⟩ := valDate_spec mode dateFmt s ha
        rw [hv] at h
        injection h with h1x
        injection h1x with hb ht
        subst ht
        have hmb := tmod_bounds (asIntW 64 (leBytes s.inp s.inIdx 8))
        have hms := dateMillisDigits_safe hmb.1 hmb.2
        have hsafe : SafeChars (dateFmt ((asIntW 64 (leBytes s.inp s.inIdx 8)).tdiv 1000) ++
            (46 :: (dateMillisDigits ((asIntW 64 (leBytes s.inp s.inIdx 8)).tmod 1000) ++
              [90]))) := by
          refine SafeChars_append (hdf _) (SafeChars_cons (by norm_num)
            (SafeChars_append hms.1 ?_))
          intro c hc
          rcases List.mem_singleton.1 hc with rfl
          exact ⟨by norm_num, by norm_num, by norm_num⟩
        refine ⟨JValue.jstr (dateFmt ((asIntW 64 (leBytes s.inp s.inIdx 8)).tdiv 1000) ++
          (46 :: (dateMillisDigits ((asIntW 64 (leBytes s.inp s.inIdx 8)).tmod 1000) ++
            [90]))), 8, ?_, ?_, ?_, ?_⟩
        · rw [refValue_date]
          simp [shapeOf]
        · refine hext.cast rfl ?_
          simp [renderV, escapeBytes_safe_id hsafe]
        · simp [WFV]
        · simp only [BV]
          refine ByteArr_append (hdfB _) (ByteArr_cons (by norm_num)
            (ByteArr_append hms.2 ?_))
          intro c hc
          rcases List.mem_singleton.1 hc with rfl
          norm_num
      rw [if_neg h5] at h
      by_cases h6 : tb = BSON_DATA_BOOLEAN
      · rw [if_pos h6] at h
        subst h6
        obtain ⟨u, hv, hext⟩ := valBoolean_spec mode s ha
        rw [hv] at h
        injection h with h1x
        injection h1x with hb ht
        subst ht
        refine ⟨JValue.jbool (byteAt s.inp s.inIdx == 1), 1, ?_, ?_, ?_, ?_⟩
        · rw [refValue_boolean]
          simp [shapeOf]
        · refine hext.cast rfl ?_
          by_cases hbx : byteAt s.inp s.inIdx = 1
          · rw [if_pos hbx, hbx]
            simp [renderV]
          · rw [if_neg hbx]
            have hf : (byteAt s.inp s.inIdx == 1) = false := beq_eq_false_iff_ne.2 hbx
            rw [hf]
            simp [renderV]
        · simp [WFV]
        · simp [BV]
      rw [if_neg h6] at h
      by_cases h7 : tb = BSON_DATA_OBJECT
      · rw [if_pos h7] at h
        subst h7
        obtain ⟨v, d, href, hext, hwv, hbv⟩ := ihObj mode dtoa dateFmt false s t ha hB hdt
          hdf hdfB h hu
        refine ⟨v, d, ?_, hext, hwv, hbv⟩
        rw [refValue_object]
        exact href
      rw [if_neg h7] at h
      by_cases h8 : tb = BSON_DATA_ARRAY
      · rw [if_pos h8] at h
        subst h8
        split at h
        next heq => cases h
        next s4 heq =>
          injection h with h1x
          injection h1x with hb ht
          exact Bool.noConfusion hb
        next s4 heq =>
          split at h
          · injection h with h1x
            injection h1x with hb ht
            exact Bool.noConfusion hb
          · injection h with h1x
            injection h1x with hb ht
            subst ht
            obtain ⟨v, d, href, hext, hwv, hbv⟩ := ihObj mode dtoa dateFmt true s s4 ha hB
              hdt hdf hdfB heq hu
            refine ⟨v, d, ?_, hext, hwv, hbv⟩
            rw [refValue_array]
            exact href
      rw [if_neg h8] at h
      by_cases h9 : tb = BSON_DATA_NULL
      · rw [if_pos h9] at h
        subst h9
        obtain ⟨u, hv, hext⟩ := valNull_spec mode s ha
        rw [hv] at h
        injection h with h1x
        injection h1x with hb ht
        subst ht
        refine ⟨JValue.jnull, 0, ?_, ?_, ?_, ?_⟩
        · rw [refValue_null]
          simp [shapeOf]
        · exact hext.cast rfl (by simp [renderV])
        · simp [WFV]
        · simp [BV]
      rw [if_neg h9] at h
      by_cases h10 : tb = BSON_DATA_LONG
      · rw [if_pos h10] at h
        subst h10
        obtain ⟨u, hv, hext⟩ := valLong_spec mode s ha
        rw [hv] at h
        injection h with h1x
        injection h1x with hb ht
        subst ht
        have hlt : leBytes s.inp s.inIdx 8 < 2 ^ 64 := by
          have := leBytes_lt hB s.inIdx 8
          norm_num at this
          exact this
        obtain ⟨hb1, hb2⟩ := asIntW_bounds (by norm_num) hlt
        have hnt : NumToken (fastItoa 64 (asIntW 64 (leBytes s.inp s.inIdx 8))) :=
          fastItoa_numToken 64 (Or.inr rfl) _ hb1 hb2
        refine ⟨JValue.jnum (fastItoa 64 (asIntW 64 (leBytes s.inp s.inIdx 8))), 8,
          ?_, ?_, ?_, ?_⟩
        · rw [refValue_long]
          simp [shapeOf]
        · exact hext.cast rfl (by simp [renderV])
        · simpa [WFV] using hnt
        · simp [BV]
      rw [if_neg h10] at h
      by_cases h11 : tb = BSON_DATA_UNDEFINED
      · rw [if_pos h11] at h
        injection h with h1x
        injection h1x with hb ht
        rw [← ht] at hu
        simp at hu
      rw [if_neg h11] at h
      by_cases h12 : tb = BSON_DATA_DECIMAL128 ∨ tb = BSON_DATA_BINARY ∨
          tb = BSON_DATA_REGEXP ∨ tb = BSON_DATA_SYMBOL ∨ tb = BSON_DATA_TIMESTAMP ∨
          tb = BSON_DATA_MIN_KEY ∨ tb = BSON_DATA_MAX_KEY ∨ tb = BSON_DATA_CODE ∨
          tb = BSON_DATA_CODE_W_SCOPE ∨ tb = BSON_DATA_DBPOINTER
      · rw [if_pos h12] at h
        injection h with h1x
        injection h1x with hb ht
        exact Bool.noConfusion hb
      · rw [if_neg h12] at h
        injection h with h1x
        injection h1x with hb ht
        exact Bool.noConfusion hb


theorem escapeByte_length_pos (c : Nat) : 1 ≤ (escapeByte c).length := by
  rw [escapeByte]
  split
  · simp
  · split <;> simp [writeControlChar]

theorem escapeBytes_length_ge (s : List Nat) : s.length ≤ (escapeBytes s).length := by
  induction s with
  | nil => simp [escapeBytes]
  | cons c r ih =>
    rw [escapeBytes_cons]
    simp only [List.length_append, List.length_cons]
    have := escapeByte_length_pos c
    omega

mutual

/-- A well-formed value is at least half as big (in parser-fuel units) as
its rendering. -/
theorem sizeV_le : ∀ v : JValue, WFV v → sizeV v + 1 ≤ 2 * (renderV v).length
  | .jnull, _ => by simp [sizeV, renderV]
  | .jbool b, _ => by cases b <;> simp [sizeV, renderV]
  | .jnum tok, hw => by
    simp only [WFV] at hw
    have := NumToken_ne_nil hw
    have : 1 ≤ tok.length := by
      cases tok
      · exact absurd rfl this
      · simp
    simp only [sizeV, renderV]
    omega
  | .jstr s, _ => by
    simp only [sizeV, renderV, List.length_cons, List.length_append]
    have := escapeBytes_length_ge s
    omega
  | .jarr xs, hw => by
    simp only [WFV] at hw
    have := sizeI_le xs 0 hw
    simp only [sizeV, renderV, List.length_cons]
    omega
  | .jobj fs, hw => by
    simp only [WFV] at hw
    have := sizeF_le fs 0 hw
    simp only [sizeV, renderV, List.length_cons]
    omega

theorem sizeI_le : ∀ (xs : JItems) (k : Nat), WFI xs → sizeI xs ≤ 2 * (renderItems k xs).length
  | .inil, k, _ => by simp [sizeI, renderItems]
  | .icons v tl, k, hw => by
    simp only [WFI] at hw
    have h1 := sizeV_le v hw.1
    have h2 := sizeI_le tl (k + 1) hw.2
    simp only [sizeI, renderItems, List.length_append]
    split <;> simp only [List.length_cons, List.length_nil] <;> omega

theorem sizeF_le : ∀ (fs : JFields) (k : Nat), WFF fs → sizeF fs ≤ 2 * (renderFields k fs).length
  | .fnil, k, _ => by simp [sizeF, renderFields]
  | .fcons nm v tl, k, hw => by
    simp only [WFF] at hw
    have h1 := sizeV_le v hw.1
    have h2 := sizeF_le tl (k + 1) hw.2
    have h3 := escapeBytes_length_ge nm
    simp only [sizeF, renderFields, List.length_append, List.length_cons]
    split <;> simp only [List.length_cons, List.length_nil] <;> omega

end

/-! ### Concrete-run theorems for the claims -/

/-- C1 (counterexample): the 11-byte document `{a: undefined, b: null}`
transcodes without error to the bytes of `{"a":,"b":null}` — the
undefined value between other elements is elided leaving a dangling
`:` and comma — which a standard JSON parser rejects. -/
theorem undefined_elision_breaks_json :
    (transcode Mode.REALLOC dtoaZero dateFmtEmpty 100
        [11, 0, 0, 0, 6, 97, 0, 10, 98, 0, 0] false 0 false []).map
        (fun r => (r.1, r.2.err, r.2.out)) =
      some (false, none, [123, 34, 97, 34, 58, 44, 34, 98, 34, 58, 110, 117, 108, 108, 125]) ∧
    jsonParse ([123, 34, 97, 34, 58, 44, 34, 98, 34, 58, 110, 117, 108, 108, 125].length + 1)
      [123, 34, 97, 34, 58, 44, 34, 98, 34, 58, 110, 117, 108, 108, 125] = none := by
  decide!

/-- C2: on the name bytes `C3 A9` (a two-byte UTF-8 sequence) followed by
the NUL, the BASELINE null-terminated escape writer passes the bytes
through verbatim while the AVX2 one (whose signed compare lacks the
`0x80`-xor trick) emits `\u0013\u0019` — the tiers are not
byte-identical and bytes ≥ 0x80 do not pass through unchanged. -/
theorem avx2_cstr_diverges_from_baseline :
    (escCstrB Mode.REALLOC 10 { initState [195, 169, 0] [] with outLen := 64 }).map
        (fun r => (r.1, r.2.out)) = some (false, [195, 169]) ∧
    (escCstrAvx2 Mode.REALLOC 10 { initState [195, 169, 0] [] with outLen := 64 }).map
        (fun r => (r.1, r.2.out)) =
      some (false, [92, 117, 48, 48, 49, 51, 92, 117, 48, 48, 49, 57]) ∧
    [195, 169] ≠ [92, 117, 48, 48, 49, 51, 92, 117, 48, 48, 49, 57] := by
  decide!

/-- C4: transcoding the input `[5, 0]` (the 5-byte empty document
truncated to 2 bytes) performs an out-of-bounds read — the unchecked
4-byte `readLE` advances the cursor to 4, past the 2-byte input — before
any error is reported (and the error eventually reported is a size
error; no `TruncatedInput` error exists in the code). -/
theorem truncated_input_reads_past_end :
    (transcode Mode.REALLOC dtoaZero dateFmtEmpty 100 [5, 0] false 0 false []).map
        (fun r => (r.1, r.2.inIdx, r.2.oob)) = some (true, 4, true) ∧
    ([5, 0] : List Nat).length < 4 := by
  decide!

/-- C5: the 16-byte document `{a: {b: null}}` whose nested document
declares size 12 although only 9 bytes remain after its header is
accepted (the check compares the declared size against the total input
length 16, not the remaining input) and transcodes without any error to
`{"a":{"b":null}}`. -/
theorem nested_size_check_ignores_remaining :
    (transcode Mode.REALLOC dtoaZero dateFmtEmpty 100
        [16, 0, 0, 0, 3, 97, 0, 12, 0, 0, 0, 10, 98, 0, 0, 0] false 0 false []).map
        (fun r => (r.1, r.2.err, r.2.out)) =
      some (false, none,
        [123, 34, 97, 34, 58, 123, 34, 98, 34, 58, 110, 117, 108, 108, 125, 125]) ∧
    (12 : Nat) ≤ 16 ∧
    ([16, 0, 0, 0, 3, 97, 0, 12, 0, 0, 0, 10, 98, 0, 0, 0] : List Nat).length - 7 < 12 := by
  decide!

/-- C6: in REALLOC mode, `ensureSpace 128` on a buffer with
`out_idx = 0, out_len = 40` returns ok after a single resize to
`40 * 3 / 2 = 60`, leaving fewer than 128 writable bytes past `out_idx`
— the claimed `max(out_len·3/2, out_idx + n + slack)` growth and the
postcondition of the claim both fail. -/
theorem ensure_space_postcondition_fails :
    (ensureSpace Mode.REALLOC 128 { initState [] [] with outLen := 40 }).1 = false ∧
    (ensureSpace Mode.REALLOC 128 { initState [] [] with outLen := 40 }).2.outLen = 60 ∧
    (ensureSpace Mode.REALLOC 128 { initState [] [] with outLen := 40 }).2.outLen -
      (ensureSpace Mode.REALLOC 128 { initState [] [] with outLen := 40 }).2.outIdx < 128 := by
  decide!

/-- C7: transcoding `{a: Date(-1)}` splits -1 ms with truncating (not
floor) division into seconds 0 and millis -1 ∉ [0, 999], and emits the
malformed fraction `.0-1`: the output is `{"a":".0-1Z"}` (with the
opaque `strftime` stubbed to the empty string; the three fraction bytes
are independent of it). -/
theorem negative_date_millis_malformed :
    (transcode Mode.REALLOC dtoaZero dateFmtEmpty 100
        [16, 0, 0, 0, 9, 97, 0, 255, 255, 255, 255, 255, 255, 255, 255, 0] false 0 false []).map
        (fun r => (r.1, r.2.err, r.2.out)) =
      some (false, none, [123, 34, 97, 34, 58, 34, 46, 48, 45, 49, 90, 34, 125]) ∧
    asIntW 64 (leBytes [16, 0, 0, 0, 9, 97, 0, 255, 255, 255, 255, 255, 255, 255, 255, 0] 7 8) = -1 ∧
    ((-1 : Int).tdiv 1000 = 0 ∧ (-1 : Int).tmod 1000 = -1) := by
  decide!

/-- C8: `fast_itoa` renders both `INT32_MIN` and `INT64_MIN` as `-0`
(the signed negation `0 - val` overflows and wraps back to the minimum,
whose single final digit is `'0' + val` truncated to a byte), not the
correct decimal magnitude; the document `{a: INT32_MIN}` transcodes to
`{"a":-0}`. -/
theorem int_min_encodes_as_minus_zero :
    fastItoa 32 (-(2 ^ 31)) = [45, 48] ∧
    fastItoa 64 (-(2 ^ 63)) = [45, 48] ∧
    fastItoa 32 (-(2 ^ 31)) ≠ [45, 50, 49, 52, 55, 52, 56, 51, 54, 52, 56] ∧
    (transcode Mode.REALLOC dtoaZero dateFmtEmpty 100
        [12, 0, 0, 0, 16, 97, 0, 0, 0, 0, 128, 0] false 0 false []).map
        (fun r => (r.1, r.2.err, r.2.out)) =
      some (false, none, [123, 34, 97, 34, 58, 45, 48, 125]) := by
  decide!

/-- C9: the 6-byte input whose declared document size is 5 (one excess
byte) transcodes successfully in PAUSE mode with the cursor at 5, but
`isDone` compares the cursor with the full input length 6 and stays
false — the consumer never observes completion. -/
theorem excess_input_never_done :
    (transcode Mode.PAUSE dtoaZero dateFmtEmpty 100 [5, 0, 0, 0, 0, 255] false 64 false []).map
        (fun r => (r.1, r.2.err, r.2.inIdx, isDone r.2)) = some (false, none, 5, false) := by
  decide!

/-- C10 (counterexample): two traced runs against the claim's
unconditional wording.  First, when the initial allocation fails (oracle
`[false]`) `transcode` ignores the failed `resize`, carries on, and
returns `false` (success) although `err` has been set to
`"Allocation failure"` — the claimed equivalence between the return value
and `err` being set does not hold.  Second, a successful PAUSE-mode run
that drained mid-way (chunk size 4 on the 8-byte document `{b: null}`)
ends with `out[0..outIdx)` holding only the final chunk `[123]` (a lone
`\x7b`) of the complete output `\x7b"b":null\x7d`, so on a false return
the final window alone is not the complete JSON output in PAUSE mode —
the earlier bytes were handed to the consumer at each drain. -/
theorem alloc_failure_breaks_err_iff :
    ((transcode Mode.REALLOC dtoaZero dateFmtEmpty 100 [5, 0, 0, 0, 0] false 0 false
        [false]).map (fun r => (r.1, r.2.err)) = some (false, some "Allocation failure")) ∧
    ((transcode Mode.PAUSE dtoaZero dateFmtEmpty 100 [8, 0, 0, 0, 10, 98, 0, 0] false 4
        true []).map
        (fun r => (r.1, r.2.err, decide (List.take r.2.outIdx r.2.out = r.2.out),
          List.take r.2.outIdx r.2.out, r.2.out)) =
      some (false, none, false, [123], [123, 34, 98, 34, 58, 110, 117, 108, 108, 125])) := by
  exact ⟨by decide!, by decide!⟩


/-- C3: for every run of `n` bytes the bounded baseline escape writer
consumes exactly those bytes and emits, for each byte `c`, exactly the
expansion of the claim's table (`specEscape`): verbatim iff
`c ≥ 0x20 ∧ c ≠ 0x22 ∧ c ≠ 0x5c`, the two-byte escapes for the named
bytes, and six-byte lowercase `\u00XX` for the other bytes `< 0x20`. -/
theorem escape_writer_per_byte_table (mode : Mode) (n : Nat) (s : TState)
    (ha : s.allocs = []) :
    ∃ t, writeEscapedCharsNB mode (n + 1) n s = some (false, t) ∧
      t.out = s.out ++ (bytesAt s.inp s.inIdx n).flatMap specEscape ∧
      t.inIdx = s.inIdx + n ∧ t.err = s.err := by
  obtain ⟨t, hrun, hext⟩ := writeEscapedCharsNB_spec mode n s ha
  obtain ⟨hi, hx, ho, he, hu, hl⟩ := hext
  refine ⟨t, hrun, ?_, hx, he⟩
  rw [ho]
  congr 1
  rw [escapeBytes]
  exact List.flatMap_congr (fun c _ => escapeByte_eq_specEscape c)


/-- Witness for C3 at a concrete input: the four bytes
`08 22 C8 41` (backspace, quote, a high byte, letter A). -/
theorem escape_writer_per_byte_table_witness :
    (initState [8, 34, 200, 65] []).allocs = [] ∧
    ∃ t, writeEscapedCharsNB Mode.REALLOC 5 4 (initState [8, 34, 200, 65] []) = some (false, t) ∧
      t.out = (initState [8, 34, 200, 65] []).out ++
        (bytesAt (initState [8, 34, 200, 65] []).inp (initState [8, 34, 200, 65] []).inIdx
          4).flatMap specEscape ∧
      t.inIdx = (initState [8, 34, 200, 65] []).inIdx + 4 ∧
      t.err = (initState [8, 34, 200, 65] []).err :=
  ⟨rfl, escape_writer_per_byte_table Mode.REALLOC 4 (initState [8, 34, 200, 65] []) rfl⟩

/-- C10 (amended): when no allocation ever fails, the boolean returned by
`transcode` agrees with the error field of the final state — `true` is
returned exactly when `err` is set — and on a `false` (success) return
`err` is still `none` and the write cursor bounds the output: it never
exceeds the number of bytes produced, and in REALLOC mode (where the
buffer is handed back whole, with no mid-run drain) `out[0..outIdx)` is
the complete JSON output byte stream. -/
theorem transcode_err_iff (mode : Mode) (dtoa : Nat → List Nat) (dateFmt : Int → List Nat)
    (fuel : Nat) (inp : List Nat) (isArray : Bool) (chunkSize : Nat) (fixedOut : Bool)
    (b : Bool) (t : TState)
    (h : transcode mode dtoa dateFmt fuel inp isArray chunkSize fixedOut [] = some (b, t)) :
    (b = true ↔ t.err ≠ none) ∧
    (b = false → t.err = none ∧ t.outIdx ≤ t.out.length ∧
      (mode = Mode.REALLOC → List.take t.outIdx t.out = t.out)) := by
  obtain ⟨hObj, -, -⟩ := walker_err_allocs fuel
  obtain ⟨hInv, -, -⟩ := walker_outInv fuel
  have key : ∀ S : TState, S.allocs = [] → S.err = none → OutInv mode S →
      transcodeObject mode dtoa dateFmt fuel isArray S = some (b, t) →
      (b = true ↔ t.err ≠ none) ∧
      (b = false → t.err = none ∧ t.outIdx ≤ t.out.length ∧
        (mode = Mode.REALLOC → List.take t.outIdx t.out = t.out)) := by
    intro S hA hE hI hrun
    obtain ⟨c1, c2, c3, c4⟩ := hObj mode dtoa dateFmt isArray S b t hA hrun
    have hIt : OutInv mode t := hInv mode dtoa dateFmt isArray S b t hrun hI
    constructor
    · constructor
      · exact c2
      · intro hne
        by_contra hb
        have hb' : b = false := by
          cases b
          · rfl
          · exact absurd rfl hb
        rw [c3 hb', hE] at hne
        exact hne rfl
    · intro hb
      refine ⟨by rw [c3 hb, hE], hIt.1, fun hm => ?_⟩
      simp [hIt.2 hm]
  simp only [transcode] at h
  refine key _ ?_ ?_ ?_ h
  · split <;> split <;> simp [resize, initState]
  · split <;> split <;> simp [resize, initState]
  · split <;> split <;> simp [OutInv, resize, initState]

/-- Applying the amended C10 theorem at a concrete run: the empty document
in REALLOC mode succeeds with no error set, and the cursor 2 equals the
length of the complete output `\x7b\x7d`, which `out[0..2)` holds. -/
theorem transcode_err_iff_witness :
    (false = true ↔
      (TState.mk [5, 0, 0, 0, 0] 5 [123, 125] 2 12 none false false []).err ≠ none) ∧
    (false = false →
      (TState.mk [5, 0, 0, 0, 0] 5 [123, 125] 2 12 none false false []).err = none ∧
      (TState.mk [5, 0, 0, 0, 0] 5 [123, 125] 2 12 none false false []).outIdx ≤
        (TState.mk [5, 0, 0, 0, 0] 5 [123, 125] 2 12 none false false []).out.length ∧
      (Mode.REALLOC = Mode.REALLOC →
        List.take (TState.mk [5, 0, 0, 0, 0] 5 [123, 125] 2 12 none false false []).outIdx
            (TState.mk [5, 0, 0, 0, 0] 5 [123, 125] 2 12 none false false []).out =
          (TState.mk [5, 0, 0, 0, 0] 5 [123, 125] 2 12 none false false []).out)) :=
  transcode_err_iff Mode.REALLOC dtoaZero dateFmtEmpty 2 [5, 0, 0, 0, 0] false 0 false
    false _ (by decide!)

/-- C1 (amended): a successful transcode of genuine bytes that saw no
`undefined` element — with a double renderer that emits RFC 8259 number
tokens and a date formatter that emits safe string bytes — produces
output that parses as a single JSON text whose value has exactly the
shape the reference decoder assigns to the input document, and the final
input cursor is the document end the decoder computes. -/
theorem transcode_output_parses_with_bson_shape
    (mode : Mode) (dtoa : Nat → List Nat) (dateFmt : Int → List Nat) (fuel : Nat)
    (inp : List Nat) (isArray : Bool) (chunkSize : Nat) (fixedOut : Bool) (t : TState)
    (hB : ByteArr inp) (hdt : ∀ b, NumToken (dtoa b))
    (hdf : ∀ q, SafeChars (dateFmt q)) (hdfB : ∀ q, ByteArr (dateFmt q))
    (hrun : transcode mode dtoa dateFmt fuel inp isArray chunkSize fixedOut [] =
      some (false, t))
    (hu : t.sawUndefined = false) :
    ∃ v, jsonParse (2 * t.out.length + 1) t.out = some v ∧
      refDoc fuel inp 0 isArray = some (shapeOf v, t.inIdx) := by
  obtain ⟨hObj, -, -⟩ := walker_sim fuel
  have key : ∀ S : TState, S.inp = inp → S.inIdx = 0 → S.out = [] → S.allocs = [] →
      transcodeObject mode dtoa dateFmt fuel isArray S = some (false, t) →
      ∃ v, jsonParse (2 * t.out.length + 1) t.out = some v ∧
        refDoc fuel inp 0 isArray = some (shapeOf v, t.inIdx) := by
    intro S hSi hSx hSo hSa hrun2
    obtain ⟨v, d, href, hext, hwv, hbv⟩ := hObj mode dtoa dateFmt isArray S t hSa
      (by rw [hSi]; exact hB) hdt hdf hdfB hrun2 hu
    obtain ⟨hiE, hxE, hoE, heE, huE, hlE⟩ := hext
    have hout : t.out = renderV v := by
      rw [hoE, hSo, List.nil_append]
    have hidx : t.inIdx = d := by omega
    refine ⟨v, ?_, ?_⟩
    · obtain ⟨hp, -, -⟩ := parse_render (2 * t.out.length + 1)
      have hsz : sizeV v < 2 * t.out.length + 1 := by
        have := sizeV_le v hwv
        rw [hout]
        omega
      have := hp v [] hwv hbv trivial hsz
      rw [List.append_nil] at this
      rw [← hout] at this
      rw [jsonParse]
      simp only [this]
      rfl
    · rw [← hSi, ← hSx, href, hidx, hSx]
      simp
  simp only [transcode] at hrun
  refine key _ ?_ ?_ ?_ ?_ hrun
  · split <;> split <;> simp [resize, initState]
  · split <;> split <;> simp [resize, initState]
  · split <;> split <;> simp [resize, initState]
  · split <;> split <;> simp [resize, initState]

/-- Applying the amended C1 theorem at a concrete run: the document
`{"b": null}`. -/
theorem transcode_output_parses_witness :
    ∃ v, jsonParse
        (2 * (TState.mk [8, 0, 0, 0, 10, 98, 0, 0] 8
          [123, 34, 98, 34, 58, 110, 117, 108, 108, 125] 10 20 none false false []).out.length
          + 1)
        (TState.mk [8, 0, 0, 0, 10, 98, 0, 0] 8
          [123, 34, 98, 34, 58, 110, 117, 108, 108, 125] 10 20 none false false []).out =
        some v ∧
      refDoc 3 [8, 0, 0, 0, 10, 98, 0, 0] 0 false =
        some (shapeOf v,
          (TState.mk [8, 0, 0, 0, 10, 98, 0, 0] 8
            [123, 34, 98, 34, 58, 110, 117, 108, 108, 125] 10 20 none false false []).inIdx) :=
  transcode_output_parses_with_bson_shape Mode.REALLOC dtoaZero dateFmtEmpty 3
    [8, 0, 0, 0, 10, 98, 0, 0] false 0 false
    (TState.mk [8, 0, 0, 0, 10, 98, 0, 0] 8
      [123, 34, 98, 34, 58, 110, 117, 108, 108, 125] 10 20 none false false [])
    (by
      intro b hb
      simp only [List.mem_cons, List.not_mem_nil, or_false] at hb
      rcases hb with rfl | rfl | rfl | rfl | rfl | rfl | rfl | rfl <;> norm_num)
    (fun b => ⟨[], [48], [], [], rfl, Or.inl rfl, Or.inl rfl, Or.inl rfl, Or.inl rfl⟩)
    (fun q => by intro c hc; simp [dateFmtEmpty] at hc)
    (fun q => by intro c hc; simp [dateFmtEmpty] at hc)
    (by decide!) rfl

end B2J
